import Mathlib

/-!
# FAT32 navigator: a shallow embedding of `fat32.c` / `shell.c`

The C program reads a FAT32 volume image through one file descriptor.  Here the
image is an explicit value, every `uintN_t` is a natural number reduced with an
explicit `% 2 ^ N` where C arithmetic can wrap, and a C procedure that can end
the process (`exit(EXIT_FAILURE)`, a division trap) returns an `Option` or an
`Outcome`.  Recursive procedures whose recursion is not bounded by their
arguments take a fuel argument; `none` then means that the fuel ran out.

Conventions taken from the platform the program is written for (x86-64 Linux,
gcc): little-endian integers, `#pragma pack(1)` records without padding,
`int` of 32 bits, `off_t` of 64 bits, conversion of an out-of-range value to
`int` by reduction modulo `2 ^ 32`.  `malloc` is taken to succeed and to give a
block of exactly the bytes asked for.  A `read` that delivers more bytes than
the block it is given holds stores outside the block; the program has no
defined behaviour from there on, and the model gives `none`, as it does where
the process ends.  This is the case in `readFromOffset`, which allocates
`secNum * 4` bytes for its 32-byte read, whenever `secNum < 8`.

A directory entry in memory is its 32 bytes.  The string functions that shell.c
applies to `DIR_Name` run until they meet a NUL, in whatever member that is; a
read or a store outside the 32 bytes has no defined behaviour and gives `none`.
The tests of `<ctype.h>` are those of the "C" locale (the program never calls
`setlocale`), and plain `char` is signed.
-/

namespace Fat32

/-! ## Constants of `fat32.h` and `shell.h` -/

def BS_OEMName_LENGTH : Nat := 8
def BS_VolLab_LENGTH : Nat := 11
def BS_FilSysType_LENGTH : Nat := 8
def BS_Ext_BOOT_SIG : Nat := 0x29
def BS_SIG_A_VAL : Nat := 0x55
def BS_SIG_B_VAL : Nat := 0xAA
def FAT32_DEFAULT : Nat := 0x00
def ATTR_DIRECTORY : Nat := 0x10
def ATTR_ARCHIVE : Nat := 0x20
def FSI_Reserved1_LENGTH : Nat := 480
def FSI_Reserved2_LENGTH : Nat := 12
def FSI_LEADSIG : Nat := 0x41615252
def FSI_TRAILSIG : Nat := 0xAA550000
def DIR_NAME_LENGTH : Nat := 11
def ROOT_DIR_CLUS_NUM : Nat := 2
def EOC : Nat := 0x0FFFFFF8
def CLUSENT_AND_OPERATOR : Nat := 0x0FFFFFFF
def FETCH_AND_OPERATOR : Nat := 0xF0000000
def OFF_READ_SZ : Nat := 32
def INT_32 : Nat := 32
def ADDR_ZERO : Nat := 0x00
def HEX_TEN : Nat := 0x10
def OFFSET_MULTIPLIER : Nat := 4

/-- Width of `uint32_t` arithmetic. -/
def U32 : Nat := 2 ^ 32

/-! ## The volume image -/

/-- The backing file: `size` bytes, byte `i` being `byte i % 256`.  A function
rather than a list, so that images beyond 4 GiB can be written down. -/
structure Image where
  size : Nat
  byte : Nat → Nat

/-- What `read` delivers for `len` bytes requested at absolute offset `pos`: the
bytes present, fewer than `len` (possibly none) at the end of the file. -/
def Image.read (img : Image) (pos len : Nat) : List Nat :=
  (List.range (min len (img.size - pos))).map (fun i => img.byte (pos + i) % 256)

/-- Byte `off` of a buffer. -/
def u8 (buf : List Nat) (off : Nat) : Nat := buf.getD off 0

/-- Little-endian `uint16_t` at `off` of a buffer. -/
def le16 (buf : List Nat) (off : Nat) : Nat := u8 buf off + 256 * u8 buf (off + 1)

/-- Little-endian `uint32_t` at `off` of a buffer. -/
def le32 (buf : List Nat) (off : Nat) : Nat :=
  u8 buf off + 256 * u8 buf (off + 1) + 65536 * u8 buf (off + 2) + 16777216 * u8 buf (off + 3)

/-- The `n` bytes at `off` of a buffer (a `char[n]` member). -/
def bytesAt (buf : List Nat) (off n : Nat) : List Nat := (buf.drop off).take n

/-- The little-endian 32-bit word stored in the image at byte offset `pos`, when
all four of its bytes lie inside the image. -/
def Image.word32 (img : Image) (pos : Nat) : Option Nat :=
  if pos + 4 ≤ img.size then some (le32 (img.read pos 4) 0) else none

/-- The image after the 32-bit value `v` is stored little-endian at `pos`. -/
def Image.store32 (img : Image) (pos v : Nat) : Image :=
  { size := img.size
    byte := fun i =>
      if i = pos then v % 256
      else if i = pos + 1 then v / 256 % 256
      else if i = pos + 2 then v / 65536 % 256
      else if i = pos + 3 then v / 16777216 % 256
      else img.byte i }

/-- Byte `pos` of the image. -/
def Image.get8 (img : Image) (pos : Nat) : Nat := img.byte pos % 256

/-- Little-endian 16-bit value at `pos` of the image. -/
def Image.get16 (img : Image) (pos : Nat) : Nat := img.get8 pos + 256 * img.get8 (pos + 1)

/-- Little-endian 32-bit value at `pos` of the image. -/
def Image.get32 (img : Image) (pos : Nat) : Nat :=
  img.get8 pos + 256 * img.get8 (pos + 1) + 65536 * img.get8 (pos + 2)
    + 16777216 * img.get8 (pos + 3)

/-- An image given by its size and the bytes that are not zero. -/
def Image.ofTable (size : Nat) (table : List (Nat × Nat)) : Image :=
  { size := size, byte := fun i => (table.lookup i).getD 0 }

/-- An `lseek` whose result is kept in an `int` and compared with `SEEK_ERR`
(`readDir`, `readFromOffset`, `dirInit`, `fsiInit`): seeking itself succeeds at
every offset, but the offset `0xFFFFFFFF` reads back as `-1` and is taken for a
failure. -/
def seekErrInt (pos : Nat) : Bool := pos % U32 == U32 - 1

/-! ## Packed record layouts -/

/-- Offset of member `f` in a packed record given as its members, in declaration
order, with their sizes in bytes. -/
def offsetIn {α : Type} [DecidableEq α] : List (α × Nat) → α → Nat
  | [], _ => 0
  | (g, n) :: rest, f => if g = f then 0 else n + offsetIn rest f

/-- Size of a packed record. -/
def sizeIn {α : Type} (layout : List (α × Nat)) : Nat := (layout.map Prod.snd).sum

/-- Members of `struct fat32BS_struct`. -/
inductive BSField where
  | BS_jmpBoot | BS_OEMName | BPB_BytesPerSec | BPB_SecPerClus | BPB_RsvdSecCnt
  | BPB_NumFATs | BPB_RootEntCnt | BPB_TotSec16 | BPB_Media | BPB_FATSz16
  | BPB_SecPerTrk | BPB_NumHeads | BPB_HiddSec | BPB_TotSec32 | BPB_FATSz32
  | BPB_ExtFlags | BPB_FSVerLow | BPB_FSVerHigh | BPB_RootClus | BPB_FSInfo
  | BPB_BkBootSec | BPB_reserved | BS_DrvNum | BS_Reserved1 | BS_BootSig
  | BS_VolID | BS_VolLab | BS_FilSysType | BS_CodeReserved | BS_SigA | BS_SigB
  deriving DecidableEq, Repr

/-- The declaration of `struct fat32BS_struct` (fat32.h, under `#pragma pack(1)`). -/
def fat32BS_layout : List (BSField × Nat) :=
  [ (.BS_jmpBoot, 3), (.BS_OEMName, BS_OEMName_LENGTH), (.BPB_BytesPerSec, 2),
    (.BPB_SecPerClus, 1), (.BPB_RsvdSecCnt, 2), (.BPB_NumFATs, 1), (.BPB_RootEntCnt, 2),
    (.BPB_TotSec16, 2), (.BPB_Media, 1), (.BPB_FATSz16, 2), (.BPB_SecPerTrk, 2),
    (.BPB_NumHeads, 2), (.BPB_HiddSec, 4), (.BPB_TotSec32, 4), (.BPB_FATSz32, 4),
    (.BPB_ExtFlags, 2), (.BPB_FSVerLow, 1), (.BPB_FSVerHigh, 1), (.BPB_RootClus, 4),
    (.BPB_FSInfo, 2), (.BPB_BkBootSec, 2), (.BPB_reserved, 12), (.BS_DrvNum, 1),
    (.BS_Reserved1, 1), (.BS_BootSig, 1), (.BS_VolID, 4), (.BS_VolLab, BS_VolLab_LENGTH),
    (.BS_FilSysType, BS_FilSysType_LENGTH), (.BS_CodeReserved, 420), (.BS_SigA, 1),
    (.BS_SigB, 1) ]

/-- Offset of a boot-sector member. -/
def bsOff (f : BSField) : Nat := offsetIn fat32BS_layout f

/-- The value of `sizeof(fat32BS)`. -/
def sizeof_fat32BS : Nat := sizeIn fat32BS_layout

/-- The in-memory boot sector `fat32BS`. -/
structure fat32BS where
  BS_jmpBoot : List Nat := []
  BS_OEMName : List Nat := []
  BPB_BytesPerSec : Nat := 0
  BPB_SecPerClus : Nat := 0
  BPB_RsvdSecCnt : Nat := 0
  BPB_NumFATs : Nat := 0
  BPB_RootEntCnt : Nat := 0
  BPB_TotSec16 : Nat := 0
  BPB_Media : Nat := 0
  BPB_FATSz16 : Nat := 0
  BPB_SecPerTrk : Nat := 0
  BPB_NumHeads : Nat := 0
  BPB_HiddSec : Nat := 0
  BPB_TotSec32 : Nat := 0
  BPB_FATSz32 : Nat := 0
  BPB_ExtFlags : Nat := 0
  BPB_FSVerLow : Nat := 0
  BPB_FSVerHigh : Nat := 0
  BPB_RootClus : Nat := 0
  BPB_FSInfo : Nat := 0
  BPB_BkBootSec : Nat := 0
  BPB_reserved : List Nat := []
  BS_DrvNum : Nat := 0
  BS_Reserved1 : Nat := 0
  BS_BootSig : Nat := 0
  BS_VolID : Nat := 0
  BS_VolLab : List Nat := []
  BS_FilSysType : List Nat := []
  BS_CodeReserved : List Nat := []
  BS_SigA : Nat := 0
  BS_SigB : Nat := 0
  deriving DecidableEq, Repr

/-- The record that `read(fd, head->bs, sizeof(fat32BS))` leaves in memory when
it delivered the bytes `buf`. -/
def decodeBS (buf : List Nat) : fat32BS :=
  { BS_jmpBoot := bytesAt buf (bsOff .BS_jmpBoot) 3
    BS_OEMName := bytesAt buf (bsOff .BS_OEMName) BS_OEMName_LENGTH
    BPB_BytesPerSec := le16 buf (bsOff .BPB_BytesPerSec)
    BPB_SecPerClus := u8 buf (bsOff .BPB_SecPerClus)
    BPB_RsvdSecCnt := le16 buf (bsOff .BPB_RsvdSecCnt)
    BPB_NumFATs := u8 buf (bsOff .BPB_NumFATs)
    BPB_RootEntCnt := le16 buf (bsOff .BPB_RootEntCnt)
    BPB_TotSec16 := le16 buf (bsOff .BPB_TotSec16)
    BPB_Media := u8 buf (bsOff .BPB_Media)
    BPB_FATSz16 := le16 buf (bsOff .BPB_FATSz16)
    BPB_SecPerTrk := le16 buf (bsOff .BPB_SecPerTrk)
    BPB_NumHeads := le16 buf (bsOff .BPB_NumHeads)
    BPB_HiddSec := le32 buf (bsOff .BPB_HiddSec)
    BPB_TotSec32 := le32 buf (bsOff .BPB_TotSec32)
    BPB_FATSz32 := le32 buf (bsOff .BPB_FATSz32)
    BPB_ExtFlags := le16 buf (bsOff .BPB_ExtFlags)
    BPB_FSVerLow := u8 buf (bsOff .BPB_FSVerLow)
    BPB_FSVerHigh := u8 buf (bsOff .BPB_FSVerHigh)
    BPB_RootClus := le32 buf (bsOff .BPB_RootClus)
    BPB_FSInfo := le16 buf (bsOff .BPB_FSInfo)
    BPB_BkBootSec := le16 buf (bsOff .BPB_BkBootSec)
    BPB_reserved := bytesAt buf (bsOff .BPB_reserved) 12
    BS_DrvNum := u8 buf (bsOff .BS_DrvNum)
    BS_Reserved1 := u8 buf (bsOff .BS_Reserved1)
    BS_BootSig := u8 buf (bsOff .BS_BootSig)
    BS_VolID := le32 buf (bsOff .BS_VolID)
    BS_VolLab := bytesAt buf (bsOff .BS_VolLab) BS_VolLab_LENGTH
    BS_FilSysType := bytesAt buf (bsOff .BS_FilSysType) BS_FilSysType_LENGTH
    BS_CodeReserved := bytesAt buf (bsOff .BS_CodeReserved) 420
    BS_SigA := u8 buf (bsOff .BS_SigA)
    BS_SigB := u8 buf (bsOff .BS_SigB) }

/-! ## Cluster addressing (`shell.c`) -/

/-- The function `getFirstSectorOfClus` of shell.c: every intermediate is a
`uint32_t`.  `none` is the division by `BPB_BytesPerSec = 0`. -/
def getFirstSectorOfClus (bs : fat32BS) (clusterNumber : Nat) : Option Nat :=
  if bs.BPB_BytesPerSec = 0 then none
  else
    let rootDirSectors :=
      ((bs.BPB_RootEntCnt * INT_32) + (bs.BPB_BytesPerSec - 1)) / bs.BPB_BytesPerSec
    let firstDataSector :=
      (bs.BPB_RsvdSecCnt + (bs.BPB_NumFATs * bs.BPB_FATSz32) % U32 + rootDirSectors) % U32
    let firstSectorOfCluster :=
      (((clusterNumber + U32 - 2) % U32 * bs.BPB_SecPerClus) % U32 + firstDataSector) % U32
    some ((firstSectorOfCluster * bs.BPB_BytesPerSec) % U32)

/-- The value of `sizeof(uint32_t)`. -/
def sizeof_uint32 : Nat := 4

/-- The function `readFromOffset` of fat32.c: allocate a block of
`secNum * sizeof(uint32_t)` bytes (the product is formed in `size_t` and does
not wrap), seek to `secNum * BPB_BytesPerSec + offset` (computed in `uint32_t`)
and read `OFF_READ_SZ` bytes into the block.  `none` in three cases: the result
of the seek is taken for a failure and the process exits; more bytes arrive than
the block holds (for a read of all 32 bytes: `secNum < 8`), so that the `read`
stores past the end of the block and nothing is defined from there on; fewer
than `OFF_READ_SZ` bytes arrive and the process exits. -/
def readFromOffset (img : Image) (bs : fat32BS) (secNum offset : Nat) : Option (List Nat) :=
  let blockSize := secNum * sizeof_uint32
  let pos := (secNum * bs.BPB_BytesPerSec + offset) % U32
  if seekErrInt pos then none
  else
    let buffer := img.read pos OFF_READ_SZ
    if blockSize < buffer.length then none
    else if buffer.length < OFF_READ_SZ then none else some buffer

/-- The masking sequence of `getNextClus` applied to the word `w = buffer[0]`. -/
def maskEntry (w : Nat) : Nat :=
  let nextClus := w
  let nextClus := nextClus &&& CLUSENT_AND_OPERATOR
  let nextClus := nextClus &&& FETCH_AND_OPERATOR
  nextClus ||| (w &&& CLUSENT_AND_OPERATOR)

/-- The function `getNextClus` of shell.c.  `none` is a division by
`BPB_BytesPerSec = 0`, or `readFromOffset` gives no buffer: the process exits
there, or its `read` stores past the block of `thisFatSecNum * 4` bytes. -/
def getNextClus (img : Image) (bs : fat32BS) (clusNum : Nat) : Option Nat :=
  if bs.BPB_BytesPerSec = 0 then none
  else
    let fatOffset := (clusNum * OFFSET_MULTIPLIER) % U32
    let thisFatSecNum := (bs.BPB_RsvdSecCnt + fatOffset / bs.BPB_BytesPerSec) % U32
    let thisFatEntOffset := fatOffset % bs.BPB_BytesPerSec
    match readFromOffset img bs thisFatSecNum thisFatEntOffset with
    | none => none
    | some buffer => some (maskEntry (le32 buffer 0))

/-! ## The FSInfo sector and directory entries (`fat32.h`) -/

/-- Members of `struct FSInfo_struct`. -/
inductive FSIField where
  | FSI_LeadSig | FSI_Reserved1 | FSI_StrucSig | FSI_Free_Count | FSI_Nxt_Free
  | FSI_Reserved2 | FSI_TrailSig
  deriving DecidableEq, Repr

/-- The declaration of `struct FSInfo_struct` (packed). -/
def FSInfo_layout : List (FSIField × Nat) :=
  [ (.FSI_LeadSig, 4), (.FSI_Reserved1, FSI_Reserved1_LENGTH), (.FSI_StrucSig, 4),
    (.FSI_Free_Count, 4), (.FSI_Nxt_Free, 4), (.FSI_Reserved2, FSI_Reserved2_LENGTH),
    (.FSI_TrailSig, 4) ]

/-- Offset of an FSInfo member. -/
def fsiOff (f : FSIField) : Nat := offsetIn FSInfo_layout f

/-- The value of `sizeof(FSInfo)`. -/
def sizeof_FSInfo : Nat := sizeIn FSInfo_layout

/-- The in-memory FSInfo sector. -/
structure FSInfo where
  FSI_LeadSig : Nat := 0
  FSI_Reserved1 : List Nat := []
  FSI_StrucSig : Nat := 0
  FSI_Free_Count : Nat := 0
  FSI_Nxt_Free : Nat := 0
  FSI_Reserved2 : List Nat := []
  FSI_TrailSig : Nat := 0
  deriving DecidableEq, Repr

/-- The record that `read(fd, head->fsi, sizeof(FSInfo))` leaves in memory. -/
def decodeFSI (buf : List Nat) : FSInfo :=
  { FSI_LeadSig := le32 buf (fsiOff .FSI_LeadSig)
    FSI_Reserved1 := bytesAt buf (fsiOff .FSI_Reserved1) FSI_Reserved1_LENGTH
    FSI_StrucSig := le32 buf (fsiOff .FSI_StrucSig)
    FSI_Free_Count := le32 buf (fsiOff .FSI_Free_Count)
    FSI_Nxt_Free := le32 buf (fsiOff .FSI_Nxt_Free)
    FSI_Reserved2 := bytesAt buf (fsiOff .FSI_Reserved2) FSI_Reserved2_LENGTH
    FSI_TrailSig := le32 buf (fsiOff .FSI_TrailSig) }

/-- Members of `struct fat32Dir_struct`. -/
inductive DirField where
  | DIR_Name | DIR_Attr | DIR_NTRes | DIR_CrtTimeTenth | DIR_CrtTime | DIR_CrtDate
  | DIR_LstAccDate | DIR_FstClusHI | DIR_WrtTime | DIR_WrtDate | DIR_FstClusLO
  | DIR_FileSize
  deriving DecidableEq, Repr

/-- The declaration of `struct fat32Dir_struct` (packed). -/
def fat32Dir_layout : List (DirField × Nat) :=
  [ (.DIR_Name, DIR_NAME_LENGTH), (.DIR_Attr, 1), (.DIR_NTRes, 1), (.DIR_CrtTimeTenth, 1),
    (.DIR_CrtTime, 2), (.DIR_CrtDate, 2), (.DIR_LstAccDate, 2), (.DIR_FstClusHI, 2),
    (.DIR_WrtTime, 2), (.DIR_WrtDate, 2), (.DIR_FstClusLO, 2), (.DIR_FileSize, 4) ]

/-- Offset of a directory-entry member. -/
def dirOff (f : DirField) : Nat := offsetIn fat32Dir_layout f

/-- The value of `sizeof(fat32Dir)`. -/
def sizeof_fat32Dir : Nat := sizeIn fat32Dir_layout

/-- An in-memory directory entry, kept as the bytes of the record: the string
functions of shell.c work on that memory, not on the members. -/
structure fat32Dir where
  raw : List Nat
  deriving DecidableEq, Repr

/-- Byte `i` of `DIR_Name`. -/
def fat32Dir.DIR_Name (d : fat32Dir) (i : Nat) : Nat := u8 d.raw (dirOff .DIR_Name + i)

/-- Member `DIR_Attr`. -/
def fat32Dir.DIR_Attr (d : fat32Dir) : Nat := u8 d.raw (dirOff .DIR_Attr)

/-- Member `DIR_FstClusHI`. -/
def fat32Dir.DIR_FstClusHI (d : fat32Dir) : Nat := le16 d.raw (dirOff .DIR_FstClusHI)

/-- Member `DIR_FstClusLO`. -/
def fat32Dir.DIR_FstClusLO (d : fat32Dir) : Nat := le16 d.raw (dirOff .DIR_FstClusLO)

/-- Member `DIR_FileSize`. -/
def fat32Dir.DIR_FileSize (d : fat32Dir) : Nat := le32 d.raw (dirOff .DIR_FileSize)

/-! ## Loading a volume (`fat32.c`) -/

/-- The head `fat32Head`: what its three pointers point to. -/
structure fat32Head where
  bs : fat32BS
  fsi : FSInfo
  dir : fat32Dir
  deriving DecidableEq, Repr

/-- The function `bootSectorInit`: the descriptor is fresh, so the read is at
offset 0; then the last byte of the two strings is overwritten with NUL. -/
def bootSectorInit (img : Image) : Option fat32BS :=
  let buf := img.read 0 sizeof_fat32BS
  if buf.length < sizeof_fat32BS then none
  else
    let bs := decodeBS buf
    some { bs with
      BS_VolLab := bs.BS_VolLab.set (BS_VolLab_LENGTH - 1) 0
      BS_FilSysType := bs.BS_FilSysType.set (BS_FilSysType_LENGTH - 1) 0 }

/-- The function `dirInit`: seek to the BYTE offset `dirClusAddr`, read one
entry, overwrite the last name byte with NUL. -/
def dirInit (img : Image) (dirClusAddr : Nat) : Option fat32Dir :=
  if seekErrInt dirClusAddr then none
  else
    let buf := img.read dirClusAddr sizeof_fat32Dir
    if buf.length < sizeof_fat32Dir then none
    else some ⟨buf.set (DIR_NAME_LENGTH - 1) 0⟩

/-- The function `fsiInit`. -/
def fsiInit (img : Image) (bs : fat32BS) (fsiSecNum : Nat) : Option FSInfo :=
  let pos := (fsiSecNum * bs.BPB_BytesPerSec) % U32
  if seekErrInt pos then none
  else
    let buf := img.read pos sizeof_FSInfo
    if buf.length < sizeof_FSInfo then none
    else
      let fsi := decodeFSI buf
      if fsi.FSI_LeadSig ≠ FSI_LEADSIG ∨ fsi.FSI_TrailSig ≠ FSI_TRAILSIG then none
      else some fsi

/-- The function `createHead`; `none` is `exit(EXIT_FAILURE)`. -/
def createHead (img : Image) : Option fat32Head :=
  match bootSectorInit img with
  | none => none
  | some bs =>
    if bs.BS_BootSig ≠ BS_Ext_BOOT_SIG ∨ bs.BS_SigA ≠ BS_SIG_A_VAL ∨ bs.BS_SigB ≠ BS_SIG_B_VAL
    then none
    else if bs.BPB_FATSz16 ≠ FAT32_DEFAULT ∨ bs.BPB_TotSec16 ≠ FAT32_DEFAULT
        ∨ bs.BPB_RootEntCnt ≠ FAT32_DEFAULT
    then none
    else
      match dirInit img bs.BPB_RootClus with
      | none => none
      | some dir =>
        match fsiInit img bs bs.BPB_FSInfo with
        | none => none
        | some fsi => if dir.DIR_Attr > 0x20 then none else some ⟨bs, fsi, dir⟩

/-- The function `readDir`: one entry at byte offset `secNum + dirNum`. -/
def readDir (img : Image) (secNum dirNum : Nat) : Option fat32Dir :=
  let pos := (secNum + dirNum) % U32
  if seekErrInt pos then none
  else
    let buf := img.read pos sizeof_fat32Dir
    if buf.length < sizeof_fat32Dir then none else some ⟨buf⟩

/-! ## Runs of the shell commands (`shell.c`) -/

/-- What a run does that can be observed from outside. -/
inductive Ev where
  /-- the procedure located cluster `clus` and starts reading it -/
  | enter (clus : Nat)
  /-- the call `readDir` delivered the entry at byte offset `pos` -/
  | slot (pos : Nat)
  /-- the call `write(outFD, str, len)`: `len` bytes leave the buffer, of which
  `data` are those the preceding `read` placed there (the rest of the buffer is
  uninitialised heap memory) -/
  | write (len : Nat) (data : List Nat)
  deriving DecidableEq, Repr

/-- How a procedure ends: it returns to its caller, or the run stops inside it:
the process is ended (`exit(EXIT_FAILURE)` or a trap), or a `read` of
`readFromOffset` stored past its block and nothing is defined from there on. -/
inductive Outcome (α : Type) where
  | returned (a : α)
  | exited
  deriving DecidableEq, Repr

/-- A finished run: its events in order and how it ended. -/
structure Run (α : Type) where
  trace : List Ev
  outcome : Outcome α
  deriving DecidableEq, Repr

/-- The clusters a run entered, in order. -/
def clusters : List Ev → List Nat
  | [] => []
  | .enter c :: rest => c :: clusters rest
  | _ :: rest => clusters rest

/-- The lengths of the output writes of a run, in order. -/
def writeSizes : List Ev → List Nat
  | [] => []
  | .write len _ :: rest => len :: writeSizes rest
  | _ :: rest => writeSizes rest

/-- The image bytes a run handed to its output writes, in order. -/
def written : List Ev → List Nat
  | [] => []
  | .write _ data :: rest => data ++ written rest
  | _ :: rest => written rest

/-- Every output write of the run wrote bytes that were read from the image. -/
def fullyRead : List Ev → Bool
  | [] => true
  | .write len data :: rest => (data.length == len) && fullyRead rest
  | _ :: rest => fullyRead rest

/-- The local `bytesPerClus` of `writeFile`: the product of a `uint8_t` and a
`uint16_t`, formed in `int`, where it cannot overflow. -/
def bytesPerClus (bs : fat32BS) : Nat := bs.BPB_SecPerClus * bs.BPB_BytesPerSec

/-- The function `writeFile` of shell.c; `fileSize` is a C `int`.  A short
`read` is not an error there, and `write` is issued with the requested length
either way. -/
def writeFile (img : Image) (bs : fat32BS) : Nat → Nat → Int → Option (Run Unit)
  | 0, _, _ => none
  | fuel + 1, clusNum, fileSize =>
    if fileSize < 0 then some ⟨[], .returned ()⟩
    else
      match getFirstSectorOfClus bs clusNum with
      | none => some ⟨[], .exited⟩
      | some firstSecOfClus =>
        if fileSize ≤ (bytesPerClus bs : Int) then
          some ⟨[.enter clusNum,
                 .write fileSize.toNat (img.read firstSecOfClus fileSize.toNat)], .returned ()⟩
        else
          let here := [Ev.enter clusNum,
                       Ev.write (bytesPerClus bs) (img.read firstSecOfClus (bytesPerClus bs))]
          match getNextClus img bs clusNum with
          | none => some ⟨here, .exited⟩
          | some nextClus =>
            if nextClus < EOC then
              match writeFile img bs fuel nextClus (fileSize - (bytesPerClus bs : Int)) with
              | none => none
              | some r => some ⟨here ++ r.trace, r.outcome⟩
            else some ⟨here, .returned ()⟩

/-- Conversion of a `uint32_t` argument to an `int` parameter. -/
def toInt32 (x : Nat) : Int :=
  if x % U32 < 2 ^ 31 then ((x % U32 : Nat) : Int) else ((x % U32 : Nat) : Int) - (U32 : Int)

/-- What `doDownload` prints before it returns. -/
inductive Msg where
  /-- "Done.", after `writeFile` has returned -/
  | done
  /-- "Error: File not found" -/
  | notFound
  deriving DecidableEq, Repr

/-- The local `newClus` of `doDownload` (lines 468 to 470): the entry's first
cluster. -/
def newClusOf (dir : fat32Dir) : Nat :=
  let newClus := ADDR_ZERO
  let newClus := newClus ||| (dir.DIR_FstClusHI <<< HEX_TEN) % U32
  newClus ||| dir.DIR_FstClusLO

/-- Lines 465 to 491 of `doDownload`: the branch taken for the entry whose name
matched; `dir` is the record as `formatDirectory` left it.  The output file is taken
to open. -/
def doDownload_found (img : Image) (bs : fat32BS) (fuel : Nat) (dir : fat32Dir) :
    Option (Run Msg) :=
  match writeFile img bs fuel (newClusOf dir) (toInt32 dir.DIR_FileSize) with
  | none => none
  | some r =>
    match r.outcome with
    | .returned _ => some ⟨r.trace, .returned .done⟩
    | .exited => some ⟨r.trace, .exited⟩

/-- Values of `i` in `for(i=0; i < BPB_SecPerClus; i+= BPB_BytesPerSec)`. -/
def sectorOffsets (bs : fat32BS) : List Nat :=
  (List.range ((bs.BPB_SecPerClus + bs.BPB_BytesPerSec - 1) / bs.BPB_BytesPerSec)).map
    (fun k => k * bs.BPB_BytesPerSec)

/-- Values of `j` in `for(j=0; j < BPB_BytesPerSec; j+=sizeof(fat32Dir))`. -/
def slotOffsets (bs : fat32BS) : List Nat :=
  (List.range ((bs.BPB_BytesPerSec + sizeof_fat32Dir - 1) / sizeof_fat32Dir)).map
    (fun k => k * sizeof_fat32Dir)

/-- The function `getVolumeID`, as far as it can end the process: the entry it
reads at the start of the root cluster (its `strcpy` is not modelled). -/
def getVolumeID (img : Image) (bs : fat32BS) : Option fat32Dir :=
  match getFirstSectorOfClus bs bs.BPB_RootClus with
  | none => none
  | some firstSecOfClus => readDir img firstSecOfClus 0

/-- The inner loop of `doDir` over the slots at `base`: events, and whether the
process was ended.  `endMark` says whether, after `formatDirectory`, the first
name byte of the entry is NUL (line 232); the printing is not part of the run. -/
def doDirSlots (img : Image) (bs : fat32BS) (endMark : fat32Dir → Bool) (base : Nat) :
    Bool → List Nat → List Ev × Bool
  | _, [] => ([], false)
  | initial, j :: js =>
    match readDir img base j with
    | none => ([], true)
    | some curDir =>
      if initial && (getVolumeID img bs).isNone then ([.slot ((base + j) % U32)], true)
      else if endMark curDir then ([.slot ((base + j) % U32)], false)
      else
        let r := doDirSlots img bs endMark base false js
        (.slot ((base + j) % U32) :: r.1, r.2)

/-- The outer loop of `doDir`; `recur` is the recursive call of `doDir`. -/
def doDirSectors (img : Image) (bs : fat32BS) (endMark : fat32Dir → Bool)
    (recur : Nat → Option (Run Unit)) (curDirClus firstSecOfClus : Nat) :
    Bool → List Nat → Option (Run Unit)
  | _, [] => some ⟨[], .returned ()⟩
  | initial, i :: is =>
    match doDirSlots img bs endMark ((firstSecOfClus + i) % U32) initial (slotOffsets bs) with
    | (evs, true) => some ⟨evs, .exited⟩
    | (evs, false) =>
      match getNextClus img bs curDirClus with
      | none => some ⟨evs, .exited⟩
      | some nextClus =>
        if nextClus < EOC then
          match recur nextClus with
          | none => none
          | some r =>
            match r.outcome with
            | .exited => some ⟨evs ++ r.trace, .exited⟩
            | .returned _ =>
              match doDirSectors img bs endMark recur curDirClus firstSecOfClus
                  (initial && (slotOffsets bs).isEmpty) is with
              | none => none
              | some r2 => some ⟨evs ++ r.trace ++ r2.trace, r2.outcome⟩
        else
          match doDirSectors img bs endMark recur curDirClus firstSecOfClus
              (initial && (slotOffsets bs).isEmpty) is with
          | none => none
          | some r2 => some ⟨evs ++ r2.trace, r2.outcome⟩

/-- The function `doDir` of shell.c as a run (what it prints is left out). -/
def doDir (img : Image) (bs : fat32BS) (endMark : fat32Dir → Bool) :
    Nat → Nat → Bool → Option (Run Unit)
  | 0, _, _ => none
  | fuel + 1, curDirClus, firstRun =>
    match getFirstSectorOfClus bs curDirClus with
    | none => some ⟨[], .exited⟩
    | some firstSecOfClus =>
      match doDirSectors img bs endMark (fun c => doDir img bs endMark fuel c false)
          curDirClus firstSecOfClus firstRun (sectorOffsets bs) with
      | none => none
      | some r => some ⟨.enter curDirClus :: r.trace, r.outcome⟩

/-- The inner loop of `doCD` over the slots at `base`: events, and the way the
procedure ended if it ended inside the loop.  `resolve` is the body from
`formatDirectory` to the end of the `if` on `DIR_Attr` (lines 352 to 407): the
value returned for this entry, if one is. -/
def doCDSlots (img : Image) (resolve : fat32Dir → Option Nat) (base : Nat) :
    List Nat → List Ev × Option (Outcome Nat)
  | [] => ([], none)
  | j :: js =>
    match readDir img base j with
    | none => ([], some .exited)
    | some dir =>
      if dir.DIR_Name 0 = ADDR_ZERO then ([.slot ((base + j) % U32)], none)
      else
        match resolve dir with
        | some newClus => ([.slot ((base + j) % U32)], some (.returned newClus))
        | none =>
          let r := doCDSlots img resolve base js
          (.slot ((base + j) % U32) :: r.1, r.2)

/-- The outer loop of `doCD`. -/
def doCDSectors (img : Image) (bs : fat32BS) (resolve : fat32Dir → Option Nat)
    (firstSecOfClus : Nat) : List Nat → List Ev × Option (Outcome Nat)
  | [] => ([], none)
  | i :: is =>
    match doCDSlots img resolve ((firstSecOfClus + i) % U32) (slotOffsets bs) with
    | (evs, some o) => (evs, some o)
    | (evs, none) =>
      let r := doCDSectors img bs resolve firstSecOfClus is
      (evs ++ r.1, r.2)

/-- The function `doCD` of shell.c as a run.  `arg` is the second token of the
command line (`none` when there is none); `resolve arg isRoot curDirClus dir` is
what the loop body returns for the entry `dir`, if it returns. -/
def doCD (img : Image) (bs : fat32BS) (arg : Option (List Nat))
    (resolve : List Nat → Bool → Nat → fat32Dir → Option Nat) :
    Nat → Nat → Option (Run Nat)
  | 0, _ => none
  | fuel + 1, curDirClus =>
    let isRoot := curDirClus == bs.BPB_RootClus
    match arg with
    | none => some ⟨[], .returned curDirClus⟩
    | some a =>
      match getFirstSectorOfClus bs curDirClus with
      | none => some ⟨[], .exited⟩
      | some firstSecOfClus =>
        match doCDSectors img bs (resolve a isRoot curDirClus) firstSecOfClus
            (sectorOffsets bs) with
        | (evs, some o) => some ⟨.enter curDirClus :: evs, o⟩
        | (evs, none) =>
          match getNextClus img bs curDirClus with
          | none => some ⟨.enter curDirClus :: evs, .exited⟩
          | some nextClus =>
            if nextClus < EOC then
              match doCD img bs arg resolve fuel nextClus with
              | none => none
              | some r => some ⟨.enter curDirClus :: evs ++ r.trace, r.outcome⟩
            else some ⟨.enter curDirClus :: evs, .returned curDirClus⟩

/-! ## Describing the FAT of an image -/

/-- The clusters `cs` follow one another as `getNextClus` reads the FAT: on each
it has a result, the next cluster, which is not an end-of-chain value. -/
def isChain (img : Image) (bs : fat32BS) : List Nat → Bool
  | [] => true
  | [_] => true
  | c :: c' :: rest =>
    (getNextClus img bs c == some c') && decide (c' < EOC) && isChain img bs (c' :: rest)

/-- The chain `cs` ends with its last cluster: on that cluster `getNextClus` has
a result, and it is an end-of-chain value. -/
def chainEnds (img : Image) (bs : fat32BS) (cs : List Nat) : Bool :=
  match cs.getLast? with
  | none => false
  | some c =>
    match getNextClus img bs c with
    | none => false
    | some v => decide (EOC ≤ v)

/-- Every cluster of `cs` links to a cluster of `cs`: on each `getNextClus` has a
result, a cluster of `cs`; following the FAT from any of them never reaches an
end of chain. -/
def closedChain (img : Image) (bs : fat32BS) (cs : List Nat) : Bool :=
  cs.all fun c =>
    match getNextClus img bs c with
    | none => false
    | some c' => decide (c' < EOC) && cs.contains c'

/-- The bytes of cluster `c`: what a read of a whole cluster at
`getFirstSectorOfClus c` delivers. -/
def blockAt (img : Image) (bs : fat32BS) (c : Nat) : List Nat :=
  match getFirstSectorOfClus bs c with
  | none => []
  | some firstSecOfClus => img.read firstSecOfClus (bytesPerClus bs)

/-- Cluster `c` lies inside the image as a whole. -/
def blockInside (img : Image) (bs : fat32BS) (c : Nat) : Bool :=
  match getFirstSectorOfClus bs c with
  | none => false
  | some firstSecOfClus => decide (firstSecOfClus + bytesPerClus bs ≤ img.size)

/-- The bytes of the clusters `cs`, one cluster after the other. -/
def concatBlocks (img : Image) (bs : fat32BS) : List Nat → List Nat
  | [] => []
  | c :: rest => blockAt img bs c ++ concatBlocks img bs rest

/-! ## Strings in the memory of a directory entry (`shell.c`, libc) -/

def FREE_DIR : Nat := 0xE5
def KANJI_DIR : Nat := 0x05
def V_ARCHIVE : Nat := 0x4C
def INV_DIR : Nat := 0xF
def INV_ARCHIVE : Nat := 0x22
def ATTR_READ_ONLY : Nat := 0x01
def ATTR_HIDDEN : Nat := 0x02
def ATTR_SYSTEM : Nat := 0x04
def ATTR_VOLUME_ID : Nat := 0x08
def FAT12_NUMCLUS : Nat := 4085
def FAT16_NUMCLUS : Nat := 65525
def EXT_DIST : Nat := 4
def VALID_ASCII_START : Nat := 33
def VALID_ASCII_END : Nat := 126
def SINGLE_READ : Nat := 1
def FIRST_DIR_INDEX : Nat := 0

/-- The string `DOT` of shell.h, without its NUL. -/
def DOT : List Nat := [0x2E]

/-- The string `DOTDOT` of shell.h, without its NUL. -/
def DOTDOT : List Nat := [0x2E, 0x2E]

/-- The libc test `isspace` on a byte, in the "C" locale (the program never calls
`setlocale`): space, and the controls from TAB to CR. -/
def isspace (c : Nat) : Bool := c == 0x20 || (decide (0x09 ≤ c) && decide (c ≤ 0x0D))

/-- The libc test `isalpha` on a byte, in the "C" locale. -/
def isalpha (c : Nat) : Bool :=
  (decide (0x41 ≤ c) && decide (c ≤ 0x5A)) || (decide (0x61 ≤ c) && decide (c ≤ 0x7A))

/-- The libc test `isalnum` on a byte, in the "C" locale. -/
def isalnum (c : Nat) : Bool := isalpha c || (decide (0x30 ≤ c) && decide (c ≤ 0x39))

/-- The value of a `char` object that holds the byte `b`: plain `char` is signed, so
the bytes from `0x80` on are negative. -/
def charVal (b : Nat) : Int :=
  if b % 256 < 128 then ((b % 256 : Nat) : Int) else ((b % 256 : Nat) : Int) - 256

/-- A store of byte `v` at index `i` of the memory `m`; `none` when the index lies
outside. -/
def poke (m : List Nat) (i v : Nat) : Option (List Nat) :=
  if i < m.length then some (m.set i v) else none

/-- The call `strstr(s, SPACE_CHAR)` on the memory `m` read from its start, `p`
being the index of that start: `some (some k)` is a pointer to index `k`,
`some none` is `NULL` (the string ends before any space), `none` means that the
scan left the memory. -/
def strstrSpace : List Nat → Nat → Option (Option Nat)
  | [], _ => none
  | c :: rest, p =>
    if c = 0 then some none
    else if c = 0x20 then some (some p)
    else strstrSpace rest (p + 1)

/-- The call `strlen(s)` on the memory `m` read from its start; `none` when no NUL
lies inside. -/
def strlen : List Nat → Option Nat
  | [] => none
  | c :: rest => if c = 0 then some 0 else (strlen rest).map (· + 1)

/-- The string at the start of the memory `m`: its bytes before the first NUL. -/
def cstr : List Nat → Option (List Nat)
  | [] => none
  | c :: rest => if c = 0 then some [] else (cstr rest).map (c :: ·)

/-- The test `strcmp(s, arg) == 0` for the string `s` at the start of the memory and
the string whose bytes (without the NUL) are `arg`. -/
def strcmpEq : List Nat → List Nat → Option Bool
  | [], _ => none
  | c :: _, [] => some (c == 0)
  | c :: rest, a :: as =>
    if c ≠ a then some false
    else if a = 0 then some true
    else strcmpEq rest as

/-- The loop of `removeSpace` with `source` at index `s` and `dest` at index `d`;
every step reads one byte at `dest`, so `fuel` steps are enough when `fuel` bytes
lie at and after `d`. -/
def removeSpaceGo : Nat → List Nat → Nat → Nat → Option (List Nat)
  | 0, _, _, _ => none
  | fuel + 1, m, s, d =>
    match m[d]? with
    | none => none
    | some c =>
      if isspace c then removeSpaceGo fuel m s (d + 1)
      else if c = 0 then some (m.set s 0)
      else removeSpaceGo fuel (m.set s c) (s + 1) (d + 1)

/-- The function `removeSpace(source, dest)` of shell.c on the memory `m`, both
pointers given as indices; `none` when `dest` leaves the memory. -/
def removeSpace (m : List Nat) (source dest : Nat) : Option (List Nat) :=
  removeSpaceGo (m.length + 1) m source dest

/-- The loop of `addDot`: `cur` is stored at each index in turn and replaced with
what was there. -/
def addDotLoop : List Nat → Nat → List Nat → List Nat
  | m, _, [] => m
  | m, cur, i :: is => addDotLoop (m.set i cur) (m.getD i 0) is

/-- The function `addDot(source, dest)` of shell.c with `source` at the start of
the memory `m` (`dest` is not used by it); `none` when `strlen` leaves the memory
or the first index is negative. -/
def addDot (m : List Nat) : Option (List Nat) :=
  match strlen m with
  | none => none
  | some len =>
    let i : Int :=
      if len > DIR_NAME_LENGTH then (DIR_NAME_LENGTH : Int) - EXT_DIST + 1
      else (len : Int) - EXT_DIST + 1
    if i < 0 then none
    else some (addDotLoop m 0x2E (List.range' i.toNat (len + 1 - i.toNat)))

/-- The first loop of `formatDirectory` (lines 619 to 628): `j` is the index written
next, the list holds the values of `i` still to come. -/
def copyNoSpace : List Nat → Nat → List Nat → List Nat × Nat
  | m, j, [] => (m, j)
  | m, j, i :: is =>
    if !isspace (m.getD i 0) then copyNoSpace (m.set j (m.getD i 0)) (j + 1) is
    else copyNoSpace m j is

/-- The function `formatDirectory` of shell.c on the 32 bytes of the entry, where
`DIR_Name` starts at index 0.  The string functions run until they meet a NUL,
whatever member that is in; `none` means that a read or a store left the record,
for which C defines no behaviour. -/
def formatDirectory (dir : fat32Dir) : Option fat32Dir :=
  let m := dir.raw
  if dir.DIR_Attr = ATTR_DIRECTORY then
    let r := copyNoSpace m 0 (List.range DIR_NAME_LENGTH)
    match poke r.1 r.2 0 with
    | none => none
    | some m =>
      match removeSpace m 0 0 with
      | none => none
      | some m => some ⟨m⟩
  else if dir.DIR_Attr = ATTR_ARCHIVE then
    match strstrSpace m 0 with
    | none => none
    | some none =>
      match removeSpace m 0 0 with
      | none => none
      | some m => some ⟨m⟩
    | some (some space) =>
      let m := m.set space 0x2E
      let m2 :=
        if space ≥ DIR_NAME_LENGTH then
          match addDot m with
          | none => none
          | some m => poke m (space + 1) 0
        else some m
      match m2 with
      | none => none
      | some m =>
        match removeSpace m 0 0 with
        | none => none
        | some m =>
          match poke m (space + EXT_DIST) 0 with
          | none => none
          | some m => some ⟨m⟩
  else
    match strstrSpace m 0 with
    | none => none
    | some space =>
      let m1 :=
        match space with
        | none => some m
        | some k =>
          match m[k + 1]? with
          | none => none
          | some c =>
            if isalpha c then
              if k ≤ DIR_NAME_LENGTH - 1 then some (m.set k 0x2E) else addDot m
            else some m
      match m1 with
      | none => none
      | some m =>
        match strstrSpace m 0 with
        | none => none
        | some none => some ⟨m⟩
        | some (some k) =>
          match poke (m.set k 0) (k + EXT_DIST) 0 with
          | none => none
          | some m => some ⟨m⟩

/-- The function `checkName` of shell.c on the memory at `s`; `none` when the scan
leaves the memory. -/
def checkName : List Nat → Option Bool
  | [] => none
  | cur :: rest =>
    if cur ≠ 0 ∧ (isalnum cur ∨ (VALID_ASCII_START ≤ cur ∧ cur ≤ VALID_ASCII_END)) then
      checkName rest
    else some (cur == 0)

/-- The entry's name as the program uses it (`%s`, `strcmp`): the string at
`DIR_Name`. -/
def fat32Dir.name (d : fat32Dir) : Option (List Nat) := cstr d.raw

/-! ## The bodies of the directory loops (`shell.c`) -/

/-- The test of line 232 of `doDir` on the entry that `readDir` delivered: the entry
is formatted first.  Where `formatDirectory` leaves the record the test has no
defined value; the loop is then taken to go on. -/
def doDir_endMark (curDir : fat32Dir) : Bool :=
  match formatDirectory curDir with
  | none => false
  | some d => d.DIR_Name 0 == ADDR_ZERO

/-- One of the eight attribute values that lines 259 to 262 and 278 to 281 of
`doDir` exclude. -/
def excludedAttr (a : Nat) : Bool :=
  a == ADDR_ZERO || a == ATTR_READ_ONLY || a == ATTR_HIDDEN || a == ATTR_SYSTEM
    || a == ATTR_VOLUME_ID || a == ATTR_DIRECTORY || a == INV_DIR || a == INV_ARCHIVE

/-- Lines 240 to 286 of `doDir`: whether one of the `printf` calls that list an entry
is reached for the formatted entry `curDir`.  `i` is the outer loop variable and
`other` the memory that `curDir[i]` denotes when `i` is not 0 (it lies behind the
record, and nothing is known about it).  `checkName` is called only where the
conditions before it hold; `none` when a call leaves the record. -/
def doDir_lists (i : Nat) (other curDir : fat32Dir) : Option Bool :=
  let ci := if i = 0 then curDir else other
  let name0 := charVal (curDir.DIR_Name 0)
  let ck := checkName curDir.raw
  let pre1 := (curDir.DIR_Attr &&& ATTR_DIRECTORY == ATTR_DIRECTORY)
    && name0 != (FREE_DIR : Int) && name0 != (KANJI_DIR : Int)
  let pre2 := (curDir.DIR_Attr &&& ATTR_ARCHIVE == ATTR_ARCHIVE)
    && name0 != (FREE_DIR : Int) && name0 != (KANJI_DIR : Int)
  let pre3 := charVal (ci.DIR_Name 0) != (FREE_DIR : Int)
  let post3 := ci.DIR_Attr == ATTR_READ_ONLY || ci.DIR_Attr == ATTR_DIRECTORY
    || ci.DIR_Attr == ATTR_ARCHIVE || ci.DIR_Attr == ATTR_HIDDEN
    || curDir.DIR_Attr == V_ARCHIVE
  let pre4 := !excludedAttr ci.DIR_Attr
  match (if pre1 then ck else some false) with
  | none => none
  | some true => some true
  | some false =>
    match (if pre2 then ck else some false) with
    | none => none
    | some true => some (curDir.DIR_Attr == ATTR_ARCHIVE || !excludedAttr ci.DIR_Attr)
    | some false =>
      match (if pre3 then ck else some false) with
      | none => none
      | some c3 =>
        if c3 && post3 then some true
        else
          match (if pre4 then ck else some false) with
          | none => none
          | some c4 => some c4

/-- The body of the inner loop of `doDir` from `formatDirectory` on (lines 223 to
286) for the entry that `readDir` delivered: whether the entry is listed. -/
def doDir_entry (i : Nat) (other curDir : fat32Dir) : Option Bool :=
  match formatDirectory curDir with
  | none => none
  | some d => if d.DIR_Name 0 = ADDR_ZERO then some false else doDir_lists i other d

/-- Lines 352 to 407 of `doCD`, the `resolve` of the loop: the value returned for
the entry `dir`, if the function returns there.  Where `formatDirectory` or
`strcmp` leaves the record nothing is returned in the model. -/
def doCD_entry (arg : List Nat) (isRoot : Bool) (curDirClus : Nat) (dir : fat32Dir) :
    Option Nat :=
  match formatDirectory dir with
  | none => none
  | some dir =>
    if dir.DIR_Attr = ATTR_DIRECTORY then
      if arg = DOT then some curDirClus
      else
        match strcmpEq dir.raw DOTDOT, strcmpEq dir.raw arg with
        | none, _ => none
        | some true, none => none
        | some true, some true =>
          if !isRoot then
            if dir.DIR_FstClusLO = ADDR_ZERO ∧ dir.DIR_FstClusHI = ADDR_ZERO then
              some ROOT_DIR_CLUS_NUM
            else some (newClusOf dir)
          else some curDirClus
        | some true, some false => none
        | some false, none => none
        | some false, some true => some (newClusOf dir)
        | some false, some false => none
    else none

/-- The loop of `doDownload` (lines 449 to 494): `dir` is the memory of `h->dir`,
`pos` the offset of the file descriptor, the list holds the values of `i` still to
come.  `none` when the fuel of `writeFile` runs out, and also where
`formatDirectory` or `strcmp` leaves the record. -/
def doDownloadLoop (img : Image) (bs : fat32BS) (fuel : Nat) (arg : List Nat) :
    List Nat → Nat → List Nat → Option (Run Msg)
  | _, _, [] => some ⟨[], .returned .notFound⟩
  | dir, pos, _ :: is =>
    let buf := img.read pos sizeof_fat32Dir
    if buf.length < SINGLE_READ then some ⟨[], .exited⟩
    else
      match formatDirectory ⟨buf ++ dir.drop buf.length⟩ with
      | none => none
      | some d =>
        let next :=
          match doDownloadLoop img bs fuel arg d.raw (pos + buf.length) is with
          | none => none
          | some r => some ⟨.slot pos :: r.trace, r.outcome⟩
        if d.DIR_Attr ≠ ATTR_DIRECTORY then
          match strcmpEq d.raw arg with
          | none => none
          | some true =>
            match doDownload_found img bs fuel d with
            | none => none
            | some r => some ⟨.slot pos :: r.trace, r.outcome⟩
          | some false => next
        else next

/-- The function `doDownload` of shell.c as a run: `dir` is the memory `h->dir`
points to, `arg` the second token of the command line (`none` when there is
none).  Each `read` of an entry is the event `slot` with its offset. -/
def doDownload (img : Image) (bs : fat32BS) (dir : fat32Dir) (arg : Option (List Nat))
    (fuel : Nat) (curDirClus : Nat) : Option (Run Msg) :=
  match arg with
  | none => some ⟨[], .returned .notFound⟩
  | some a =>
    match getFirstSectorOfClus bs curDirClus with
    | none => some ⟨[], .exited⟩
    | some firstSecOfClus =>
      doDownloadLoop img bs fuel a dir.raw firstSecOfClus (slotOffsets bs)

/-! ## The command INFO (`shell.c`) -/

/-- The local `countOfClusters` of `printInfo` (lines 111 to 117), all three locals
being `uint32_t`; `none` is a division by zero. -/
def countOfClusters (bs : fat32BS) : Option Nat :=
  if bs.BPB_BytesPerSec = 0 then none
  else
    let rootDirSectors :=
      ((bs.BPB_RootEntCnt * INT_32) + (bs.BPB_BytesPerSec - 1)) / bs.BPB_BytesPerSec
    let dataSec :=
      (bs.BPB_TotSec32 + U32
        - (bs.BPB_RsvdSecCnt + (bs.BPB_NumFATs * bs.BPB_FATSz32) % U32 + rootDirSectors) % U32)
        % U32
    if bs.BPB_SecPerClus = 0 then none else some (dataSec / bs.BPB_SecPerClus)

/-- How `printInfo` ends. -/
inductive InfoEnd where
  /-- it prints "volume is FAT12. The supported volume is FAT32." and exits -/
  | fat12
  /-- it prints "volume is FAT16. The supported volume is FAT32." and exits -/
  | fat16
  /-- a division by zero, or the `exit` of `readDir` inside `getVolumeID` -/
  | exited
  /-- it prints the whole report and returns -/
  | returned
  deriving DecidableEq, Repr

/-- The function `printInfo` of shell.c, as far as it can end the process. -/
def printInfo (img : Image) (h : fat32Head) : InfoEnd :=
  match countOfClusters h.bs with
  | none => .exited
  | some countOfClusters =>
    if countOfClusters < FAT12_NUMCLUS then .fat12
    else if countOfClusters < FAT16_NUMCLUS then .fat16
    else
      match getVolumeID img h.bs with
      | none => .exited
      | some _ => .returned

/-! ## Free space (`shell.c`) -/

def FREE_CLUS_UNKNOWN : Nat := 0xFFFFFFFF

/-- Width of `uint64_t` arithmetic. -/
def U64 : Nat := 2 ^ 64

/-- What a call of `getFreeSpace` does: whether it prints "error: free count unknown",
and the `uint64_t` it returns. -/
structure FreeSpace where
  unknownPrinted : Bool
  value : Nat
  deriving DecidableEq, Repr

/-- The function `getFreeSpace` of shell.c; both products are formed in `uint64_t`. -/
def getFreeSpace (h : fat32Head) : FreeSpace :=
  let numFreeClus := h.fsi.FSI_Free_Count
  let freeSecBytes := 0
  if numFreeClus = FREE_CLUS_UNKNOWN then ⟨true, freeSecBytes⟩
  else
    let totFreeSec := (numFreeClus * h.bs.BPB_SecPerClus) % U64
    let freeSecBytes := (totFreeSec * h.bs.BPB_BytesPerSec) % U64
    ⟨false, freeSecBytes⟩

/-! ## Example inputs -/

/-- Geometry of the examples on `getNextClus`: 32 reserved sectors of 512 bytes, so that
the FAT starts at byte 16384. -/
def fatGeo : fat32BS := { BPB_BytesPerSec := 512, BPB_RsvdSecCnt := 32 }

/-- An image that ends 4 bytes after the FAT entry of cluster 2, which holds 9. -/
def shortFatImg : Image := { size := 16396, byte := fun i => if i = 16392 then 9 else 0 }

/-- An image of 4 GiB + 32 KiB whose word at offset 16384 is 9 and whose word at offset
`2 ^ 32 + 16384` is 7. -/
def bigFatImg : Image :=
  { size := 2 ^ 32 + 32768
    byte := fun i => if i = 16384 then 9 else if i = 2 ^ 32 + 16384 then 7 else 0 }

/-- An image with room after the FAT entry of cluster 2, which holds `0xF0000009`. -/
def smallFatImg : Image :=
  { size := 32768, byte := fun i => if i = 16392 then 9 else if i = 16395 then 0xF0 else 0 }

/-- The boot sector and FSInfo sector of an 8 GiB FAT32 volume: 512-byte sectors,
8 sectors per cluster, 32 reserved sectors, 2 FATs of 16384 sectors, root cluster 2,
FSInfo in sector 1. -/
def volTable : List (Nat × Nat) :=
  [ (11, 0x00), (12, 0x02), (13, 8), (14, 32), (16, 2), (35, 0x01), (37, 0x40), (44, 2),
    (48, 1), (66, 0x29), (510, 0x55), (511, 0xAA),
    (512, 0x52), (513, 0x52), (514, 0x61), (515, 0x41), (1022, 0x55), (1023, 0xAA) ]

/-- An 8 GiB volume image with the sectors of `volTable`. -/
def bigVol : Image := Image.ofTable (2 ^ 33) volTable

/-- The image `bigVol` with `BPB_RootEntCnt` set to 512. -/
def fat16Vol : Image := Image.ofTable (2 ^ 33) ((18, 0x02) :: volTable)

/-- Geometry of the file examples: 512-byte sectors, 8 sectors per cluster (4096-byte
clusters), 32 reserved sectors, 2 FATs of 16 sectors; the data region starts at byte 32768. -/
def fileGeo : fat32BS :=
  { BPB_BytesPerSec := 512, BPB_SecPerClus := 8, BPB_RsvdSecCnt := 32, BPB_NumFATs := 2,
    BPB_FATSz32 := 16, BPB_RootClus := 2 }

/-- A 128 KiB image whose FAT (at byte 16384) holds the chain 5 → 9 → 7 → end of chain:
entry 5 is 9, entry 9 is 7, entry 7 is `0x0FFFFFFF`.  Data byte `i` is `i % 251`. -/
def fileImg : Image :=
  { size := 131072
    byte := fun i =>
      if i < 32768 then
        ([(16404, 9), (16420, 7), (16412, 0xFF), (16413, 0xFF), (16414, 0xFF), (16415, 0x0F)].lookup
          i).getD 0
      else i % 251 }

/-- A 128 KiB image whose FAT holds the chain 5 → 9 → end of chain: entry 5 is 9, entry 9
is `0x0FFFFFFF`. -/
def chainImg : Image :=
  { size := 131072
    byte := fun i =>
      if i < 32768 then
        ([(16404, 9), (16420, 0xFF), (16421, 0xFF), (16422, 0xFF), (16423, 0x0F)].lookup i).getD 0
      else i % 251 }

/-- A 128 KiB image whose FAT holds the cycle 5 → 9 → 5: entry 5 is 9, entry 9 is 5. -/
def cycleImg : Image :=
  { size := 131072
    byte := fun i =>
      if i < 32768 then ([(16404, 9), (16420, 5)].lookup i).getD 0 else i % 251 }

/-- The geometry `fileGeo` with 2 reserved sectors instead of 32: the FAT starts at byte
1024, its sectors have the numbers 2, 3, ..., and the data region starts at byte 17408. -/
def lowGeo : fat32BS :=
  { BPB_BytesPerSec := 512, BPB_SecPerClus := 8, BPB_RsvdSecCnt := 2, BPB_NumFATs := 2,
    BPB_FATSz32 := 16, BPB_RootClus := 2 }

/-- The boot sector, FSInfo sector and FAT of a volume with the geometry `lowGeo`: 512-byte
sectors, 8 sectors per cluster, 2 reserved sectors (the boot sector and the FSInfo sector),
2 FATs of 16 sectors, root cluster 2.  The FAT (at byte 1024) holds the chain 5 → 9 → end
of chain: entry 5 (offset 1044) is 9, entry 9 (offset 1060) is `0x0FFFFFFF`; entry 2, the
root directory, is `0x0FFFFFFF`. -/
def lowVolTable : List (Nat × Nat) :=
  [ (11, 0x00), (12, 0x02), (13, 8), (14, 2), (16, 2), (36, 16), (44, 2), (48, 1), (66, 0x29),
    (510, 0x55), (511, 0xAA),
    (512, 0x52), (513, 0x52), (514, 0x61), (515, 0x41), (1022, 0x55), (1023, 0xAA),
    (1032, 0xFF), (1033, 0xFF), (1034, 0xFF), (1035, 0x0F),
    (1044, 9), (1060, 0xFF), (1061, 0xFF), (1062, 0xFF), (1063, 0x0F) ]

/-- A 128 KiB volume image with the sectors of `lowVolTable`; its data region is empty. -/
def lowImg : Image := Image.ofTable 131072 lowVolTable

/-- A 128 KiB image in which the chain of cluster 5 is that cluster alone: entry 5 is
`0x0FFFFFFF`. -/
def truncImg : Image :=
  { size := 131072
    byte := fun i =>
      if i < 32768 then
        ([(16404, 0xFF), (16405, 0xFF), (16406, 0xFF), (16407, 0x0F)].lookup i).getD 0
      else i % 251 }

/-- The directory entry of `FILE.TXT`: archive, first cluster 5, 9000 bytes. -/
def entry9000 : fat32Dir :=
  ⟨[0x46, 0x49, 0x4C, 0x45, 0x20, 0x20, 0x20, 0x20, 0x54, 0x58, 0x54, 0x20,
    0, 0, 0, 0, 0, 0, 0, 0, 0, 0, 0, 0, 0, 0, 5, 0, 0x28, 0x23, 0, 0]⟩

/-- The directory entry of `BIG.BIN`: archive, first cluster 5, `0x80000000` bytes (2 GiB). -/
def entry2G : fat32Dir :=
  ⟨[0x42, 0x49, 0x47, 0x20, 0x20, 0x20, 0x20, 0x20, 0x42, 0x49, 0x4E, 0x20,
    0, 0, 0, 0, 0, 0, 0, 0, 0, 0, 0, 0, 0, 0, 5, 0, 0, 0, 0, 0x80]⟩

/-- The boot sector, FSInfo sector and FAT entry 2 (end of chain) of a volume of 40000
sectors of 512 bytes: 8 sectors per cluster, 32 reserved sectors, 2 FATs of 16 sectors,
root cluster 2, FSInfo in sector 1.  Its data region has `40000 - 64 = 39936` sectors,
that is 4992 clusters. -/
def smallVolTable : List (Nat × Nat) :=
  [ (11, 0x00), (12, 0x02), (13, 8), (14, 32), (16, 2), (32, 0x40), (33, 0x9C), (36, 16),
    (44, 2), (48, 1), (66, 0x29), (510, 0x55), (511, 0xAA),
    (512, 0x52), (513, 0x52), (514, 0x61), (515, 0x41), (1022, 0x55), (1023, 0xAA),
    (16392, 0xFF), (16393, 0xFF), (16394, 0xFF), (16395, 0x0F) ]

/-- A volume image of 20480000 bytes with the sectors of `smallVolTable`; its root
directory (cluster 2, at byte 32768) is empty. -/
def smallVol : Image := Image.ofTable 20480000 smallVolTable

/-- The bytes of a string. -/
def ascii (s : String) : List Nat := s.toList.map Char.toNat

/-- A directory entry of 32 bytes: the 11 name bytes, the attribute byte, the two halves
of the first cluster number and the file size (below 65536); the other members are 0. -/
def mkEntry (name : List Nat) (attr hi lo size : Nat) : List Nat :=
  name ++ [attr, 0, 0, 0, 0, 0, 0, 0, 0, hi % 256, hi / 256, 0, 0, 0, 0,
    lo % 256, lo / 256, size % 256, size / 256, 0, 0]

/-- The named entries of the example directory, by their byte offset in the image.
Cluster 5 starts at 45056 (its second sector at 45568), cluster 9 at 61440. -/
def dirEntries : List (Nat × List Nat) :=
  [ (45056, mkEntry (ascii ".          ") 0x10 0 5 0),
    (45088, mkEntry (ascii "..         ") 0x10 0 0 0),
    (45120, mkEntry (ascii "SUB        ") 0x10 1 7 0),
    (45152, mkEntry (ascii "FILE    TXT") 0x20 0 7 100),
    (45568, mkEntry (ascii "DEEP       ") 0x10 0 11 0),
    (45600, mkEntry (ascii "FAR     TXT") 0x20 0 7 100),
    (61472, mkEntry (ascii "LATE    TXT") 0x20 0 7 100),
    (61504, mkEntry (ascii "NEXT       ") 0x10 0 12 0) ]

/-- The entry every other slot holds: a file of 100 bytes in cluster 7 whose name is two
letters, made from the number of the slot, with the extension `DAT`. -/
def fillerEntry (p : Nat) : List Nat :=
  mkEntry [0x41 + p / 32 / 26 % 26, 0x41 + p / 32 % 26, 0x20, 0x20, 0x20, 0x20, 0x20, 0x20,
    0x44, 0x41, 0x54] 0x20 0 7 100

/-- A 128 KiB image with the geometry `fileGeo` that holds a directory without an
end-of-directory marker: its chain is 5 → 9 → end of chain (FAT entry 5 is 9, entry 9 is
`0x0FFFFFFF`; the chain of cluster 7 is that cluster alone), and every 32-byte slot of the
data region holds an entry, those of `dirEntries` at their offsets and `fillerEntry`
elsewhere. -/
def dirImg : Image :=
  { size := 131072
    byte := fun i =>
      if i < 32768 then
        ([(16404, 9), (16420, 0xFF), (16421, 0xFF), (16422, 0xFF), (16423, 0x0F),
          (16412, 0xFF), (16413, 0xFF), (16414, 0xFF), (16415, 0x0F)].lookup i).getD 0
      else ((dirEntries.lookup (i - i % 32)).getD (fillerEntry (i - i % 32))).getD (i % 32) 0 }

/-- The image `dirImg` with the first name byte of the fifth slot of cluster 5 (offset
45184) set to `0x00`, the end-of-directory marker. -/
def markImg : Image :=
  { size := dirImg.size, byte := fun i => if i = 45184 then 0 else dirImg.byte i }

/-- The slot offsets `base`, `base + 32`, ..., `n` of them, as events. -/
def slotEvents (base n : Nat) : List Ev := (List.range n).map fun k => Ev.slot (base + 32 * k)

/-- A head with the geometry of `smallVol`: 40000 sectors of 512 bytes, 8 sectors per
cluster, 32 reserved sectors, 2 FATs of 16 sectors. -/
def smallHead : fat32Head :=
  { bs := { BPB_BytesPerSec := 512, BPB_SecPerClus := 8, BPB_RsvdSecCnt := 32, BPB_NumFATs := 2,
            BPB_TotSec32 := 40000, BPB_FATSz32 := 16, BPB_RootClus := 2, BPB_FSInfo := 1 }
    fsi := {}
    dir := ⟨List.replicate 32 0⟩ }

/-- The entry of a deleted file: `0xE5`, then `ILE    TXT`; archive, first cluster 7, 100
bytes. -/
def deletedEntry : fat32Dir := ⟨mkEntry (0xE5 :: ascii "ILE    TXT") 0x20 0 7 100⟩

/-- The image `dirImg` with the low half of the first cluster of the entry `.` of
cluster 5 (offset `45056 + 26`) set to 7. -/
def dotImg : Image :=
  { size := dirImg.size, byte := fun i => if i = 45082 then 7 else dirImg.byte i }

/-- A head whose FSInfo sector records `free` free clusters, with the geometry
`fileGeo` (8 sectors of 512 bytes per cluster). -/
def freeHead (free : Nat) : fat32Head :=
  { bs := fileGeo, fsi := { FSI_Free_Count := free }, dir := ⟨List.replicate 32 0⟩ }

/-- The image `bigVol` with the volume label `MYVOLUMEABC` in the 11 bytes at offset 71
and the type string `FAT32ABC` in the 8 bytes at offset 82. -/
def labelVol : Image :=
  Image.ofTable (2 ^ 33)
    (((List.range 11).map fun i => (71 + i, (ascii "MYVOLUMEABC").getD i 0))
      ++ ((List.range 8).map fun i => (82 + i, (ascii "FAT32ABC").getD i 0)) ++ volTable)

/-- The image `bigVol` with 64 sectors per cluster (byte 13) instead of 8; the first
entry of its root directory, at byte `(32 + 2 * 16384) * 512 = 16793600`, is the volume
label `MYVOLUME` with the attribute `0x08`. -/
def spc64Vol : Image :=
  Image.ofTable (2 ^ 33)
    ((13, 64) :: ((List.range 32).map fun i =>
        (16793600 + i, (mkEntry (ascii "MYVOLUME   ") 0x08 0 0 0).getD i 0)) ++ volTable)

/-- The image `bigVol` with a first root directory entry (at byte 16793600) whose
attribute byte is `0x3F`. -/
def badRootVol : Image :=
  Image.ofTable (2 ^ 33)
    (((List.range 32).map fun i =>
        (16793600 + i, (mkEntry (ascii "MYVOLUME   ") 0x3F 0 0 0).getD i 0)) ++ volTable)

/-- The image `bigVol` with 0 sectors per cluster (byte 13). -/
def zeroSpcVol : Image := Image.ofTable (2 ^ 33) ((13, 0) :: volTable)

/-- An image whose boot sector records 0 bytes per sector (bytes 11 and 12) and starts
with the bytes `52 52 61 41`; its other fields are those of `bigVol`.  The FSInfo record
is then looked for at offset `1 * 0 = 0`, where the boot sector itself passes for it: its
first word is `0x41615252` and its last word, with the boot signature `55 AA`, is
`0xAA550000`. -/
def zeroBpsVol : Image :=
  Image.ofTable (2 ^ 33)
    [ (0, 0x52), (1, 0x52), (2, 0x61), (3, 0x41), (13, 8), (14, 32), (16, 2), (35, 0x01),
      (37, 0x40), (44, 2), (48, 1), (66, 0x29), (510, 0x55), (511, 0xAA) ]

/-- A file entry with the name `FILENAME.TXT` as a volume beyond 65536 clusters and a
system that records lower-case flags and creation times write it: `DIR_NTRes` is `0x18`,
the time and date members are set, the first cluster is `0x00010005`, the size 100. -/
def stampedEntry : fat32Dir :=
  ⟨ascii "FILENAMETXT" ++ [0x20, 0x18, 0x64, 0x0F, 0x6B, 0x21, 0x51, 0x21, 0x51, 0x01, 0x00,
    0x0F, 0x6B, 0x21, 0x51, 0x05, 0x00, 100, 0, 0, 0]⟩

set_option maxRecDepth 100000

/-! ## Reading the image -/

theorem read_length (img : Image) (pos len : Nat) :
    (img.read pos len).length = min len (img.size - pos) := by
  simp [Image.read]

theorem read_getD (img : Image) (pos len i : Nat) (h : i < len) (hs : pos + i < img.size) :
    u8 (img.read pos len) i = img.byte (pos + i) % 256 := by
  have hi : i < min len (img.size - pos) := by
    rw [Nat.lt_min]; omega
  simp [u8, Image.read, List.getD_eq_getElem?_getD, List.getElem?_map, List.getElem?_range, hi]

theorem read_le32 (img : Image) (pos len : Nat) (h4 : 4 ≤ len) (hs : pos + 4 ≤ img.size) :
    le32 (img.read pos len) 0
      = img.byte pos % 256 + 256 * (img.byte (pos + 1) % 256)
        + 65536 * (img.byte (pos + 2) % 256) + 16777216 * (img.byte (pos + 3) % 256) := by
  unfold le32
  rw [read_getD img pos len 0 (by omega) (by omega), read_getD img pos len (0 + 1) (by omega) (by omega),
    read_getD img pos len (0 + 2) (by omega) (by omega), read_getD img pos len (0 + 3) (by omega) (by omega)]
  simp

theorem maskEntry_eq_mod (w : Nat) : maskEntry w = w % 2 ^ 28 := by
  have h0 : CLUSENT_AND_OPERATOR &&& FETCH_AND_OPERATOR = 0 := by decide
  have h1 : CLUSENT_AND_OPERATOR = 2 ^ 28 - 1 := by decide
  simp only [maskEntry, Nat.and_assoc, h0, Nat.and_zero, Nat.zero_or]
  rw [h1, Nat.and_pow_two_sub_one_eq_mod]

theorem maskEntry_eq_and (w : Nat) : maskEntry w = w &&& 0x0FFFFFFF := by
  rw [maskEntry_eq_mod]
  have h1 : (0x0FFFFFFF : Nat) = 2 ^ 28 - 1 := by decide
  rw [h1, Nat.and_pow_two_sub_one_eq_mod]

/-- A buffer that `readFromOffset` returns holds the 32 image bytes from the position of the
seek, and the sector number is at least 8: the block of `secNum * 4` bytes holds them. -/
theorem readFromOffset_some (img : Image) (bs : fat32BS) (secNum offset : Nat)
    (buffer : List Nat) (h : readFromOffset img bs secNum offset = some buffer) :
    8 ≤ secNum ∧ buffer.length = 32
      ∧ buffer = img.read ((secNum * bs.BPB_BytesPerSec + offset) % U32) 32 := by
  simp only [readFromOffset, OFF_READ_SZ, sizeof_uint32] at h
  split at h
  · cases h
  · split at h
    · cases h
    · split at h
      · cases h
      · simp only [Option.some.injEq] at h
        subst h
        have hl := read_length img ((secNum * bs.BPB_BytesPerSec + offset) % U32) 32
        refine ⟨?_, ?_, rfl⟩ <;> omega

/-- The read of `getNextClus` when nothing wraps, the 32 bytes are there and the block
allocated for them holds them: the buffer holds the image bytes from offset
`BPB_RsvdSecCnt * BPB_BytesPerSec + 4 * n`. -/
theorem readFromOffset_fat_entry (img : Image) (bs : fat32BS) (n : Nat)
    (hsec : 8 ≤ bs.BPB_RsvdSecCnt + 4 * n / bs.BPB_BytesPerSec)
    (hpos : bs.BPB_RsvdSecCnt * bs.BPB_BytesPerSec + 4 * n < 2 ^ 32 - 1)
    (hlen : bs.BPB_RsvdSecCnt * bs.BPB_BytesPerSec + 4 * n + 32 ≤ img.size) :
    readFromOffset img bs (bs.BPB_RsvdSecCnt + 4 * n / bs.BPB_BytesPerSec)
        (4 * n % bs.BPB_BytesPerSec)
      = some (img.read (bs.BPB_RsvdSecCnt * bs.BPB_BytesPerSec + 4 * n) OFF_READ_SZ) := by
  have hdm := Nat.div_add_mod (4 * n) bs.BPB_BytesPerSec
  have hmul : (bs.BPB_RsvdSecCnt + 4 * n / bs.BPB_BytesPerSec) * bs.BPB_BytesPerSec
      + 4 * n % bs.BPB_BytesPerSec = bs.BPB_RsvdSecCnt * bs.BPB_BytesPerSec + 4 * n := by
    rw [Nat.add_mul, Nat.mul_comm (4 * n / bs.BPB_BytesPerSec)]; omega
  have hp : (bs.BPB_RsvdSecCnt * bs.BPB_BytesPerSec + 4 * n) % U32
      = bs.BPB_RsvdSecCnt * bs.BPB_BytesPerSec + 4 * n := by
    apply Nat.mod_eq_of_lt; simp only [U32]; omega
  have hseek : seekErrInt (bs.BPB_RsvdSecCnt * bs.BPB_BytesPerSec + 4 * n) = false := by
    simp only [seekErrInt, hp, U32]
    rw [beq_eq_false_iff_ne]; omega
  have hl : ¬ (img.read (bs.BPB_RsvdSecCnt * bs.BPB_BytesPerSec + 4 * n) OFF_READ_SZ).length
      < OFF_READ_SZ := by
    rw [read_length]; simp only [OFF_READ_SZ]; omega
  have hblk : ¬ ((bs.BPB_RsvdSecCnt + 4 * n / bs.BPB_BytesPerSec) * sizeof_uint32
      < (img.read (bs.BPB_RsvdSecCnt * bs.BPB_BytesPerSec + 4 * n) OFF_READ_SZ).length) := by
    rw [read_length]; simp only [OFF_READ_SZ, sizeof_uint32]; omega
  simp only [readFromOffset, hmul, hp, hseek, if_neg hl, if_neg hblk]
  simp

/-- The result of `getNextClus` when nothing wraps, the 32 bytes are there and the block
allocated for them holds them. -/
theorem getNextClus_eq (img : Image) (bs : fat32BS) (n : Nat)
    (hbps : 0 < bs.BPB_BytesPerSec)
    (hsec : 8 ≤ bs.BPB_RsvdSecCnt + 4 * n / bs.BPB_BytesPerSec)
    (hpos : bs.BPB_RsvdSecCnt * bs.BPB_BytesPerSec + 4 * n < 2 ^ 32 - 1)
    (hlen : bs.BPB_RsvdSecCnt * bs.BPB_BytesPerSec + 4 * n + 32 ≤ img.size) :
    getNextClus img bs n
      = some (maskEntry (le32 (img.read (bs.BPB_RsvdSecCnt * bs.BPB_BytesPerSec + 4 * n) 32) 0)) := by
  have hne : bs.BPB_BytesPerSec ≠ 0 := by omega
  have h4 : n * 4 % U32 = 4 * n := by
    have : n * 4 < U32 := by simp only [U32]; omega
    rw [Nat.mod_eq_of_lt this]; omega
  have hle : bs.BPB_RsvdSecCnt + 4 * n / bs.BPB_BytesPerSec
      ≤ (bs.BPB_RsvdSecCnt + 4 * n / bs.BPB_BytesPerSec) * bs.BPB_BytesPerSec :=
    Nat.le_mul_of_pos_right _ hbps
  have hdm := Nat.div_add_mod (4 * n) bs.BPB_BytesPerSec
  have hmul : (bs.BPB_RsvdSecCnt + 4 * n / bs.BPB_BytesPerSec) * bs.BPB_BytesPerSec
      + 4 * n % bs.BPB_BytesPerSec = bs.BPB_RsvdSecCnt * bs.BPB_BytesPerSec + 4 * n := by
    rw [Nat.add_mul, Nat.mul_comm (4 * n / bs.BPB_BytesPerSec)]; omega
  have hmod : (bs.BPB_RsvdSecCnt + 4 * n / bs.BPB_BytesPerSec) % U32
      = bs.BPB_RsvdSecCnt + 4 * n / bs.BPB_BytesPerSec := by
    apply Nat.mod_eq_of_lt; simp only [U32]; omega
  simp only [getNextClus, if_neg hne, OFFSET_MULTIPLIER, h4, hmod,
    readFromOffset_fat_entry img bs n hsec hpos hlen]
  simp [OFF_READ_SZ]

theorem getNextClus_lt (img : Image) (bs : fat32BS) (m v : Nat)
    (h : getNextClus img bs m = some v) : v < 2 ^ 28 := by
  unfold getNextClus at h
  split at h
  · cases h
  · simp only at h
    split at h
    · cases h
    · simp only [Option.some.injEq] at h
      rw [← h, maskEntry_eq_mod]
      exact Nat.mod_lt _ (by decide)

/-- Whenever `getNextClus` has a result, the FAT sector it read from has a number of at
least 8: with a smaller one the 32-byte read does not fit the block allocated for it. -/
theorem getNextClus_block (img : Image) (bs : fat32BS) (m v : Nat)
    (h : getNextClus img bs m = some v) :
    8 ≤ (bs.BPB_RsvdSecCnt + m * 4 % 2 ^ 32 / bs.BPB_BytesPerSec) % 2 ^ 32 := by
  unfold getNextClus at h
  split at h
  · cases h
  · simp only at h
    split at h
    · cases h
    · rename_i buffer hb
      exact (readFromOffset_some img bs _ _ buffer hb).1

theorem store32_size (img : Image) (pos v : Nat) : (img.store32 pos v).size = img.size := rfl

theorem store32_le32 (img : Image) (pos v len : Nat) (h4 : 4 ≤ len) (hs : pos + 4 ≤ img.size)
    (hv : v < 2 ^ 32) : le32 ((img.store32 pos v).read pos len) 0 = v := by
  rw [read_le32 _ pos len h4 (by rw [store32_size]; exact hs)]
  simp only [Image.store32]
  have e1 : ¬ (pos + 1 = pos) := by omega
  have e2 : ¬ (pos + 2 = pos) := by omega
  have e3 : ¬ (pos + 3 = pos) := by omega
  have e4 : ¬ (pos + 2 = pos + 1) := by omega
  have e5 : ¬ (pos + 3 = pos + 1) := by omega
  have e6 : ¬ (pos + 3 = pos + 2) := by omega
  simp only [if_true, if_neg e1, if_neg e2, if_neg e3, if_neg e4, if_neg e5, if_neg e6]
  omega

/-- C1 (amended). For a geometry with `BPB_BytesPerSec > 0`, a cluster number `n` whose FAT
entry lies in a sector with a number `BPB_RsvdSecCnt + 4 * n / BPB_BytesPerSec` of at least
8 (so that the block of that many times 4 bytes which `readFromOffset` allocates holds the
32 bytes it reads) and at an offset `BPB_RsvdSecCnt * BPB_BytesPerSec + 4 * n` below
`2 ^ 32 - 1`, and an image holding at least 32 bytes from that offset: `readFromOffset`,
called with the sector and offset that `getNextClus` computes, delivers the 32 image bytes
from that offset; `getNextClus n` is the little-endian word stored there ANDed with
`0x0FFFFFFF`; the AND with `0xF0000000` followed by the re-OR changes nothing; every result
of `getNextClus` is below `2 ^ 28`; and after storing a 32-bit `v` at the offset,
`getNextClus n` is `v % 2 ^ 28`.  What `getNextClus` does for an entry in a FAT sector with a
number below 8, where the 32 bytes do not fit the block, is left open. -/
theorem getNextClus_reads_fat_entry (img : Image) (bs : fat32BS) (n : Nat)
    (hbps : 0 < bs.BPB_BytesPerSec)
    (hsec : 8 ≤ bs.BPB_RsvdSecCnt + 4 * n / bs.BPB_BytesPerSec)
    (hpos : bs.BPB_RsvdSecCnt * bs.BPB_BytesPerSec + 4 * n < 2 ^ 32 - 1)
    (hlen : bs.BPB_RsvdSecCnt * bs.BPB_BytesPerSec + 4 * n + 32 ≤ img.size) :
    readFromOffset img bs (bs.BPB_RsvdSecCnt + 4 * n / bs.BPB_BytesPerSec)
        (4 * n % bs.BPB_BytesPerSec)
      = some (img.read (bs.BPB_RsvdSecCnt * bs.BPB_BytesPerSec + 4 * n) OFF_READ_SZ)
    ∧ (∃ w, img.word32 (bs.BPB_RsvdSecCnt * bs.BPB_BytesPerSec + 4 * n) = some w
          ∧ getNextClus img bs n = some (w &&& 0x0FFFFFFF))
    ∧ (∀ w : Nat, ((w &&& 0x0FFFFFFF) &&& 0xF0000000) ||| (w &&& 0x0FFFFFFF) = w &&& 0x0FFFFFFF)
    ∧ (∀ (img' : Image) (m v : Nat), getNextClus img' bs m = some v → v < 2 ^ 28)
    ∧ (∀ v, v < 2 ^ 32 →
        getNextClus (img.store32 (bs.BPB_RsvdSecCnt * bs.BPB_BytesPerSec + 4 * n) v) bs n
          = some (v % 2 ^ 28)) := by
  refine ⟨readFromOffset_fat_entry img bs n hsec hpos hlen, ?_, ?_, ?_, ?_⟩
  · refine ⟨le32 (img.read (bs.BPB_RsvdSecCnt * bs.BPB_BytesPerSec + 4 * n) 4) 0, ?_, ?_⟩
    · simp only [Image.word32]
      rw [if_pos (by omega)]
    · rw [getNextClus_eq img bs n hbps hsec hpos hlen, maskEntry_eq_and,
        read_le32 _ _ 32 (by omega) (by omega), read_le32 _ _ 4 (by omega) (by omega)]
  · intro w
    exact maskEntry_eq_and w
  · intro img' m v h
    exact getNextClus_lt img' bs m v h
  · intro v hv
    rw [getNextClus_eq _ bs n hbps hsec hpos (by rw [store32_size]; exact hlen),
      maskEntry_eq_mod,
      store32_le32 img _ v 32 (by omega) (by omega) hv]

/-- C1 as stated fails: with `BPB_BytesPerSec = 512 > 0`, the image `shortFatImg` stores the
word 9 at offset `32 * 512 + 4 * 2`, in FAT sector 32, yet `getNextClus 2` does not return
(the 32-byte read comes up short and the process exits); and for `n = 2 ^ 30` the 32-bit
product `4 * n` wraps to 0, so on `bigFatImg` `getNextClus` returns the entry at offset
16384 (9), not the word at `32 * 512 + 4 * n` (7). -/
theorem getNextClus_not_every_image :
    (0 < fatGeo.BPB_BytesPerSec
      ∧ shortFatImg.word32 (fatGeo.BPB_RsvdSecCnt * fatGeo.BPB_BytesPerSec + 4 * 2) = some 9
      ∧ 8 ≤ fatGeo.BPB_RsvdSecCnt + 4 * 2 / fatGeo.BPB_BytesPerSec
      ∧ getNextClus shortFatImg fatGeo 2 = none)
    ∧ (bigFatImg.word32 (fatGeo.BPB_RsvdSecCnt * fatGeo.BPB_BytesPerSec + 4 * 2 ^ 30) = some 7
      ∧ getNextClus bigFatImg fatGeo (2 ^ 30) = some 9) :=
  ⟨by decide, by decide⟩

/-- C1 (amended) at `smallFatImg`, cluster 2, whose entry at offset 16392 holds
`0xF0000009`: the result is 9, and after storing `0xABCDEF12` it is `0x0BCDEF12`. -/
theorem getNextClus_reads_fat_entry_witness :
    0 < fatGeo.BPB_BytesPerSec
    ∧ 8 ≤ fatGeo.BPB_RsvdSecCnt + 4 * 2 / fatGeo.BPB_BytesPerSec
    ∧ fatGeo.BPB_RsvdSecCnt * fatGeo.BPB_BytesPerSec + 4 * 2 < 2 ^ 32 - 1
    ∧ fatGeo.BPB_RsvdSecCnt * fatGeo.BPB_BytesPerSec + 4 * 2 + 32 ≤ smallFatImg.size
    ∧ smallFatImg.word32 16392 = some 0xF0000009
    ∧ getNextClus smallFatImg fatGeo 2 = some 9
    ∧ (∃ w, smallFatImg.word32 (fatGeo.BPB_RsvdSecCnt * fatGeo.BPB_BytesPerSec + 4 * 2) = some w
          ∧ getNextClus smallFatImg fatGeo 2 = some (w &&& 0x0FFFFFFF))
    ∧ getNextClus (smallFatImg.store32
          (fatGeo.BPB_RsvdSecCnt * fatGeo.BPB_BytesPerSec + 4 * 2) 0xABCDEF12) fatGeo 2
        = some (0xABCDEF12 % 2 ^ 28) :=
  ⟨by decide, by decide, by decide, by decide, by decide, by decide,
   (getNextClus_reads_fat_entry smallFatImg fatGeo 2 (by decide) (by decide) (by decide)
     (by decide)).2.1,
   (getNextClus_reads_fat_entry smallFatImg fatGeo 2 (by decide) (by decide) (by decide)
     (by decide)).2.2.2.2 0xABCDEF12 (by decide)⟩

theorem u8_read (img : Image) (pos len i : Nat) (h : i < len) (hs : pos + i < img.size) :
    u8 (img.read pos len) i = img.get8 (pos + i) := by
  rw [read_getD img pos len i h hs, Image.get8]

theorem le16_read (img : Image) (pos len off : Nat) (h : off + 2 ≤ len)
    (hs : pos + off + 2 ≤ img.size) : le16 (img.read pos len) off = img.get16 (pos + off) := by
  unfold le16 Image.get16
  rw [u8_read img pos len off (by omega) (by omega),
    u8_read img pos len (off + 1) (by omega) (by omega), Nat.add_assoc]

theorem le32_read (img : Image) (pos len off : Nat) (h : off + 4 ≤ len)
    (hs : pos + off + 4 ≤ img.size) : le32 (img.read pos len) off = img.get32 (pos + off) := by
  unfold le32 Image.get32
  rw [u8_read img pos len off (by omega) (by omega),
    u8_read img pos len (off + 1) (by omega) (by omega),
    u8_read img pos len (off + 2) (by omega) (by omega),
    u8_read img pos len (off + 3) (by omega) (by omega)]
  simp only [Nat.add_assoc]

/-- The geometry members of a boot sector that `bootSectorInit` delivered are the
image bytes at the offsets of the packed record. -/
theorem bootSectorInit_fields (img : Image) (bs : fat32BS) (h : bootSectorInit img = some bs) :
    512 ≤ img.size
    ∧ bs.BPB_BytesPerSec = img.get16 11 ∧ bs.BPB_SecPerClus = img.get8 13
    ∧ bs.BPB_RsvdSecCnt = img.get16 14 ∧ bs.BPB_NumFATs = img.get8 16
    ∧ bs.BPB_RootEntCnt = img.get16 17 ∧ bs.BPB_TotSec16 = img.get16 19
    ∧ bs.BPB_FATSz16 = img.get16 22 ∧ bs.BPB_TotSec32 = img.get32 32
    ∧ bs.BPB_FATSz32 = img.get32 36 ∧ bs.BPB_ExtFlags = img.get16 40
    ∧ bs.BPB_RootClus = img.get32 44 ∧ bs.BPB_FSInfo = img.get16 48
    ∧ bs.BS_BootSig = img.get8 66 ∧ bs.BS_SigA = img.get8 510 ∧ bs.BS_SigB = img.get8 511 := by
  have hsz : sizeof_fat32BS = 512 := by decide
  unfold bootSectorInit at h
  simp only [hsz, read_length] at h
  split at h
  · cases h
  · rename_i hlen
    have hs : 512 ≤ img.size := by
      omega
    simp only [Option.some.injEq] at h
    subst h
    refine ⟨hs, ?_, ?_, ?_, ?_, ?_, ?_, ?_, ?_, ?_, ?_, ?_, ?_, ?_, ?_, ?_⟩
    · exact le16_read img 0 512 11 (by omega) (by omega) |>.trans (by simp)
    · exact u8_read img 0 512 13 (by omega) (by omega) |>.trans (by simp)
    · exact le16_read img 0 512 14 (by omega) (by omega) |>.trans (by simp)
    · exact u8_read img 0 512 16 (by omega) (by omega) |>.trans (by simp)
    · exact le16_read img 0 512 17 (by omega) (by omega) |>.trans (by simp)
    · exact le16_read img 0 512 19 (by omega) (by omega) |>.trans (by simp)
    · exact le16_read img 0 512 22 (by omega) (by omega) |>.trans (by simp)
    · exact le32_read img 0 512 32 (by omega) (by omega) |>.trans (by simp)
    · exact le32_read img 0 512 36 (by omega) (by omega) |>.trans (by simp)
    · exact le16_read img 0 512 40 (by omega) (by omega) |>.trans (by simp)
    · exact le32_read img 0 512 44 (by omega) (by omega) |>.trans (by simp)
    · exact le16_read img 0 512 48 (by omega) (by omega) |>.trans (by simp)
    · exact u8_read img 0 512 66 (by omega) (by omega) |>.trans (by simp)
    · exact u8_read img 0 512 510 (by omega) (by omega) |>.trans (by simp)
    · exact u8_read img 0 512 511 (by omega) (by omega) |>.trans (by simp)

/-- C9. `createHead` rejects (the process exits) every image in which byte 66 is not 0x29, or
byte 510 is not 0x55, or byte 511 is not 0xAA, or one of the 16-bit fields at offsets 17
(`BPB_RootEntCnt`), 19 (`BPB_TotSec16`), 22 (`BPB_FATSz16`) is not zero. -/
theorem createHead_rejects_bad_boot_sector (img : Image)
    (h : img.get8 66 ≠ 0x29 ∨ img.get8 510 ≠ 0x55 ∨ img.get8 511 ≠ 0xAA
      ∨ img.get16 17 ≠ 0 ∨ img.get16 19 ≠ 0 ∨ img.get16 22 ≠ 0) :
    createHead img = none := by
  unfold createHead
  cases hb : bootSectorInit img with
  | none => rfl
  | some bs =>
    obtain ⟨_, _, _, _, _, h17, h19, h22, _, _, _, _, _, h66, h510, h511⟩ :=
      bootSectorInit_fields img bs hb
    simp only [BS_Ext_BOOT_SIG, BS_SIG_A_VAL, BS_SIG_B_VAL, FAT32_DEFAULT, h17, h19, h22, h66,
      h510, h511]
    split
    · rfl
    · rename_i h1
      split
      · rfl
      · rename_i h2
        exfalso
        rcases h with h | h | h | h | h | h
        · exact h1 (Or.inl h)
        · exact h1 (Or.inr (Or.inl h))
        · exact h1 (Or.inr (Or.inr h))
        · exact h2 (Or.inr (Or.inr h))
        · exact h2 (Or.inr (Or.inl h))
        · exact h2 (Or.inl h)

/-- C9 at `fat16Vol`, whose `BPB_RootEntCnt` is 512. -/
theorem createHead_rejects_bad_boot_sector_witness :
    fat16Vol.get16 17 = 512 ∧ createHead fat16Vol = none :=
  ⟨by decide,
   createHead_rejects_bad_boot_sector fat16Vol
     (Or.inr (Or.inr (Or.inr (Or.inl (by decide)))))⟩

/-- C10. For every image `createHead` accepts, the image has at least 512 bytes and the
geometry members of the head are the little-endian values of the image at the offsets of the
packed record: `BPB_BytesPerSec` at 11, `BPB_SecPerClus` at 13, `BPB_RsvdSecCnt` at 14,
`BPB_NumFATs` at 16, `BPB_RootEntCnt` at 17, `BPB_TotSec32` at 32, `BPB_FATSz32` at 36,
`BPB_ExtFlags` at 40, `BPB_RootClus` at 44, `BPB_FSInfo` at 48; the record has 512 bytes and
its signature bytes are at 510 and 511. -/
theorem createHead_geometry (img : Image) (h : fat32Head) (hh : createHead img = some h) :
    512 ≤ img.size
    ∧ (h.bs.BPB_BytesPerSec = img.get16 11 ∧ h.bs.BPB_SecPerClus = img.get8 13
      ∧ h.bs.BPB_RsvdSecCnt = img.get16 14 ∧ h.bs.BPB_NumFATs = img.get8 16
      ∧ h.bs.BPB_RootEntCnt = img.get16 17 ∧ h.bs.BPB_TotSec32 = img.get32 32
      ∧ h.bs.BPB_FATSz32 = img.get32 36 ∧ h.bs.BPB_ExtFlags = img.get16 40
      ∧ h.bs.BPB_RootClus = img.get32 44 ∧ h.bs.BPB_FSInfo = img.get16 48)
    ∧ (bsOff .BPB_BytesPerSec = 11 ∧ bsOff .BPB_SecPerClus = 13 ∧ bsOff .BPB_RsvdSecCnt = 14
      ∧ bsOff .BPB_NumFATs = 16 ∧ bsOff .BPB_RootEntCnt = 17 ∧ bsOff .BPB_TotSec32 = 32
      ∧ bsOff .BPB_FATSz32 = 36 ∧ bsOff .BPB_ExtFlags = 40 ∧ bsOff .BPB_RootClus = 44
      ∧ bsOff .BPB_FSInfo = 48)
    ∧ sizeof_fat32BS = 512 ∧ bsOff .BS_SigA = 510 ∧ bsOff .BS_SigB = 511
    ∧ h.bs.BS_SigA = img.get8 510 ∧ h.bs.BS_SigB = img.get8 511 := by
  unfold createHead at hh
  cases hb : bootSectorInit img with
  | none => rw [hb] at hh; cases hh
  | some bs =>
    obtain ⟨hs, h11, h13, h14, h16, h17, _, _, h32, h36, h40, h44, h48, _, h510, h511⟩ :=
      bootSectorInit_fields img bs hb
    rw [hb] at hh
    simp only at hh
    have hbs : h.bs = bs := by
      split at hh
      · cases hh
      · split at hh
        · cases hh
        · split at hh
          · cases hh
          · split at hh
            · cases hh
            · split at hh
              · cases hh
              · simp only [Option.some.injEq] at hh
                rw [← hh]
    rw [hbs]
    exact ⟨hs, ⟨h11, h13, h14, h16, h17, h32, h36, h40, h44, h48⟩, by decide, by decide,
      by decide, by decide, h510, h511⟩

/-- C10 at `bigVol`, which `createHead` accepts. -/
theorem createHead_geometry_witness :
    ∃ h, createHead bigVol = some h ∧ h.bs.BPB_BytesPerSec = bigVol.get16 11
      ∧ bigVol.get16 11 = 512 ∧ h.bs.BPB_FATSz32 = bigVol.get32 36 ∧ bigVol.get32 36 = 16384 :=
  match hc : createHead bigVol with
  | some h =>
    ⟨h, rfl, (createHead_geometry bigVol h hc).2.1.1, by decide,
      (createHead_geometry bigVol h hc).2.1.2.2.2.2.2.2.1, by decide⟩
  | none => absurd hc (by decide)

/-- C2 at its failing input. The loader accepts `bigVol`, an 8 GiB volume with 512-byte
sectors, 8 sectors per cluster, 32 reserved sectors and 2 FATs of 16384 sectors; cluster
1048578 of it starts at byte `((1048578 - 2) * 8 + 32800) * 512 = 4311760896`, and
`getFirstSectorOfClus` returns that offset reduced modulo `2 ^ 32`, 16793600. -/
theorem getFirstSectorOfClus_wraps_on_bigVol :
    (createHead bigVol).map (fun h => (h.bs.BPB_BytesPerSec, h.bs.BPB_SecPerClus,
        h.bs.BPB_RsvdSecCnt, h.bs.BPB_NumFATs, h.bs.BPB_FATSz32, h.bs.BPB_RootEntCnt))
      = some (512, 8, 32, 2, 16384, 0)
    ∧ (createHead bigVol).map (fun h => getFirstSectorOfClus h.bs 1048578)
      = some (some 16793600)
    ∧ ((1048578 - 2) * 8 + (32 + 2 * 16384 + (0 * 32 + (512 - 1)) / 512)) * 512 = 4311760896
    ∧ 4311760896 % 2 ^ 32 = 16793600 := by
  decide
theorem getFirstSectorOfClus_isSome (bs : fat32BS) (c : Nat) (h : bs.BPB_BytesPerSec ≠ 0) :
    ∃ off, getFirstSectorOfClus bs c = some off ∧ off < U32 := by
  unfold getFirstSectorOfClus
  rw [if_neg h]
  exact ⟨_, rfl, Nat.mod_lt _ (by decide)⟩

theorem bps_ne_zero_of_getNextClus (img : Image) (bs : fat32BS) (c v : Nat)
    (h : getNextClus img bs c = some v) : bs.BPB_BytesPerSec ≠ 0 := by
  intro h0
  unfold getNextClus at h
  rw [if_pos h0] at h
  cases h

/-- One call of `writeFile` on the last cluster needed. -/
theorem writeFile_last (img : Image) (bs : fat32BS) (fuel c off s : Nat)
    (hoff : getFirstSectorOfClus bs c = some off) (hs : s ≤ bytesPerClus bs) :
    writeFile img bs (fuel + 1) c (s : Int)
      = some ⟨[.enter c, .write s (img.read off s)], .returned ()⟩ := by
  have h0 : ¬ ((s : Int) < 0) := by omega
  have h1 : (s : Int) ≤ (bytesPerClus bs : Int) := by omega
  simp only [writeFile, if_neg h0, hoff, if_pos h1, Int.toNat_ofNat]

/-- One call of `writeFile` that writes a whole cluster and finds the end of the chain. -/
theorem writeFile_eoc (img : Image) (bs : fat32BS) (fuel c off s v : Nat)
    (hoff : getFirstSectorOfClus bs c = some off) (hs : bytesPerClus bs < s)
    (hv : getNextClus img bs c = some v) (he : EOC ≤ v) :
    writeFile img bs (fuel + 1) c (s : Int)
      = some ⟨[.enter c, .write (bytesPerClus bs) (img.read off (bytesPerClus bs))],
          .returned ()⟩ := by
  have h0 : ¬ ((s : Int) < 0) := by omega
  have h1 : ¬ ((s : Int) ≤ (bytesPerClus bs : Int)) := by omega
  have h2 : ¬ (v < EOC) := by omega
  simp only [writeFile, if_neg h0, hoff, if_neg h1, hv, if_neg h2]

/-- One call of `writeFile` that writes a whole cluster and goes on to the next. -/
theorem writeFile_next (img : Image) (bs : fat32BS) (fuel c off s v : Nat)
    (hoff : getFirstSectorOfClus bs c = some off) (hs : bytesPerClus bs < s)
    (hv : getNextClus img bs c = some v) (he : v < EOC) :
    writeFile img bs (fuel + 1) c (s : Int)
      = match writeFile img bs fuel v ((s - bytesPerClus bs : Nat) : Int) with
        | none => none
        | some r =>
          some ⟨.enter c :: .write (bytesPerClus bs) (img.read off (bytesPerClus bs)) :: r.trace,
            r.outcome⟩ := by
  have h0 : ¬ ((s : Int) < 0) := by omega
  have h1 : ¬ ((s : Int) ≤ (bytesPerClus bs : Int)) := by omega
  have h3 : (s : Int) - (bytesPerClus bs : Int) = ((s - bytesPerClus bs : Nat) : Int) := by omega
  simp only [writeFile, if_neg h0, hoff, if_neg h1, hv, if_pos he, h3, List.cons_append,
    List.nil_append]

theorem isChain_cons_cons (img : Image) (bs : fat32BS) (c c' : Nat) (rest : List Nat)
    (h : isChain img bs (c :: c' :: rest) = true) :
    getNextClus img bs c = some c' ∧ c' < EOC ∧ isChain img bs (c' :: rest) = true := by
  simp only [isChain, Bool.and_eq_true, beq_iff_eq, decide_eq_true_eq] at h
  exact ⟨h.1.1, h.1.2, h.2⟩

theorem chainEnds_cons_cons (img : Image) (bs : fat32BS) (c c' : Nat) (rest : List Nat) :
    chainEnds img bs (c :: c' :: rest) = chainEnds img bs (c' :: rest) := by
  simp only [chainEnds, List.getLast?_cons_cons]

theorem chainEnds_single (img : Image) (bs : fat32BS) (c : Nat)
    (h : chainEnds img bs [c] = true) : ∃ v, getNextClus img bs c = some v ∧ EOC ≤ v := by
  simp only [chainEnds, List.getLast?_singleton] at h
  cases hv : getNextClus img bs c with
  | none => rw [hv] at h; cases h
  | some v =>
    rw [hv] at h
    exact ⟨v, rfl, by simpa using h⟩

theorem bps_ne_zero_of_chainEnds (img : Image) (bs : fat32BS) (cs : List Nat)
    (h : chainEnds img bs cs = true) : bs.BPB_BytesPerSec ≠ 0 := by
  unfold chainEnds at h
  cases hl : cs.getLast? with
  | none => simp only [hl] at h; cases h
  | some c =>
    cases hv : getNextClus img bs c with
    | none => simp only [hl, hv] at h; cases h
    | some v => exact bps_ne_zero_of_getNextClus img bs c v hv

/-- The bytes `writeFile` writes in total on a chain that ends after `cs`. -/
theorem writeFile_sum (img : Image) (bs : fat32BS) :
    ∀ (cs : List Nat) (hne : cs ≠ []) (s fuel : Nat),
      isChain img bs cs = true → chainEnds img bs cs = true → cs.length ≤ fuel →
      ∃ r, writeFile img bs fuel (cs.head hne) (s : Int) = some r
        ∧ r.outcome = .returned ()
        ∧ (writeSizes r.trace).sum = min s (cs.length * bytesPerClus bs)
  | [], hne, _, _, _, _, _ => absurd rfl hne
  | [c], _, s, fuel, _, hend, hfuel => by
    obtain ⟨f, rfl⟩ : ∃ f, fuel = f + 1 := ⟨fuel - 1, by simp at hfuel; omega⟩
    obtain ⟨off, hoff, _⟩ :=
      getFirstSectorOfClus_isSome bs c (bps_ne_zero_of_chainEnds img bs _ hend)
    obtain ⟨v, hv, he⟩ := chainEnds_single img bs c hend
    simp only [List.head_cons, List.length_singleton, Nat.one_mul]
    by_cases hs : s ≤ bytesPerClus bs
    · exact ⟨_, writeFile_last img bs f c off s hoff hs, rfl, by simp [writeSizes, hs]⟩
    · exact ⟨_, writeFile_eoc img bs f c off s v hoff (by omega) hv he, rfl, by
        simp [writeSizes]; omega⟩
  | c :: c' :: rest, _, s, fuel, hch, hend, hfuel => by
    obtain ⟨f, rfl⟩ : ∃ f, fuel = f + 1 := ⟨fuel - 1, by simp at hfuel; omega⟩
    obtain ⟨off, hoff, _⟩ :=
      getFirstSectorOfClus_isSome bs c (bps_ne_zero_of_chainEnds img bs _ hend)
    obtain ⟨hv, he, hch'⟩ := isChain_cons_cons img bs c c' rest hch
    rw [chainEnds_cons_cons] at hend
    simp only [List.head_cons, List.length_cons] at hfuel ⊢
    by_cases hs : s ≤ bytesPerClus bs
    · refine ⟨_, writeFile_last img bs f c off s hoff hs, rfl, ?_⟩
      have : bytesPerClus bs ≤ (rest.length + 1 + 1) * bytesPerClus bs :=
        Nat.le_mul_of_pos_left _ (by omega)
      simp [writeSizes]; omega
    · obtain ⟨r, hr, hout, hsum⟩ := writeFile_sum img bs (c' :: rest) (by simp)
        (s - bytesPerClus bs) f hch' hend (by simp; omega)
      simp only [List.head_cons, List.length_cons] at hr hsum
      refine ⟨⟨.enter c :: .write (bytesPerClus bs) (img.read off (bytesPerClus bs))
          :: r.trace, r.outcome⟩, ?_, hout, ?_⟩
      · rw [writeFile_next img bs f c off s c' hoff (by omega) hv he, hr]
      · have hm : (rest.length + 1 + 1) * bytesPerClus bs
            = (rest.length + 1) * bytesPerClus bs + bytesPerClus bs := Nat.succ_mul _ _
        simp only [writeSizes, List.sum_cons, hsum, hm]
        omega
theorem read_take (img : Image) (pos len s : Nat) (h : s ≤ len) :
    (img.read pos len).take s = img.read pos s := by
  simp only [Image.read, ← List.map_take, List.take_range]
  congr 2
  omega

theorem blockInside_spec (img : Image) (bs : fat32BS) (c : Nat)
    (h : blockInside img bs c = true) :
    ∃ off, getFirstSectorOfClus bs c = some off ∧ off + bytesPerClus bs ≤ img.size
      ∧ blockAt img bs c = img.read off (bytesPerClus bs)
      ∧ (blockAt img bs c).length = bytesPerClus bs := by
  unfold blockInside at h
  cases ho : getFirstSectorOfClus bs c with
  | none => simp only [ho] at h; cases h
  | some off =>
    simp only [ho, decide_eq_true_eq] at h
    refine ⟨off, rfl, h, by simp only [blockAt, ho], ?_⟩
    simp only [blockAt, ho, read_length]
    omega

/-- The bytes `writeFile` hands to the output on a chain `cs` long enough for the size `s`. -/
theorem writeFile_written (img : Image) (bs : fat32BS) :
    ∀ (cs : List Nat) (hne : cs ≠ []) (s fuel : Nat),
      isChain img bs cs = true → (∀ c ∈ cs, blockInside img bs c = true) →
      s ≤ cs.length * bytesPerClus bs → cs.length ≤ fuel →
      ∃ r, writeFile img bs fuel (cs.head hne) (s : Int) = some r
        ∧ r.outcome = .returned ()
        ∧ fullyRead r.trace = true
        ∧ written r.trace = (concatBlocks img bs cs).take s
  | [], hne, _, _, _, _, _, _ => absurd rfl hne
  | [c], _, s, fuel, _, hin, hs, hfuel => by
    obtain ⟨f, rfl⟩ : ∃ f, fuel = f + 1 := ⟨fuel - 1, by simp at hfuel; omega⟩
    obtain ⟨off, hoff, hsz, hblk, hlen⟩ := blockInside_spec img bs c (hin c (by simp))
    simp only [List.length_singleton, Nat.one_mul] at hs
    refine ⟨_, writeFile_last img bs f c off s hoff hs, rfl, ?_, ?_⟩
    · simp only [fullyRead, read_length, Bool.and_true, beq_iff_eq]
      omega
    · simp only [written, concatBlocks, List.append_nil, hblk]
      exact (read_take img off _ s hs).symm
  | c :: c' :: rest, _, s, fuel, hch, hin, hs, hfuel => by
    obtain ⟨f, rfl⟩ : ∃ f, fuel = f + 1 := ⟨fuel - 1, by simp at hfuel; omega⟩
    obtain ⟨off, hoff, hsz, hblk, hlen⟩ := blockInside_spec img bs c (hin c (by simp))
    obtain ⟨hv, he, hch'⟩ := isChain_cons_cons img bs c c' rest hch
    simp only [List.head_cons, List.length_cons] at hfuel hs ⊢
    by_cases hle : s ≤ bytesPerClus bs
    · refine ⟨_, writeFile_last img bs f c off s hoff hle, rfl, ?_, ?_⟩
      · simp only [fullyRead, read_length, Bool.and_true, beq_iff_eq]
        omega
      · simp only [written, List.append_nil]
        have e : concatBlocks img bs (c :: c' :: rest)
            = blockAt img bs c ++ concatBlocks img bs (c' :: rest) := rfl
        rw [e, List.take_append_of_le_length (by omega), hblk]
        exact (read_take img off _ s hle).symm
    · have hm : (rest.length + 1 + 1) * bytesPerClus bs
          = (rest.length + 1) * bytesPerClus bs + bytesPerClus bs := Nat.succ_mul _ _
      obtain ⟨r, hr, hout, hfull, hwr⟩ := writeFile_written img bs (c' :: rest) (by simp)
        (s - bytesPerClus bs) f hch' (fun x hx => hin x (List.mem_cons_of_mem _ hx))
        (by simp only [List.length_cons]; omega) (by simp; omega)
      simp only [List.head_cons] at hr
      refine ⟨⟨.enter c :: .write (bytesPerClus bs) (img.read off (bytesPerClus bs))
          :: r.trace, r.outcome⟩, ?_, hout, ?_, ?_⟩
      · rw [writeFile_next img bs f c off s c' hoff (by omega) hv he, hr]
      · simp only [fullyRead, read_length, hfull, Bool.and_true, beq_iff_eq]
        omega
      · simp only [written, hwr]
        have hsplit : s = (blockAt img bs c).length + (s - bytesPerClus bs) := by omega
        have e : concatBlocks img bs (c :: c' :: rest)
            = blockAt img bs c ++ concatBlocks img bs (c' :: rest) := rfl
        rw [e]
        conv_rhs => rw [hsplit, List.take_append]
        rw [hblk]
theorem size_le_of_ceil_le (s cb n : Nat) (hcb : 0 < cb) (h : (s + cb - 1) / cb ≤ n) :
    s ≤ n * cb := by
  have h1 : (s + cb - 1) / cb < n + 1 := by omega
  rw [Nat.div_lt_iff_lt_mul hcb, Nat.succ_mul] at h1
  omega

theorem concatBlocks_length (img : Image) (bs : fat32BS) :
    ∀ cs : List Nat, (∀ c ∈ cs, blockInside img bs c = true) →
      (concatBlocks img bs cs).length = cs.length * bytesPerClus bs
  | [], _ => by simp [concatBlocks]
  | c :: rest, hin => by
    obtain ⟨_, _, _, _, hlen⟩ := blockInside_spec img bs c (hin c (by simp))
    have ih := concatBlocks_length img bs rest (fun x hx => hin x (List.mem_cons_of_mem _ hx))
    simp only [concatBlocks, List.length_append, List.length_cons, hlen, ih, Nat.succ_mul]
    omega

/-- What `writeFile` delivers where the FAT entries of the chain can be read.  Let
`cb = BPB_SecPerClus * BPB_BytesPerSec > 0`, let `c0 :: rest` be clusters that
follow one another in the FAT of the image (each the result of `getNextClus` on the one
before, none an end-of-chain value; this leaves out entries in FAT sectors with a number
below 8, where the 32 bytes that `readFromOffset` reads do not fit the block it allocates),
at least `ceil(fileSize / cb)` of them, each lying inside the image.  Then `writeFile`,
started at `c0` with a size `fileSize` that its `int` parameter holds (`0 ≤ fileSize < 2 ^ 31`)
and fuel for that many calls, returns, every write carries bytes read from the image, and the
bytes written are exactly the first `fileSize` bytes of the concatenation, in chain order, of
the `cb`-byte blocks at `getFirstSectorOfClus c`. -/
theorem writeFile_delivers_file_bytes (img : Image) (bs : fat32BS) (c0 : Nat)
    (rest : List Nat) (fileSize : Int) (fuel : Nat)
    (hcb : 0 < bs.BPB_SecPerClus * bs.BPB_BytesPerSec)
    (hs : 0 ≤ fileSize) (hint : fileSize < 2 ^ 31)
    (hch : isChain img bs (c0 :: rest) = true)
    (hk : (fileSize.toNat + bs.BPB_SecPerClus * bs.BPB_BytesPerSec - 1)
        / (bs.BPB_SecPerClus * bs.BPB_BytesPerSec) ≤ (c0 :: rest).length)
    (hin : ∀ c ∈ c0 :: rest, blockInside img bs c = true)
    (hfuel : (c0 :: rest).length ≤ fuel) :
    ∃ r, writeFile img bs fuel c0 fileSize = some r
      ∧ r.outcome = .returned ()
      ∧ fullyRead r.trace = true
      ∧ written r.trace = (concatBlocks img bs (c0 :: rest)).take fileSize.toNat
      ∧ ((written r.trace).length : Int) = fileSize := by
  have _ := hint
  have e : fileSize = ((fileSize.toNat : Nat) : Int) := (Int.toNat_of_nonneg hs).symm
  have hsz : fileSize.toNat ≤ (c0 :: rest).length * bytesPerClus bs :=
    size_le_of_ceil_le fileSize.toNat _ _ hcb hk
  obtain ⟨r, hr, hout, hfull, hwr⟩ :=
    writeFile_written img bs (c0 :: rest) (by simp) fileSize.toNat fuel hch hin hsz hfuel
  rw [← e] at hr
  refine ⟨r, hr, hout, hfull, hwr, ?_⟩
  rw [hwr, List.length_take, concatBlocks_length img bs _ hin]
  omega

/-- The bytes delivered at `fileImg`: 9000 bytes over the chain 5, 9, 7 of 4096-byte
clusters.  On `lowImg`, where the FAT entries of the chain 5, 9 lie in FAT sector 2, the
hypothesis on the chain does not hold. -/
theorem writeFile_delivers_file_bytes_witness :
    isChain fileImg fileGeo [5, 9, 7] = true
    ∧ (∀ c ∈ [5, 9, 7], blockInside fileImg fileGeo c = true)
    ∧ (∃ r, writeFile fileImg fileGeo 3 5 9000 = some r
      ∧ r.outcome = .returned ()
      ∧ fullyRead r.trace = true
      ∧ written r.trace = (concatBlocks fileImg fileGeo [5, 9, 7]).take (9000 : Int).toNat
      ∧ ((written r.trace).length : Int) = 9000)
    ∧ isChain lowImg lowGeo [5, 9] = false :=
  ⟨by decide, by decide,
   writeFile_delivers_file_bytes fileImg fileGeo 5 [9, 7] 9000 3 (by decide) (by decide)
     (by decide) (by decide) (by decide) (by decide) (by decide),
   by decide⟩

/-- The number of bytes `writeFile` writes where the FAT entries of the chain can be read.
When the chain of the start cluster consists of exactly the clusters `c0 :: rest`
(each the result of `getNextClus` on the one before, the entry of the last an end-of-chain
value; this leaves out entries in FAT sectors with a number below 8, where the 32 bytes that
`readFromOffset` reads do not fit the block it allocates), then, for every size
`fileSize` that the `int` parameter of `writeFile` holds (`0 ≤ fileSize < 2 ^ 31`),
`writeFile` returns and the lengths of its writes add up to `min fileSize (k * cb)`, with `k`
the number of clusters and `cb = BPB_SecPerClus * BPB_BytesPerSec`. -/
theorem writeFile_total_bytes (img : Image) (bs : fat32BS) (c0 : Nat) (rest : List Nat)
    (fileSize : Int) (fuel : Nat)
    (hs : 0 ≤ fileSize) (hint : fileSize < 2 ^ 31)
    (hch : isChain img bs (c0 :: rest) = true)
    (hend : chainEnds img bs (c0 :: rest) = true)
    (hfuel : (c0 :: rest).length ≤ fuel) :
    ∃ r, writeFile img bs fuel c0 fileSize = some r
      ∧ r.outcome = .returned ()
      ∧ (((writeSizes r.trace).sum : Nat) : Int)
          = min fileSize
              (((c0 :: rest).length * (bs.BPB_SecPerClus * bs.BPB_BytesPerSec) : Nat) : Int) := by
  have _ := hint
  have e : fileSize = ((fileSize.toNat : Nat) : Int) := (Int.toNat_of_nonneg hs).symm
  obtain ⟨r, hr, hout, hsum⟩ :=
    writeFile_sum img bs (c0 :: rest) (by simp) fileSize.toNat fuel hch hend hfuel
  simp only [List.head_cons] at hr
  rw [← e] at hr
  refine ⟨r, hr, hout, ?_⟩
  rw [hsum]
  simp only [bytesPerClus]
  omega

/-- The bytes written at `fileImg`: chain 5, 9, 7 of 4096-byte clusters; 9000 bytes asked,
9000 written; 20000 bytes asked, 12288 written.  On `lowImg`, where the FAT entries of the
chain 5, 9 lie in FAT sector 2, the hypotheses on the chain do not hold. -/
theorem writeFile_total_bytes_witness :
    isChain fileImg fileGeo [5, 9, 7] = true ∧ chainEnds fileImg fileGeo [5, 9, 7] = true
    ∧ (∃ r, writeFile fileImg fileGeo 3 5 9000 = some r
        ∧ r.outcome = .returned ()
        ∧ (((writeSizes r.trace).sum : Nat) : Int)
            = min 9000 ((([5, 9, 7] : List Nat).length
                * (fileGeo.BPB_SecPerClus * fileGeo.BPB_BytesPerSec) : Nat) : Int))
    ∧ (∃ r, writeFile fileImg fileGeo 3 5 20000 = some r
        ∧ r.outcome = .returned ()
        ∧ (((writeSizes r.trace).sum : Nat) : Int)
            = min 20000 ((([5, 9, 7] : List Nat).length
                * (fileGeo.BPB_SecPerClus * fileGeo.BPB_BytesPerSec) : Nat) : Int))
    ∧ (writeFile fileImg fileGeo 3 5 9000).map (fun r => (writeSizes r.trace).sum) = some 9000
    ∧ (writeFile fileImg fileGeo 3 5 20000).map (fun r => (writeSizes r.trace).sum)
        = some 12288
    ∧ isChain lowImg lowGeo [5, 9] = false ∧ chainEnds lowImg lowGeo [5, 9] = false :=
  ⟨by decide, by decide,
   writeFile_total_bytes fileImg fileGeo 5 [9, 7] 9000 3 (by decide) (by decide) (by decide)
     (by decide) (by decide),
   writeFile_total_bytes fileImg fileGeo 5 [9, 7] 20000 3 (by decide) (by decide) (by decide)
     (by decide) (by decide),
   by decide, by decide, by decide, by decide⟩

/-- C4 at its failing input. `createHead` accepts `lowImg`, a volume of 512-byte sectors, 8
sectors per cluster and 2 reserved sectors.  Its FAT holds the chain 5 → 9 → end of chain:
the word at the offset of entry 5 is 9 and the word at the offset of entry 9 is
`0x0FFFFFFF`; both clusters lie inside the image, and 5000 bytes need two clusters of 4096
bytes.  The entry of cluster 5 lies in FAT sector 2, for which `readFromOffset` allocates
`2 * 4 = 8` bytes and reads 32 bytes into them: `getNextClus 5` has no defined result, and
`writeFile` is followed up to its write of the 4096 bytes of cluster 5 and no further;
cluster 9 is not entered.  In `chainImg`, which holds the same chain behind 32 reserved
sectors, the run enters both clusters and writes 4096 and 904 bytes. -/
theorem writeFile_cut_short_at_low_fat_sector :
    (createHead lowImg).map (fun h => (h.bs.BPB_BytesPerSec, h.bs.BPB_SecPerClus,
        h.bs.BPB_RsvdSecCnt, h.bs.BPB_NumFATs, h.bs.BPB_FATSz32, h.bs.BPB_RootClus))
      = some (512, 8, 2, 2, 16, 2)
    ∧ (createHead lowImg).map (fun h => (writeFile lowImg h.bs 2 5 5000).map
        (fun r => (clusters r.trace, writeSizes r.trace, r.outcome)))
      = some (some ([5], [4096], .exited))
    ∧ lowImg.word32 (2 * 512 + 4 * 5) = some 9
    ∧ lowImg.word32 (2 * 512 + 4 * 9) = some 0x0FFFFFFF
    ∧ (∀ c ∈ [5, 9], blockInside lowImg lowGeo c = true)
    ∧ (5000 + 8 * 512 - 1) / (8 * 512) = 2
    ∧ (lowGeo.BPB_RsvdSecCnt + 4 * 5 / lowGeo.BPB_BytesPerSec) * sizeof_uint32 = 8
    ∧ readFromOffset lowImg lowGeo 2 20 = none
    ∧ getNextClus lowImg lowGeo 5 = none
    ∧ (writeFile lowImg lowGeo 2 5 5000).map
        (fun r => (clusters r.trace, writeSizes r.trace, r.outcome))
      = some ([5], [4096], .exited)
    ∧ (writeFile chainImg fileGeo 2 5 5000).map
        (fun r => (clusters r.trace, writeSizes r.trace, r.outcome))
      = some ([5, 9], [4096, 904], .returned ()) :=
  ⟨by decide, by decide, by decide, by decide, by decide, by decide, by decide, by decide,
    by decide, by decide, by decide⟩

/-- C6 at its failing inputs. In `lowImg`, a volume with 2 reserved sectors that `createHead`
accepts, the chain of cluster 5 consists of exactly the two clusters 5 and 9, yet of 5000
bytes `writeFile` is followed up to its write of 4096 bytes and no further, where
`min 5000 (2 * 4096) = 5000`: the FAT entry of cluster 5 lies in FAT sector 2, and
`readFromOffset` reads its 32 bytes into a block of 8 bytes.  And in `fileImg` (chain 5, 9,
7) a declared size of `0x80000000` reaches the `int` parameter as `-2147483648`:
`writeFile` returns without a write, where `min 0x80000000 (3 * 4096) = 12288`. -/
theorem writeFile_total_short_at_low_fat_sector :
    (createHead lowImg).map (fun h => (h.bs.BPB_BytesPerSec, h.bs.BPB_SecPerClus,
        h.bs.BPB_RsvdSecCnt, h.bs.BPB_NumFATs, h.bs.BPB_FATSz32, h.bs.BPB_RootClus))
      = some (512, 8, 2, 2, 16, 2)
    ∧ (createHead lowImg).map (fun h => (writeFile lowImg h.bs 2 5 5000).map
        (fun r => ((writeSizes r.trace).sum, r.outcome)))
      = some (some (4096, .exited))
    ∧ lowImg.word32 (2 * 512 + 4 * 5) = some 9
    ∧ lowImg.word32 (2 * 512 + 4 * 9) = some 0x0FFFFFFF
    ∧ getNextClus lowImg lowGeo 5 = none
    ∧ (writeFile lowImg lowGeo 2 5 5000).map (fun r => ((writeSizes r.trace).sum, r.outcome))
      = some (4096, .exited)
    ∧ min 5000 (2 * (8 * 512)) = 5000
    ∧ isChain fileImg fileGeo [5, 9, 7] = true ∧ chainEnds fileImg fileGeo [5, 9, 7] = true
    ∧ toInt32 0x80000000 = -2147483648
    ∧ (writeFile fileImg fileGeo 3 5 (toInt32 0x80000000)).map
        (fun r => ((writeSizes r.trace).sum, r.outcome))
      = some (0, .returned ())
    ∧ min 0x80000000 (3 * (8 * 512)) = 12288 :=
  ⟨by decide, by decide, by decide, by decide, by decide, by decide, by decide, by decide,
    by decide, by decide, by decide, by decide⟩

theorem toInt32_of_lt (x : Nat) (h : x < 2 ^ 31) : toInt32 x = (x : Int) := by
  have hx : x % U32 = x := Nat.mod_eq_of_lt (by simp only [U32]; omega)
  simp only [toInt32, hx, if_pos h]

/-- C7 as stated fails: in `truncImg` the chain of cluster 5 is that cluster alone (its entry
is an end-of-chain value) and the entry `entry9000` declares 9000 bytes, more than the 4096 of
one cluster; `writeFile` writes 4096 bytes and returns, and `doDownload` goes on to print
`Done.`, exactly as it does in `fileImg`, where the chain has the three clusters needed. -/
theorem doDownload_truncated_says_done :
    chainEnds truncImg fileGeo [5] = true
    ∧ entry9000.DIR_FileSize = 9000 ∧ newClusOf entry9000 = 5
    ∧ (doDownload_found truncImg fileGeo 3 entry9000).map
        (fun r => (r.outcome, clusters r.trace, writeSizes r.trace))
        = some (.returned .done, [5], [4096])
    ∧ (doDownload_found fileImg fileGeo 3 entry9000).map
        (fun r => (r.outcome, clusters r.trace, writeSizes r.trace))
        = some (.returned .done, [5, 9, 7], [4096, 4096, 808]) := by
  decide

/-- C7 (amended). When the chain of the entry's first cluster consists of exactly the `k`
clusters `c0 :: rest` (each the result of `getNextClus` on the one before, the entry of the
last an end-of-chain value; this leaves out entries in FAT sectors with a number below 8,
where the 32 bytes that `readFromOffset` reads do not fit the block it allocates) and the
entry declares more than `k * cb` bytes (a size below `2 ^ 31`), `writeFile` writes `k * cb`
bytes and returns, and `doDownload` ends as after a complete extraction: the run returns with
`Done.` printed, and nothing reports the missing bytes. -/
theorem doDownload_found_short_chain (img : Image) (bs : fat32BS) (dir : fat32Dir)
    (c0 : Nat) (rest : List Nat) (fuel : Nat)
    (hstart : newClusOf dir = c0)
    (hch : isChain img bs (c0 :: rest) = true)
    (hend : chainEnds img bs (c0 :: rest) = true)
    (hfuel : (c0 :: rest).length ≤ fuel)
    (hint : dir.DIR_FileSize < 2 ^ 31)
    (hshort : (c0 :: rest).length * (bs.BPB_SecPerClus * bs.BPB_BytesPerSec)
        < dir.DIR_FileSize) :
    ∃ tr, doDownload_found img bs fuel dir = some ⟨tr, .returned .done⟩
      ∧ writeFile img bs fuel c0 (dir.DIR_FileSize : Int) = some ⟨tr, .returned ()⟩
      ∧ (writeSizes tr).sum = (c0 :: rest).length * (bs.BPB_SecPerClus * bs.BPB_BytesPerSec)
      ∧ (writeSizes tr).sum < dir.DIR_FileSize := by
  obtain ⟨r, hr, hout, hsum⟩ :=
    writeFile_sum img bs (c0 :: rest) (by simp) dir.DIR_FileSize fuel hch hend hfuel
  simp only [List.head_cons] at hr
  have hmin : (writeSizes r.trace).sum
      = (c0 :: rest).length * (bs.BPB_SecPerClus * bs.BPB_BytesPerSec) := by
    rw [hsum]
    exact Nat.min_eq_right (Nat.le_of_lt hshort)
  have hr' : writeFile img bs fuel c0 (dir.DIR_FileSize : Int) = some ⟨r.trace, .returned ()⟩ := by
    rw [hr, ← hout]
  refine ⟨r.trace, ?_, hr', hmin, by rw [hmin]; exact hshort⟩
  simp only [doDownload_found, hstart, toInt32_of_lt _ hint, hr']

/-- C7 (amended) at `truncImg` and `entry9000`: the FAT entry of cluster 5 lies in FAT sector
32.  On `lowImg`, where the FAT entries of the chain 5, 9 lie in FAT sector 2, the hypotheses
on the chain do not hold. -/
theorem doDownload_found_short_chain_witness :
    chainEnds truncImg fileGeo [5] = true
    ∧ [5].length * (fileGeo.BPB_SecPerClus * fileGeo.BPB_BytesPerSec) < entry9000.DIR_FileSize
    ∧ (∃ tr, doDownload_found truncImg fileGeo 1 entry9000 = some ⟨tr, .returned .done⟩
      ∧ writeFile truncImg fileGeo 1 5 (entry9000.DIR_FileSize : Int) = some ⟨tr, .returned ()⟩
      ∧ (writeSizes tr).sum = [5].length * (fileGeo.BPB_SecPerClus * fileGeo.BPB_BytesPerSec)
      ∧ (writeSizes tr).sum < entry9000.DIR_FileSize)
    ∧ isChain lowImg lowGeo [5, 9] = false ∧ chainEnds lowImg lowGeo [5, 9] = false :=
  ⟨by decide, by decide,
   doDownload_found_short_chain truncImg fileGeo entry9000 5 [] 1 (by decide) (by decide)
     (by decide) (by decide) (by decide) (by decide),
   by decide, by decide⟩

/-- C5 at its failing input. The entry `entry2G` declares `0x80000000` bytes (2 GiB) in its
32-bit `DIR_FileSize`; converted to the `int` parameter of `writeFile` this is `-2147483648`,
so on every image and geometry, whatever the chain of cluster 5, `writeFile` returns at once:
no cluster is read, nothing is written, and `doDownload` prints `Done.`. -/
theorem doDownload_found_2GiB_writes_nothing (img : Image) (bs : fat32BS) (fuel : Nat) :
    entry2G.DIR_FileSize = 2 ^ 31
    ∧ toInt32 entry2G.DIR_FileSize = -2147483648
    ∧ doDownload_found img bs (fuel + 1) entry2G = some ⟨[], .returned .done⟩ := by
  have h1 : toInt32 entry2G.DIR_FileSize = -2147483648 := by decide
  refine ⟨by decide, h1, ?_⟩
  simp [doDownload_found, h1, writeFile]
theorem u32_no_wrap (x m r d b : Nat) (hb : 0 < b) (hfit : (x + (r + m + d)) * b < 2 ^ 32) :
    m % U32 = m ∧ (r + m + d) % U32 = r + m + d ∧ x % U32 = x
      ∧ (x + (r + m + d)) % U32 = x + (r + m + d)
      ∧ ((x + (r + m + d)) * b) % U32 = (x + (r + m + d)) * b := by
  have hle := Nat.le_mul_of_pos_right (x + (r + m + d)) hb
  have h32 : U32 = 2 ^ 32 := rfl
  refine ⟨?_, ?_, ?_, ?_, ?_⟩ <;> apply Nat.mod_eq_of_lt <;> omega

/-- Where nothing wraps: for `BPB_BytesPerSec > 0` and a cluster number `2 ≤ n < 2 ^ 32` whose
exact byte offset is below `2 ^ 32`, `getFirstSectorOfClus` returns that offset;
in particular cluster 2 starts at `firstDataSector * BPB_BytesPerSec`. -/
theorem getFirstSectorOfClus_exact (bs : fat32BS) (n : Nat)
    (hbps : 0 < bs.BPB_BytesPerSec) (hn : 2 ≤ n) (hn32 : n < 2 ^ 32)
    (hfit : ((n - 2) * bs.BPB_SecPerClus
        + (bs.BPB_RsvdSecCnt + bs.BPB_NumFATs * bs.BPB_FATSz32
          + (bs.BPB_RootEntCnt * 32 + (bs.BPB_BytesPerSec - 1)) / bs.BPB_BytesPerSec))
        * bs.BPB_BytesPerSec < 2 ^ 32) :
    getFirstSectorOfClus bs n
      = some (((n - 2) * bs.BPB_SecPerClus
        + (bs.BPB_RsvdSecCnt + bs.BPB_NumFATs * bs.BPB_FATSz32
          + (bs.BPB_RootEntCnt * 32 + (bs.BPB_BytesPerSec - 1)) / bs.BPB_BytesPerSec))
        * bs.BPB_BytesPerSec) := by
  have hne : bs.BPB_BytesPerSec ≠ 0 := by omega
  have e1 : (n + U32 - 2) % U32 = n - 2 := by
    simp only [U32]; omega
  obtain ⟨e2, e3, e4, e5, e6⟩ := u32_no_wrap ((n - 2) * bs.BPB_SecPerClus)
    (bs.BPB_NumFATs * bs.BPB_FATSz32) bs.BPB_RsvdSecCnt
    ((bs.BPB_RootEntCnt * 32 + (bs.BPB_BytesPerSec - 1)) / bs.BPB_BytesPerSec)
    bs.BPB_BytesPerSec hbps hfit
  simp only [getFirstSectorOfClus, if_neg hne, INT_32, e1, e2, e3, e4, e5, e6]

/-- The exact offset at `fileGeo`, cluster 5: byte 45056. -/
theorem getFirstSectorOfClus_exact_witness :
    getFirstSectorOfClus fileGeo 5 = some (((5 - 2) * 8 + (32 + 2 * 16 + 0)) * 512) :=
  getFirstSectorOfClus_exact fileGeo 5 (by decide) (by decide) (by decide) (by decide)

theorem ceil_step (s cb : Nat) (hcb : 0 < cb) (hs : cb < s) :
    (s + cb - 1) / cb = (s - cb + cb - 1) / cb + 1 := by
  have h : s + cb - 1 = (s - cb + cb - 1) + cb := by omega
  rw [h, Nat.add_div_right _ hcb]

theorem ceil_one (s cb : Nat) (hs : 0 < s) (hle : s ≤ cb) : (s + cb - 1) / cb = 1 :=
  Nat.div_eq_of_lt_le (by omega) (by omega)

/-- The lengths of the writes of `writeFile` on a chain long enough for the size `s > 0`:
whole clusters, then the rest. -/
theorem writeFile_sizes (img : Image) (bs : fat32BS) (hcb : 0 < bytesPerClus bs) :
    ∀ (cs : List Nat) (hne : cs ≠ []) (s fuel : Nat), 0 < s →
      isChain img bs cs = true →
      (s + bytesPerClus bs - 1) / bytesPerClus bs ≤ cs.length → cs.length ≤ fuel →
      ∃ r, writeFile img bs fuel (cs.head hne) (s : Int) = some r
        ∧ r.outcome = .returned ()
        ∧ writeSizes r.trace
          = List.replicate ((s + bytesPerClus bs - 1) / bytesPerClus bs - 1) (bytesPerClus bs)
            ++ [s - ((s + bytesPerClus bs - 1) / bytesPerClus bs - 1) * bytesPerClus bs]
  | [], hne, _, _, _, _, _, _ => absurd rfl hne
  | c :: rest, _, s, fuel, hs, hch, hk, hfuel => by
    obtain ⟨f, rfl⟩ : ∃ f, fuel = f + 1 := ⟨fuel - 1, by simp at hfuel; omega⟩
    have hb : bs.BPB_BytesPerSec ≠ 0 := by
      intro h0
      simp only [bytesPerClus, h0, Nat.mul_zero] at hcb
      omega
    obtain ⟨off, hoff, _⟩ := getFirstSectorOfClus_isSome bs c hb
    by_cases hle : s ≤ bytesPerClus bs
    · refine ⟨_, writeFile_last img bs f c off s hoff hle, rfl, ?_⟩
      simp [writeSizes, ceil_one s _ hs hle]
    · have hstep := ceil_step s (bytesPerClus bs) hcb (by omega)
      have hpos : 0 < (s - bytesPerClus bs + bytesPerClus bs - 1) / bytesPerClus bs :=
        Nat.div_pos (by omega) hcb
      match rest, hch, hk, hfuel with
      | [], _, hk, _ =>
        simp only [List.length_singleton] at hk
        omega
      | c' :: rest', hch, hk, hfuel =>
        obtain ⟨hv, he, hch'⟩ := isChain_cons_cons img bs c c' rest' hch
        obtain ⟨r, hr, hout, hsz⟩ := writeFile_sizes img bs hcb (c' :: rest') (by simp)
          (s - bytesPerClus bs) f (by omega) hch'
          (by simp only [List.length_cons] at hk ⊢; omega) (by simp at hfuel ⊢; omega)
        simp only [List.head_cons] at hr
        refine ⟨⟨.enter c :: .write (bytesPerClus bs) (img.read off (bytesPerClus bs))
            :: r.trace, r.outcome⟩, ?_, hout, ?_⟩
        · rw [List.head_cons, writeFile_next img bs f c off s c' hoff (by omega) hv he, hr]
        · obtain ⟨k, hk'⟩ : ∃ k,
              (s - bytesPerClus bs + bytesPerClus bs - 1) / bytesPerClus bs = k + 1 :=
            ⟨_, (Nat.succ_pred_eq_of_pos hpos).symm⟩
          simp only [writeSizes, hsz, hstep, hk', Nat.add_sub_cancel, List.replicate_succ,
            List.cons_append, Nat.succ_mul]
          have e : s - bytesPerClus bs - k * bytesPerClus bs
              = s - (k * bytesPerClus bs + bytesPerClus bs) := by omega
          rw [e]

theorem ceil_pred_mul_lt (s cb : Nat) (hcb : 0 < cb) (hs : 0 < s) :
    ((s + cb - 1) / cb - 1) * cb < s := by
  have h1 := Nat.div_mul_le_self (s + cb - 1) cb
  have h2 : 0 < (s + cb - 1) / cb := Nat.div_pos (by omega) hcb
  obtain ⟨k, hk⟩ : ∃ k, (s + cb - 1) / cb = k + 1 := ⟨_, (Nat.succ_pred_eq_of_pos h2).symm⟩
  rw [hk, Nat.succ_mul] at h1
  rw [hk, Nat.add_sub_cancel]
  omega

/-- For a size `0 < s < 2 ^ 31` in `DIR_FileSize`, clusters of `cb > 0` bytes and a chain of at
least `k = ceil(s / cb)` clusters from the entry's first cluster, `doDownload` makes exactly `k`
writes, the first `k - 1` of `cb` bytes and the last of `s - (k - 1) * cb`, `s` bytes in all. -/
theorem doDownload_found_write_sizes (img : Image) (bs : fat32BS) (dir : fat32Dir)
    (c0 : Nat) (rest : List Nat) (fuel : Nat)
    (hstart : newClusOf dir = c0)
    (hcb : 0 < bs.BPB_SecPerClus * bs.BPB_BytesPerSec)
    (hpos : 0 < dir.DIR_FileSize) (hint : dir.DIR_FileSize < 2 ^ 31)
    (hch : isChain img bs (c0 :: rest) = true)
    (hk : (dir.DIR_FileSize + bs.BPB_SecPerClus * bs.BPB_BytesPerSec - 1)
        / (bs.BPB_SecPerClus * bs.BPB_BytesPerSec) ≤ (c0 :: rest).length)
    (hfuel : (c0 :: rest).length ≤ fuel) :
    ∃ tr, doDownload_found img bs fuel dir = some ⟨tr, .returned .done⟩
      ∧ writeSizes tr
        = List.replicate ((dir.DIR_FileSize + bs.BPB_SecPerClus * bs.BPB_BytesPerSec - 1)
              / (bs.BPB_SecPerClus * bs.BPB_BytesPerSec) - 1)
            (bs.BPB_SecPerClus * bs.BPB_BytesPerSec)
          ++ [dir.DIR_FileSize
              - ((dir.DIR_FileSize + bs.BPB_SecPerClus * bs.BPB_BytesPerSec - 1)
                  / (bs.BPB_SecPerClus * bs.BPB_BytesPerSec) - 1)
                * (bs.BPB_SecPerClus * bs.BPB_BytesPerSec)]
      ∧ (writeSizes tr).sum = dir.DIR_FileSize := by
  obtain ⟨r, hr, hout, hsz⟩ := writeFile_sizes img bs hcb (c0 :: rest) (by simp)
    dir.DIR_FileSize fuel hpos hch hk hfuel
  simp only [List.head_cons] at hr
  have hlt := ceil_pred_mul_lt dir.DIR_FileSize _ hcb hpos
  refine ⟨r.trace, ?_, hsz, ?_⟩
  · simp only [doDownload_found, hstart, toInt32_of_lt _ hint, hr, hout]
  · rw [hsz]
    simp only [List.sum_append, List.sum_replicate, List.sum_cons, List.sum_nil, smul_eq_mul,
      bytesPerClus] at hlt ⊢
    omega

/-- The write sizes at `fileImg` and `entry9000`: 9000 bytes in clusters of 4096 over the chain 5, 9, 7
are written as 4096, 4096 and 808 bytes. -/
theorem doDownload_found_write_sizes_witness :
    entry9000.DIR_FileSize = 9000 ∧ isChain fileImg fileGeo [5, 9, 7] = true
    ∧ ∃ tr, doDownload_found fileImg fileGeo 3 entry9000 = some ⟨tr, .returned .done⟩
      ∧ writeSizes tr = [4096, 4096, 808] ∧ (writeSizes tr).sum = 9000 :=
  ⟨by decide, by decide,
   doDownload_found_write_sizes fileImg fileGeo entry9000 5 [9, 7] 3 (by decide) (by decide)
     (by decide) (by decide) (by decide) (by decide) (by decide)⟩

/-! ## The FSInfo sector -/

theorem get8_lt (img : Image) (pos : Nat) : img.get8 pos < 256 :=
  Nat.mod_lt _ (by decide)

theorem get16_lt (img : Image) (pos : Nat) : img.get16 pos < 65536 := by
  have h0 := get8_lt img pos
  have h1 := get8_lt img (pos + 1)
  unfold Image.get16
  omega

/-- What `fsiInit` has checked when it returns, for a sector number and a sector size
of 16 bits: the product does not wrap, and it is not the offset that the `int` result of
`lseek` mistakes for a failure. -/
theorem fsiInit_spec (img : Image) (bs : fat32BS) (n : Nat) (fsi : FSInfo)
    (hn : n < 65536) (hb : bs.BPB_BytesPerSec < 65536) (h : fsiInit img bs n = some fsi) :
    n * bs.BPB_BytesPerSec + 512 ≤ img.size
    ∧ fsi = decodeFSI (img.read (n * bs.BPB_BytesPerSec) sizeof_FSInfo)
    ∧ img.get32 (n * bs.BPB_BytesPerSec) = FSI_LEADSIG
    ∧ img.get32 (n * bs.BPB_BytesPerSec + 508) = FSI_TRAILSIG
    ∧ fsi.FSI_Free_Count = img.get32 (n * bs.BPB_BytesPerSec + 488)
    ∧ fsi.FSI_Nxt_Free = img.get32 (n * bs.BPB_BytesPerSec + 492) := by
  have hsz : sizeof_FSInfo = 512 := by decide
  have hprod : n * bs.BPB_BytesPerSec ≤ 65535 * 65535 :=
    Nat.mul_le_mul (by omega) (by omega)
  have hmod : (n * bs.BPB_BytesPerSec) % U32 = n * bs.BPB_BytesPerSec := by
    apply Nat.mod_eq_of_lt
    simp only [U32]
    omega
  unfold fsiInit at h
  simp only [hmod, hsz, read_length] at h
  split at h
  · cases h
  · split at h
    · cases h
    · rename_i hlen
      have hs : n * bs.BPB_BytesPerSec + 512 ≤ img.size := by omega
      split at h
      · cases h
      · rename_i hsig
        simp only [Option.some.injEq] at h
        subst h
        have e0 : le32 (img.read (n * bs.BPB_BytesPerSec) 512) 0
            = img.get32 (n * bs.BPB_BytesPerSec) :=
          le32_read img _ 512 0 (by omega) (by omega)
        have e508 := le32_read img (n * bs.BPB_BytesPerSec) 512 508 (by omega) (by omega)
        have e488 := le32_read img (n * bs.BPB_BytesPerSec) 512 488 (by omega) (by omega)
        have e492 := le32_read img (n * bs.BPB_BytesPerSec) 512 492 (by omega) (by omega)
        have o0 : fsiOff .FSI_LeadSig = 0 := by decide
        have o508 : fsiOff .FSI_TrailSig = 508 := by decide
        have o488 : fsiOff .FSI_Free_Count = 488 := by decide
        have o492 : fsiOff .FSI_Nxt_Free = 492 := by decide
        simp only [decodeFSI, o0, o508, e0, e508, ne_eq, not_or, not_not] at hsig
        refine ⟨hs, by rw [hsz], hsig.1, hsig.2, ?_, ?_⟩
        · simp only [decodeFSI, o488, e488]
        · simp only [decodeFSI, o492, e492]

/-- C11. For every image `createHead` accepts, with `off` the product of the 16-bit values
at image offsets 48 (`BPB_FSInfo`) and 11 (`BPB_BytesPerSec`): the 512 bytes at `off` lie
inside the image and are the FSInfo record of the head, the little-endian 32-bit word at
`off` is `0x41615252` and the one at `off + 508` is `0xAA550000` (an image in which either
differs is rejected), `FSI_Free_Count` is the word at `off + 488` and `FSI_Nxt_Free` the
word at `off + 492`. -/
theorem createHead_reads_FSInfo (img : Image) (h : fat32Head) (hh : createHead img = some h) :
    img.get16 48 * img.get16 11 + 512 ≤ img.size
    ∧ h.fsi = decodeFSI (img.read (img.get16 48 * img.get16 11) sizeof_FSInfo)
    ∧ img.get32 (img.get16 48 * img.get16 11) = 0x41615252
    ∧ img.get32 (img.get16 48 * img.get16 11 + 508) = 0xAA550000
    ∧ h.fsi.FSI_Free_Count = img.get32 (img.get16 48 * img.get16 11 + 488)
    ∧ h.fsi.FSI_Nxt_Free = img.get32 (img.get16 48 * img.get16 11 + 492) := by
  unfold createHead at hh
  cases hb : bootSectorInit img with
  | none => rw [hb] at hh; cases hh
  | some bs =>
    obtain ⟨_, h11, _, _, _, _, _, _, _, _, _, _, h48, _, _, _⟩ :=
      bootSectorInit_fields img bs hb
    rw [hb] at hh
    simp only at hh
    split at hh
    · cases hh
    · split at hh
      · cases hh
      · split at hh
        · cases hh
        · split at hh
          · cases hh
          · rename_i fsi hf
            split at hh
            · cases hh
            · simp only [Option.some.injEq] at hh
              subst hh
              have hs := fsiInit_spec img bs bs.BPB_FSInfo fsi
                (by rw [h48]; exact get16_lt img 48) (by rw [h11]; exact get16_lt img 11) hf
              rw [h48, h11] at hs
              exact hs

/-- C11 at `bigVol`: its FSInfo sector is sector 1 of 512 bytes, so the record is read at
offset 512. -/
theorem createHead_reads_FSInfo_witness :
    ∃ h, createHead bigVol = some h ∧ bigVol.get16 48 * bigVol.get16 11 = 512
      ∧ bigVol.get32 512 = 0x41615252 ∧ bigVol.get32 (512 + 508) = 0xAA550000
      ∧ h.fsi.FSI_Free_Count = bigVol.get32 (512 + 488) :=
  match hc : createHead bigVol with
  | some h =>
    ⟨h, rfl, by decide, (createHead_reads_FSInfo bigVol h hc).2.2.1,
      (createHead_reads_FSInfo bigVol h hc).2.2.2.1, (createHead_reads_FSInfo bigVol h hc).2.2.2.2.1⟩
  | none => absurd hc (by decide)
/-! ## The cluster count and the command INFO -/

/-- C12 as stated fails: `createHead` accepts `smallVol`, a volume of 4992 clusters (fewer
than 65525), and `doDir` then lists its root directory and returns.  The command INFO ends
the process on it. -/
theorem createHead_opens_volume_of_4992_clusters :
    (createHead smallVol).map (fun h =>
        (h.bs.BPB_TotSec32, h.bs.BPB_RsvdSecCnt, h.bs.BPB_NumFATs, h.bs.BPB_FATSz32,
          h.bs.BPB_SecPerClus, countOfClusters h.bs))
      = some (40000, 32, 2, 16, 8, some 4992)
    ∧ ((40000 : Nat) - (32 + 2 * 16 + 0)) / 8 = 4992
    ∧ (createHead smallVol).map (fun h =>
        doDir smallVol h.bs doDir_endMark 2 h.bs.BPB_RootClus true)
      = some (some ⟨[.enter 2, .slot 32768], .returned ()⟩)
    ∧ (createHead smallVol).map (printInfo smallVol) = some .fat16 :=
  ⟨by decide, by decide, by decide, by decide⟩

/-- C12 (amended). The cluster count is computed and tested by `printInfo`, the command INFO.
For every head with non-zero sector and cluster sizes, `printInfo` computes, in `uint32_t`
arithmetic, `countOfClusters = ((BPB_TotSec32 - (BPB_RsvdSecCnt + (BPB_NumFATs * BPB_FATSz32)
mod 2 ^ 32 + rootDirSectors) mod 2 ^ 32) mod 2 ^ 32) / BPB_SecPerClus`, with `rootDirSectors =
(BPB_RootEntCnt * 32 + (BPB_BytesPerSec - 1)) / BPB_BytesPerSec`; it ends the process as FAT12
exactly when that count is below 4085 and as FAT16 exactly when it is from 4085 to 65524; and
when `BPB_TotSec32` (below `2 ^ 32`) is at least the sum subtracted from it, the count is
`(BPB_TotSec32 - (BPB_RsvdSecCnt + BPB_NumFATs * BPB_FATSz32 + rootDirSectors)) /
BPB_SecPerClus`.  There is an image that `createHead` accepts and whose head has a count of
4992. -/
theorem printInfo_cluster_count_check (img : Image) (h : fat32Head)
    (hb : h.bs.BPB_BytesPerSec ≠ 0) (hs : h.bs.BPB_SecPerClus ≠ 0) :
    countOfClusters h.bs
      = some ((h.bs.BPB_TotSec32 + 2 ^ 32
          - (h.bs.BPB_RsvdSecCnt + (h.bs.BPB_NumFATs * h.bs.BPB_FATSz32) % 2 ^ 32
            + (h.bs.BPB_RootEntCnt * 32 + (h.bs.BPB_BytesPerSec - 1)) / h.bs.BPB_BytesPerSec)
            % 2 ^ 32) % 2 ^ 32 / h.bs.BPB_SecPerClus)
    ∧ (printInfo img h = .fat12 ↔
        (h.bs.BPB_TotSec32 + 2 ^ 32
          - (h.bs.BPB_RsvdSecCnt + (h.bs.BPB_NumFATs * h.bs.BPB_FATSz32) % 2 ^ 32
            + (h.bs.BPB_RootEntCnt * 32 + (h.bs.BPB_BytesPerSec - 1)) / h.bs.BPB_BytesPerSec)
            % 2 ^ 32) % 2 ^ 32 / h.bs.BPB_SecPerClus < 4085)
    ∧ (printInfo img h = .fat16 ↔
        4085 ≤ (h.bs.BPB_TotSec32 + 2 ^ 32
          - (h.bs.BPB_RsvdSecCnt + (h.bs.BPB_NumFATs * h.bs.BPB_FATSz32) % 2 ^ 32
            + (h.bs.BPB_RootEntCnt * 32 + (h.bs.BPB_BytesPerSec - 1)) / h.bs.BPB_BytesPerSec)
            % 2 ^ 32) % 2 ^ 32 / h.bs.BPB_SecPerClus
        ∧ (h.bs.BPB_TotSec32 + 2 ^ 32
          - (h.bs.BPB_RsvdSecCnt + (h.bs.BPB_NumFATs * h.bs.BPB_FATSz32) % 2 ^ 32
            + (h.bs.BPB_RootEntCnt * 32 + (h.bs.BPB_BytesPerSec - 1)) / h.bs.BPB_BytesPerSec)
            % 2 ^ 32) % 2 ^ 32 / h.bs.BPB_SecPerClus < 65525)
    ∧ (h.bs.BPB_TotSec32 < 2 ^ 32 →
        h.bs.BPB_RsvdSecCnt + h.bs.BPB_NumFATs * h.bs.BPB_FATSz32
          + (h.bs.BPB_RootEntCnt * 32 + (h.bs.BPB_BytesPerSec - 1)) / h.bs.BPB_BytesPerSec
          ≤ h.bs.BPB_TotSec32 →
        countOfClusters h.bs
          = some ((h.bs.BPB_TotSec32
              - (h.bs.BPB_RsvdSecCnt + h.bs.BPB_NumFATs * h.bs.BPB_FATSz32
                + (h.bs.BPB_RootEntCnt * 32 + (h.bs.BPB_BytesPerSec - 1))
                  / h.bs.BPB_BytesPerSec))
            / h.bs.BPB_SecPerClus))
    ∧ (∃ (vol : Image) (hv : fat32Head),
        createHead vol = some hv ∧ countOfClusters hv.bs = some 4992) := by
  generalize hr : (h.bs.BPB_RootEntCnt * 32 + (h.bs.BPB_BytesPerSec - 1)) / h.bs.BPB_BytesPerSec
    = rds
  generalize hp : h.bs.BPB_NumFATs * h.bs.BPB_FATSz32 = fat
  have hc : countOfClusters h.bs
      = some ((h.bs.BPB_TotSec32 + 2 ^ 32 - (h.bs.BPB_RsvdSecCnt + fat % 2 ^ 32 + rds) % 2 ^ 32)
          % 2 ^ 32 / h.bs.BPB_SecPerClus) := by
    unfold countOfClusters
    rw [if_neg hb]
    simp only [if_neg hs, INT_32, U32, hr, hp]
  generalize hw : (h.bs.BPB_TotSec32 + 2 ^ 32
      - (h.bs.BPB_RsvdSecCnt + fat % 2 ^ 32 + rds) % 2 ^ 32) % 2 ^ 32 / h.bs.BPB_SecPerClus
    = w at hc ⊢
  refine ⟨hc, ?_, ?_, ?_, ?_⟩
  · unfold printInfo
    rw [hc]
    simp only [FAT12_NUMCLUS, FAT16_NUMCLUS]
    constructor
    · intro hp12
      split at hp12
      · assumption
      · split at hp12
        · cases hp12
        · split at hp12 <;> cases hp12
    · intro hlt
      rw [if_pos hlt]
  · unfold printInfo
    rw [hc]
    simp only [FAT12_NUMCLUS, FAT16_NUMCLUS]
    constructor
    · intro hp16
      split at hp16
      · cases hp16
      · split at hp16
        · constructor <;> omega
        · split at hp16 <;> cases hp16
    · intro hlt
      rw [if_neg (by omega), if_pos hlt.2]
  · intro htot hfit
    rw [hc, ← hw]
    have e1 : fat % 2 ^ 32 = fat := Nat.mod_eq_of_lt (by omega)
    have e2 : (h.bs.BPB_RsvdSecCnt + fat + rds) % 2 ^ 32 = h.bs.BPB_RsvdSecCnt + fat + rds :=
      Nat.mod_eq_of_lt (by omega)
    have e3 : (h.bs.BPB_TotSec32 + 2 ^ 32 - (h.bs.BPB_RsvdSecCnt + fat + rds)) % 2 ^ 32
        = h.bs.BPB_TotSec32 - (h.bs.BPB_RsvdSecCnt + fat + rds) := by
      have e : h.bs.BPB_TotSec32 + 2 ^ 32 - (h.bs.BPB_RsvdSecCnt + fat + rds)
          = (h.bs.BPB_TotSec32 - (h.bs.BPB_RsvdSecCnt + fat + rds)) + 2 ^ 32 := by omega
      rw [e, Nat.add_mod_right]
      exact Nat.mod_eq_of_lt (by omega)
    rw [e1, e2, e3]
  · have hm : (createHead smallVol).map (fun hv => countOfClusters hv.bs)
        = some (some 4992) := by decide
    cases hcr : createHead smallVol with
    | none => rw [hcr] at hm; cases hm
    | some hv =>
      rw [hcr] at hm
      simp only [Option.map_some', Option.some.injEq] at hm
      exact ⟨smallVol, hv, hcr, hm⟩

/-- C12 (amended) at the head of a volume of 4992 clusters (the geometry of `smallVol`):
INFO ends the process as FAT16; and at a head whose `BPB_TotSec32` of 10 is less than the 64
sectors before the data region: the subtraction wraps, the count is `(2 ^ 32 - 54) / 8`, and
INFO goes on to its report. -/
theorem printInfo_cluster_count_check_witness :
    countOfClusters smallHead.bs = some ((40000 - (32 + 2 * 16 + (0 * 32 + (512 - 1)) / 512)) / 8)
    ∧ (40000 - (32 + 2 * 16 + (0 * 32 + (512 - 1)) / 512)) / 8 = 4992
    ∧ printInfo smallVol smallHead = .fat16
    ∧ countOfClusters { smallHead.bs with BPB_TotSec32 := 10 } = some ((2 ^ 32 - 54) / 8)
    ∧ ¬ (printInfo smallVol { smallHead with bs := { smallHead.bs with BPB_TotSec32 := 10 } }
          = .fat12)
    ∧ ¬ (printInfo smallVol { smallHead with bs := { smallHead.bs with BPB_TotSec32 := 10 } }
          = .fat16) :=
  ⟨(printInfo_cluster_count_check smallVol smallHead (by decide) (by decide)).2.2.2.1
      (by decide) (by decide), by decide,
    (printInfo_cluster_count_check smallVol smallHead (by decide) (by decide)).2.2.1.mpr
      (by decide),
    (printInfo_cluster_count_check smallVol
      { smallHead with bs := { smallHead.bs with BPB_TotSec32 := 10 } } (by decide)
      (by decide)).1,
    fun h12 => absurd ((printInfo_cluster_count_check smallVol
      { smallHead with bs := { smallHead.bs with BPB_TotSec32 := 10 } } (by decide)
      (by decide)).2.1.mp h12) (by decide),
    fun h16 => absurd ((printInfo_cluster_count_check smallVol
      { smallHead with bs := { smallHead.bs with BPB_TotSec32 := 10 } } (by decide)
      (by decide)).2.2.1.mp h16) (by decide)⟩
/-! ## Which slots the directory loops read -/

/-- C13 at its failing input. In `dirImg` (512-byte sectors, 8 sectors per cluster) the
directory of cluster 5 has the chain 5 → 9 and no slot of its 128 + 128 slots starts with
`0x00`.  `doDir` reads the 16 slots of the first sector of cluster 5 and the 16 slots of the
first sector of cluster 9 and returns; the slot at 45568, the first of the second sector of
cluster 5, is not read, though the loop body would list its entry `DEEP`.  `doCD` reads the
same slots: for the argument `DEEP`, which the loop body resolves to cluster 11 on that
entry, it returns 9. -/
theorem doDir_reads_first_sector_only :
    ((List.range 128).all fun k =>
        dirImg.byte (45056 + 32 * k) != 0 && dirImg.byte (61440 + 32 * k) != 0) = true
    ∧ fileGeo.BPB_SecPerClus * (fileGeo.BPB_BytesPerSec / 32) = 128
    ∧ doDir dirImg fileGeo doDir_endMark 3 5 true
      = some ⟨.enter 5 :: slotEvents 45056 16 ++ .enter 9 :: slotEvents 61440 16, .returned ()⟩
    ∧ Ev.slot 45568 ∉ Ev.enter 5 :: slotEvents 45056 16 ++ Ev.enter 9 :: slotEvents 61440 16
    ∧ (readDir dirImg 45568 0).bind (doDir_entry 0 ⟨[]⟩) = some true
    ∧ (readDir dirImg 45568 0).bind (doCD_entry (ascii "DEEP") false 5) = some 11
    ∧ doCD dirImg fileGeo (some (ascii "DEEP")) doCD_entry 3 5
      = some ⟨.enter 5 :: slotEvents 45056 16 ++ .enter 9 :: slotEvents 61440 16, .returned 9⟩ :=
  ⟨by decide, by decide, by decide, by decide, by decide, by decide, by decide⟩

/-- C14 at its failing input. In `markImg` the fifth slot of cluster 5 (offset 45184) starts
with `0x00`.  `doDir` reads the five slots up to it, leaves the rest of that sector, then
follows the chain to cluster 9 and reads the 16 slots of its first sector; the loop body
lists the entry `LATE.TXT` read there at offset 61472. -/
theorem doDir_goes_on_after_end_marker :
    (readDir markImg 45184 0).map (fun d => d.DIR_Name 0) = some 0x00
    ∧ doDir markImg fileGeo doDir_endMark 3 5 true
      = some ⟨.enter 5 :: slotEvents 45056 5 ++ .enter 9 :: slotEvents 61440 16, .returned ()⟩
    ∧ ((readDir markImg 61472 0).bind formatDirectory).bind fat32Dir.name
      = some (ascii "LATE.TXT")
    ∧ (readDir markImg 61472 0).bind (doDir_entry 0 ⟨[]⟩) = some true :=
  ⟨by decide, by decide, by decide, by decide⟩

/-- C17 at its failing input. In `dirImg` no entry of the chain 5 → 9 has the name `NOSUCH`
after `formatDirectory`; `doCD`, called on cluster 5 with that argument, returns 9, the
last cluster of the chain, not 5. -/
theorem doCD_failed_lookup_returns_last_cluster :
    ((List.range 128).all fun k =>
      (((readDir dirImg 45056 (32 * k)).bind formatDirectory).bind fat32Dir.name
          != some (ascii "NOSUCH"))
      && (((readDir dirImg 61440 (32 * k)).bind formatDirectory).bind fat32Dir.name
          != some (ascii "NOSUCH"))) = true
    ∧ isChain dirImg fileGeo [5, 9] = true ∧ chainEnds dirImg fileGeo [5, 9] = true
    ∧ (doCD dirImg fileGeo (some (ascii "NOSUCH")) doCD_entry 3 5).map (fun r => r.outcome)
      = some (.returned 9) :=
  ⟨by decide, by decide, by decide, by decide⟩

/-- C18 at its failing input. In `dirImg` the directory of cluster 5 (chain 5 → 9, no
end-of-directory marker) holds the file entries `FAR.TXT` at offset 45600, in the second
sector of cluster 5, and `LATE.TXT` at offset 61472, in cluster 9.  `doDownload` reads the
16 slots of the first sector of cluster 5 and prints "Error: File not found" for both names;
for `FILE.TXT`, the fourth of those 16 slots, it writes the file and prints "Done.". -/
theorem doDownload_reads_first_sector_only :
    ((readDir dirImg 45600 0).bind formatDirectory).map (fun d => (d.name, d.DIR_Attr))
      = some (some (ascii "FAR.TXT"), 0x20)
    ∧ ((readDir dirImg 61472 0).bind formatDirectory).map (fun d => (d.name, d.DIR_Attr))
      = some (some (ascii "LATE.TXT"), 0x20)
    ∧ doDownload dirImg fileGeo ⟨List.replicate 32 0⟩ (some (ascii "FAR.TXT")) 3 5
      = some ⟨slotEvents 45056 16, .returned .notFound⟩
    ∧ doDownload dirImg fileGeo ⟨List.replicate 32 0⟩ (some (ascii "LATE.TXT")) 3 5
      = some ⟨slotEvents 45056 16, .returned .notFound⟩
    ∧ (doDownload dirImg fileGeo ⟨List.replicate 32 0⟩ (some (ascii "FILE.TXT")) 3 5).map
        (fun r => (clusters r.trace, writeSizes r.trace, r.outcome))
      = some ([7], [100], .returned .done) :=
  ⟨by decide, by decide, by decide, by decide, by decide⟩
/-! ## `formatDirectory` and the first name byte -/

theorem getElem?_set_other (m : List Nat) (i k v : Nat) (h : i ≠ k) :
    (m.set k v)[i]? = m[i]? :=
  List.getElem?_set_ne (Ne.symm h)

theorem poke_get (m m' : List Nat) (i k v : Nat) (h : poke m k v = some m') (hik : i ≠ k) :
    m'[i]? = m[i]? := by
  unfold poke at h
  split at h
  · simp only [Option.some.injEq] at h
    rw [← h]
    exact getElem?_set_other m i k v hik
  · cases h

theorem strstrSpace_ge (m : List Nat) : ∀ (p k : Nat),
    strstrSpace m p = some (some k) → p ≤ k := by
  induction m with
  | nil => intro p k h; cases h
  | cons c rest ih =>
    intro p k h
    unfold strstrSpace at h
    split at h
    · cases h
    · split at h
      · simp only [Option.some.injEq] at h
        omega
      · have := ih (p + 1) k h
        omega

/-- Before the space that `strstr` finds no byte is NUL, and the byte there is a space. -/
theorem strstrSpace_spec (m : List Nat) : ∀ (p k : Nat),
    strstrSpace m p = some (some k) →
    m[k - p]? = some 0x20 ∧ ∀ i, i < k - p → ∃ c, m[i]? = some c ∧ c ≠ 0 := by
  induction m with
  | nil => intro p k h; cases h
  | cons c rest ih =>
    intro p k h
    unfold strstrSpace at h
    split at h
    · cases h
    · rename_i hc0
      split at h
      · rename_i hc
        simp only [Option.some.injEq] at h
        subst h
        subst hc
        simp
      · have hge := strstrSpace_ge rest (p + 1) k h
        obtain ⟨h1, h2⟩ := ih (p + 1) k h
        have e : k - p = (k - (p + 1)) + 1 := by omega
        rw [e]
        refine ⟨by simpa using h1, ?_⟩
        intro i hi
        cases i with
        | zero => exact ⟨c, by simp, hc0⟩
        | succ i =>
          obtain ⟨c', hc', hne⟩ := h2 i (by omega)
          exact ⟨c', by simpa using hc', hne⟩

/-- A string whose first `n + 1` bytes are not NUL is longer than `n`. -/
theorem strlen_gt (m : List Nat) : ∀ (n len : Nat),
    (∀ i, i ≤ n → ∃ c, m[i]? = some c ∧ c ≠ 0) → strlen m = some len → n < len := by
  induction m with
  | nil => intro n len _ h; cases h
  | cons c rest ih =>
    intro n len hall h
    unfold strlen at h
    split at h
    · rename_i hc
      obtain ⟨c', hc', hne⟩ := hall 0 (by omega)
      simp only [List.getElem?_cons_zero, Option.some.injEq] at hc'
      subst hc'
      exact absurd hc hne
    · cases hl : strlen rest with
      | none => rw [hl] at h; cases h
      | some l =>
        rw [hl] at h
        simp only [Option.map_some', Option.some.injEq] at h
        subst h
        cases n with
        | zero => omega
        | succ n =>
          have := ih n l (fun i hi => by
            obtain ⟨c', hc', hne⟩ := hall (i + 1) (by omega)
            exact ⟨c', by simpa using hc', hne⟩) hl
          omega

theorem addDotLoop_get (is : List Nat) : ∀ (m : List Nat) (cur i : Nat),
    i ∉ is → (addDotLoop m cur is)[i]? = m[i]? := by
  induction is with
  | nil => intro m cur i _; rfl
  | cons j js ih =>
    intro m cur i hi
    simp only [List.mem_cons, not_or] at hi
    unfold addDotLoop
    rw [ih (m.set j cur) (m.getD j 0) i hi.2]
    exact getElem?_set_other m i j cur hi.1

/-- On a string of more than 11 bytes `addDot` starts at index 8 and leaves the bytes
before untouched. -/
theorem addDot_get (m m' : List Nat) (i : Nat) (h : addDot m = some m')
    (hlen : ∀ len, strlen m = some len → 11 < len) (hi : i < 8) : m'[i]? = m[i]? := by
  unfold addDot at h
  cases hl : strlen m with
  | none => rw [hl] at h; cases h
  | some len =>
    have h11 := hlen len hl
    have hgt : len > DIR_NAME_LENGTH := h11
    have e : ((DIR_NAME_LENGTH : Nat) : Int) - ((EXT_DIST : Nat) : Int) + 1 = 8 := by decide
    rw [hl] at h
    simp only [if_pos hgt, e, show ¬ ((8 : Int) < 0) by decide, if_false,
      Option.some.injEq] at h
    rw [← h]
    apply addDotLoop_get
    intro hmem
    have := (List.mem_range'_1.mp hmem).1
    simp at this
    omega

theorem removeSpaceGo_get_lt : ∀ (fuel : Nat) (m : List Nat) (s d : Nat) (m' : List Nat),
    removeSpaceGo fuel m s d = some m' → ∀ i, i < s → m'[i]? = m[i]? := by
  intro fuel
  induction fuel with
  | zero => intro m s d m' h; cases h
  | succ fuel ih =>
    intro m s d m' h i hi
    unfold removeSpaceGo at h
    split at h
    · cases h
    · rename_i c hc
      split at h
      · exact ih m s (d + 1) m' h i hi
      · split at h
        · simp only [Option.some.injEq] at h
          rw [← h]
          exact getElem?_set_other m i s 0 (by omega)
        · rw [ih (m.set s c) (s + 1) (d + 1) m' h i (by omega)]
          exact getElem?_set_other m i s c (by omega)

/-- The function `removeSpace` keeps a first byte that is not white space. -/
theorem removeSpace_get0 (m m' : List Nat) (c : Nat) (h : removeSpace m 0 0 = some m')
    (h0 : m[0]? = some c) (hc : isspace c = false) : m'[0]? = some c := by
  unfold removeSpace removeSpaceGo at h
  rw [h0] at h
  simp only [hc, Bool.false_eq_true, if_false] at h
  have hlen : 0 < m.length := by
    rcases m with _ | ⟨a, t⟩
    · cases h0
    · simp
  split at h
  · rename_i hz
    simp only [Option.some.injEq] at h
    rw [← h, hz]
    simp [List.getElem?_set_self, hlen]
  · rw [removeSpaceGo_get_lt _ _ _ _ _ h 0 (by omega)]
    simp [List.getElem?_set_self, hlen]

theorem copyNoSpace_get_lt (is : List Nat) : ∀ (m : List Nat) (j i : Nat), i < j →
    (copyNoSpace m j is).1[i]? = m[i]? ∧ j ≤ (copyNoSpace m j is).2 := by
  induction is with
  | nil => intro m j i _; exact ⟨rfl, Nat.le_refl _⟩
  | cons a as ih =>
    intro m j i hi
    unfold copyNoSpace
    split
    · obtain ⟨h1, h2⟩ := ih (m.set j (m.getD a 0)) (j + 1) i (by omega)
      refine ⟨?_, by omega⟩
      rw [h1]
      exact getElem?_set_other m i j _ (by omega)
    · exact ih m j i hi

/-- The function `formatDirectory` keeps the first name byte when it is neither NUL nor
white space. -/
theorem formatDirectory_get0 (d f : fat32Dir) (c : Nat) (h : formatDirectory d = some f)
    (h0 : d.raw[0]? = some c) (hs : isspace c = false) (hz : c ≠ 0) : f.raw[0]? = some c := by
  have hsp : c ≠ 0x20 := by
    intro e
    rw [e] at hs
    exact absurd hs (by decide)
  have hlen : 0 < d.raw.length := by
    rcases hd : d.raw with _ | ⟨a, t⟩
    · rw [hd] at h0; cases h0
    · simp
  have hfind : ∀ (m : List Nat) (k : Nat), m[0]? = some c →
      strstrSpace m 0 = some (some k) → 1 ≤ k := by
    intro m k hm hk
    rcases m with _ | ⟨a, t⟩
    · cases hk
    · simp only [List.getElem?_cons_zero, Option.some.injEq] at hm
      subst hm
      unfold strstrSpace at hk
      rw [if_neg hz, if_neg hsp] at hk
      exact strstrSpace_ge t 1 k hk
  unfold formatDirectory at h
  simp only at h
  split at h
  · -- the directory branch
    have hr : List.range DIR_NAME_LENGTH = 0 :: [1, 2, 3, 4, 5, 6, 7, 8, 9, 10] := by decide
    rw [hr] at h
    have hg : d.raw.getD 0 0 = c := by
      rw [List.getD_eq_getElem?_getD, h0]
      rfl
    have hstep : copyNoSpace d.raw 0 (0 :: [1, 2, 3, 4, 5, 6, 7, 8, 9, 10])
        = copyNoSpace (d.raw.set 0 c) 1 [1, 2, 3, 4, 5, 6, 7, 8, 9, 10] := by
      rw [copyNoSpace, hg, hs]
      rfl
    rw [hstep] at h
    obtain ⟨h1, h2⟩ := copyNoSpace_get_lt [1, 2, 3, 4, 5, 6, 7, 8, 9, 10] (d.raw.set 0 c) 1 0
      (by omega)
    have h1' : (copyNoSpace (d.raw.set 0 c) 1 [1, 2, 3, 4, 5, 6, 7, 8, 9, 10]).1[0]? = some c := by
      rw [h1]
      simp [List.getElem?_set_self, hlen]
    split at h
    · cases h
    · rename_i m1 hp
      split at h
      · cases h
      · rename_i m2 hrm
        simp only [Option.some.injEq] at h
        rw [← h]
        apply removeSpace_get0 m1 m2 c hrm _ hs
        rw [poke_get _ _ 0 _ _ hp (by omega)]
        exact h1'
  · split at h
    · -- the archive branch
      split at h
      · cases h
      · split at h
        · cases h
        · rename_i m1 hrm
          simp only [Option.some.injEq] at h
          rw [← h]
          exact removeSpace_get0 d.raw m1 c hrm h0 hs
      · rename_i space hfs
        have hk := hfind d.raw space h0 hfs
        obtain ⟨hsp1, hsp2⟩ := strstrSpace_spec d.raw 0 space hfs
        have hset0 : (d.raw.set space 0x2E)[0]? = some c := by
          rw [getElem?_set_other _ _ _ _ (by omega)]
          exact h0
        split at h
        · cases h
        · rename_i m2 hm2
          split at h
          · cases h
          · rename_i m3 hrm
            split at h
            · cases h
            · rename_i m4 hp
              simp only [Option.some.injEq] at h
              rw [← h]
              simp only [EXT_DIST] at hp
              rw [poke_get _ _ 0 _ _ hp (by omega)]
              apply removeSpace_get0 m2 m3 c hrm _ hs
              split at hm2
              · rename_i hge
                simp only [DIR_NAME_LENGTH] at hge
                split at hm2
                · cases hm2
                · rename_i m5 had
                  rw [poke_get _ _ 0 _ _ hm2 (by omega)]
                  rw [addDot_get _ _ 0 had ?_ (by omega)]
                  · exact hset0
                  · intro len hl
                    have := strlen_gt (d.raw.set space 0x2E) space len (fun i hi => by
                      rcases Nat.lt_or_ge i space with hlt | hge'
                      · obtain ⟨c', hc', hne⟩ := hsp2 i (by omega)
                        exact ⟨c', by rw [getElem?_set_other _ _ _ _ (by omega)]; exact hc', hne⟩
                      · have e : i = space := by omega
                        subst e
                        have hl' : i < d.raw.length := by
                          have := hsp1
                          simp only [Nat.sub_zero] at this
                          exact (List.getElem?_eq_some_iff.mp this).1
                        exact ⟨0x2E, by simp [List.getElem?_set_self, hl'], by decide⟩) hl
                    omega
              · simp only [Option.some.injEq] at hm2
                rw [← hm2]
                exact hset0
    · -- the other attributes
      split at h
      · cases h
      · rename_i space hfs
        split at h
        · cases h
        · rename_i m1 hm1
          have hm10 : m1[0]? = some c := by
            split at hm1
            · simp only [Option.some.injEq] at hm1
              rw [← hm1]
              exact h0
            · rename_i k
              have hk := hfind d.raw k h0 hfs
              obtain ⟨hsp1, hsp2⟩ := strstrSpace_spec d.raw 0 k hfs
              simp only [Nat.sub_zero] at hsp1 hsp2
              split at hm1
              · cases hm1
              · split at hm1
                · split at hm1
                  · simp only [Option.some.injEq] at hm1
                    rw [← hm1, getElem?_set_other _ _ _ _ (by omega)]
                    exact h0
                  · rename_i hgt
                    simp only [DIR_NAME_LENGTH] at hgt
                    rw [addDot_get _ _ 0 hm1 ?_ (by omega)]
                    · exact h0
                    · intro len hl
                      have := strlen_gt d.raw k len (fun i hi => by
                        rcases Nat.lt_or_ge i k with hlt | hge'
                        · exact hsp2 i hlt
                        · have e : i = k := by omega
                          subst e
                          exact ⟨0x20, hsp1, by decide⟩) hl
                      omega
                · simp only [Option.some.injEq] at hm1
                  rw [← hm1]
                  exact h0
          split at h
          · cases h
          · simp only [Option.some.injEq] at h
            rw [← h]
            exact hm10
          · rename_i k hk2
            have hk := hfind m1 k hm10 hk2
            split at h
            · cases h
            · rename_i m2 hp
              simp only [Option.some.injEq] at h
              rw [← h]
              simp only [EXT_DIST] at hp
              rw [poke_get _ _ 0 _ _ hp (by omega), getElem?_set_other _ _ _ _ (by omega)]
              exact hm10
/-- An entry whose name fails `checkName` is not listed by lines 240 to 286 of `doDir`:
each of the four conditions calls it. -/
theorem doDir_lists_of_checkName_false (i : Nat) (other f : fat32Dir)
    (h : checkName f.raw = some false) : doDir_lists i other f = some false := by
  unfold doDir_lists
  simp only [h, ite_self, Bool.false_and, Bool.false_eq_true, if_false]

/-- C15. For every directory entry whose first name byte is `0xE5` or `0x05`, whatever its
other bytes, whatever the value `i` of the outer loop variable and whatever the memory
behind the record holds, the body of the loop of `doDir` reaches none of its `printf`
calls that list an entry; where `formatDirectory` stays inside the record, the body ends
without a line (`some false`).  The test `DIR_Name[0] != FREE_DIR` compares a signed `char`
with 229 and so never fails, but `checkName` rejects both bytes. -/
theorem doDir_skips_deleted_entries (i : Nat) (other d : fat32Dir)
    (h : d.DIR_Name 0 = 0xE5 ∨ d.DIR_Name 0 = 0x05) :
    doDir_entry i other d ≠ some true
    ∧ (∀ f, formatDirectory d = some f → doDir_entry i other d = some false)
    ∧ (∀ b : Nat, charVal b ≠ (FREE_DIR : Int)) := by
  have key : ∀ f, formatDirectory d = some f → doDir_entry i other d = some false := by
    intro f hf
    have hget : ∃ c, d.raw[0]? = some c ∧ (c = 0xE5 ∨ c = 0x05) := by
      have e : d.DIR_Name 0 = (d.raw[0]?).getD 0 := by
        unfold fat32Dir.DIR_Name u8
        rw [List.getD_eq_getElem?_getD]
        rfl
      rw [e] at h
      cases hd : d.raw[0]? with
      | none => rw [hd] at h; rcases h with h | h <;> cases h
      | some c =>
        rw [hd] at h
        exact ⟨c, rfl, h⟩
    obtain ⟨c, hc, hcv⟩ := hget
    have hs : isspace c = false := by rcases hcv with e | e <;> subst e <;> decide
    have hz : c ≠ 0 := by rcases hcv with e | e <;> subst e <;> decide
    have hf0 := formatDirectory_get0 d f c hf hc hs hz
    have hname : f.DIR_Name 0 = c := by
      unfold fat32Dir.DIR_Name u8
      rw [List.getD_eq_getElem?_getD]
      have e : dirOff DirField.DIR_Name + 0 = 0 := by decide
      rw [e, hf0]
      rfl
    have hck : checkName f.raw = some false := by
      rcases hr : f.raw with _ | ⟨a, t⟩
      · rw [hr] at hf0; cases hf0
      · rw [hr] at hf0
        simp only [List.getElem?_cons_zero, Option.some.injEq] at hf0
        subst hf0
        rcases hcv with e | e <;> subst e <;> rfl
    unfold doDir_entry
    rw [hf]
    simp only
    rw [if_neg (by rw [hname]; exact hz)]
    exact doDir_lists_of_checkName_false i other f hck
  refine ⟨?_, key, ?_⟩
  · cases hf : formatDirectory d with
    | none =>
      unfold doDir_entry
      rw [hf]
      simp
    | some f =>
      rw [key f hf]
      simp
  · intro b
    unfold charVal FREE_DIR
    split <;> omega

/-- C15 at `deletedEntry`, the entry of a deleted file: the name is formatted to `0xE5`
followed by `ILE.TXT`, and no line is printed. -/
theorem doDir_skips_deleted_entries_witness :
    deletedEntry.DIR_Name 0 = 0xE5
    ∧ (formatDirectory deletedEntry).bind fat32Dir.name = some (0xE5 :: ascii "ILE.TXT")
    ∧ doDir_entry 0 ⟨[]⟩ deletedEntry ≠ some true
    ∧ doDir_entry 0 ⟨[]⟩ deletedEntry = some false :=
  ⟨by decide, by decide,
    (doDir_skips_deleted_entries 0 ⟨[]⟩ deletedEntry (Or.inl (by decide))).1, by decide⟩
/-! ## The value `doCD` returns for an entry -/

theorem copyNoSpace_get_ge (is : List Nat) : ∀ (m : List Nat) (j i : Nat),
    j + is.length ≤ i →
    (copyNoSpace m j is).1[i]? = m[i]? ∧ (copyNoSpace m j is).2 ≤ j + is.length := by
  induction is with
  | nil => intro m j i _; exact ⟨rfl, Nat.le_refl _⟩
  | cons a as ih =>
    intro m j i hi
    simp only [List.length_cons] at hi ⊢
    unfold copyNoSpace
    split
    · obtain ⟨h1, h2⟩ := ih (m.set j (m.getD a 0)) (j + 1) i (by omega)
      refine ⟨?_, by omega⟩
      rw [h1]
      exact getElem?_set_other m i j _ (by omega)
    · obtain ⟨h1, h2⟩ := ih m j i (by omega)
      exact ⟨h1, by omega⟩

/-- With `source` not behind `dest` and a NUL at index `z`, not before `dest`, the
function `removeSpace` stores nothing behind `z`. -/
theorem removeSpaceGo_get_gt : ∀ (fuel : Nat) (m : List Nat) (s d z : Nat) (m' : List Nat),
    s ≤ d → d ≤ z → m[z]? = some 0 → removeSpaceGo fuel m s d = some m' →
    ∀ i, z < i → m'[i]? = m[i]? := by
  intro fuel
  induction fuel with
  | zero => intro m s d z m' _ _ _ h; cases h
  | succ fuel ih =>
    intro m s d z m' hsd hdz hz h i hi
    unfold removeSpaceGo at h
    split at h
    · cases h
    · rename_i c hc
      have hdz' : c ≠ 0 → d < z := by
        intro hne
        rcases Nat.lt_or_ge d z with hlt | hge
        · exact hlt
        · have e : d = z := by omega
          subst e
          rw [hz] at hc
          simp only [Option.some.injEq] at hc
          exact absurd hc.symm hne
      split at h
      · rename_i hsp
        have hc0 : c ≠ 0 := by
          intro e
          subst e
          exact absurd hsp (by decide)
        exact ih m s (d + 1) z m' (by omega) (hdz' hc0) hz h i hi
      · split at h
        · simp only [Option.some.injEq] at h
          rw [← h]
          exact getElem?_set_other m i s 0 (by omega)
        · rename_i hc0
          have hlt := hdz' hc0
          rw [ih (m.set s c) (s + 1) (d + 1) z m' (by omega) hlt
            (by rw [getElem?_set_other _ _ _ _ (by omega)]; exact hz) h i hi]
          exact getElem?_set_other m i s c (by omega)

/-- On an entry with the attribute `ATTR_DIRECTORY`, `formatDirectory` changes nothing
behind the attribute byte. -/
theorem formatDirectory_dir_tail (d f : fat32Dir) (hd : d.DIR_Attr = ATTR_DIRECTORY)
    (h : formatDirectory d = some f) (i : Nat) (hi : 12 ≤ i) : f.raw[i]? = d.raw[i]? := by
  unfold formatDirectory at h
  simp only [if_pos hd] at h
  obtain ⟨h1, h2⟩ := copyNoSpace_get_ge (List.range DIR_NAME_LENGTH) d.raw 0 i
    (by simp [DIR_NAME_LENGTH]; omega)
  have h3 := (copyNoSpace_get_ge (List.range DIR_NAME_LENGTH) d.raw 0 11
    (by simp [DIR_NAME_LENGTH])).2
  simp only [List.length_range, DIR_NAME_LENGTH, Nat.zero_add] at h2 h3
  split at h
  · cases h
  · rename_i m1 hp
    split at h
    · cases h
    · rename_i m2 hrm
      simp only [Option.some.injEq] at h
      rw [← h]
      have hz : m1[(copyNoSpace d.raw 0 (List.range DIR_NAME_LENGTH)).2]? = some 0 := by
        unfold poke at hp
        split at hp
        · rename_i hl
          simp only [Option.some.injEq] at hp
          rw [← hp]
          simp [List.getElem?_set_self, hl]
        · cases hp
      unfold removeSpace at hrm
      rw [removeSpaceGo_get_gt _ m1 0 0 _ m2 (Nat.le_refl _) (Nat.zero_le _) hz hrm i
        (by simp only [DIR_NAME_LENGTH]; omega)]
      rw [poke_get _ _ i _ _ hp (by simp only [DIR_NAME_LENGTH]; omega)]
      exact h1

/-- Where `strcmp` finds the string in memory equal to `arg`, the string is `arg`. -/
theorem strcmpEq_cstr (arg : List Nat) : ∀ (m : List Nat), (∀ a ∈ arg, a ≠ 0) →
    strcmpEq m arg = some true → cstr m = some arg := by
  induction arg with
  | nil =>
    intro m _ h
    rcases m with _ | ⟨c, t⟩
    · cases h
    · unfold strcmpEq at h
      simp only [Option.some.injEq, beq_iff_eq] at h
      subst h
      rfl
  | cons a as ih =>
    intro m harg h
    rcases m with _ | ⟨c, t⟩
    · cases h
    · have ha : a ≠ 0 := harg a (List.mem_cons_self _ _)
      unfold strcmpEq at h
      split at h
      · cases h
      · rename_i hca
        simp only [ne_eq, not_not] at hca
        subst hca
        have := ih t (fun x hx => harg x (List.mem_cons_of_mem _ hx)) h
        simp only [cstr, if_neg ha, this, Option.map_some']

theorem newClusOf_eq (d : fat32Dir) :
    newClusOf d = (d.DIR_FstClusHI <<< 16) % 2 ^ 32 ||| d.DIR_FstClusLO := by
  unfold newClusOf
  simp only [ADDR_ZERO, HEX_TEN, U32, Nat.zero_or]

/-- C16 as stated fails: in `dotImg` the entry `.` of the directory of cluster 5 (not the
root, which is cluster 2) records cluster 7.  `doCD` with the argument `.` returns 5, the
current cluster, not `(0 << 16) | 7`. -/
theorem doCD_dot_returns_current_cluster :
    fileGeo.BPB_RootClus = 2
    ∧ ((readDir dotImg 45056 0).bind formatDirectory).map
        (fun f => (f.name, f.DIR_Attr, f.DIR_FstClusHI, f.DIR_FstClusLO))
      = some (some DOT, 0x10, 0, 7)
    ∧ doCD dotImg fileGeo (some DOT) doCD_entry 3 5
      = some ⟨[.enter 5, .slot 45056], .returned 5⟩ :=
  ⟨by decide, by decide, by decide⟩

/-- C16 (amended). Whenever the body of the loop of `doCD`, run for a current directory
that is not the root and an argument without NUL, returns for an entry, the entry as
formatted has the attribute `ATTR_DIRECTORY`, and: for the argument `.` the value is the
current cluster, whatever the entry is; for every other argument the formatted name
equals the argument and the value is `(DIR_FstClusHI << 16) | DIR_FstClusLO` as a 32-bit
value, except that it is 2 when the argument is `..` and both halves are 0.  For an entry
that is a directory on disk, the two halves are those on disk. -/
theorem doCD_entry_returns_entry_cluster (arg : List Nat) (cur r : Nat) (d : fat32Dir)
    (harg : ∀ a ∈ arg, a ≠ 0) (h : doCD_entry arg false cur d = some r) :
    ∃ f, formatDirectory d = some f ∧ f.DIR_Attr = ATTR_DIRECTORY
      ∧ (d.DIR_Attr = ATTR_DIRECTORY →
          f.DIR_FstClusHI = d.DIR_FstClusHI ∧ f.DIR_FstClusLO = d.DIR_FstClusLO)
      ∧ (arg = DOT → r = cur)
      ∧ (arg ≠ DOT → f.name = some arg
          ∧ (if arg = DOTDOT ∧ f.DIR_FstClusLO = 0 ∧ f.DIR_FstClusHI = 0 then r = 2
             else r = (f.DIR_FstClusHI <<< 16) % 2 ^ 32 ||| f.DIR_FstClusLO)) := by
  unfold doCD_entry at h
  cases hf : formatDirectory d with
  | none => rw [hf] at h; cases h
  | some f =>
    rw [hf] at h
    simp only at h
    split at h
    · rename_i hattr
      refine ⟨f, rfl, hattr, ?_, ?_, ?_⟩
      · intro hd
        have t := formatDirectory_dir_tail d f hd hf
        have g : ∀ i, 12 ≤ i → u8 f.raw i = u8 d.raw i := by
          intro i hi
          unfold u8
          rw [List.getD_eq_getElem?_getD, List.getD_eq_getElem?_getD, t i hi]
        have o1 : dirOff DirField.DIR_FstClusHI = 20 := by decide
        have o2 : dirOff DirField.DIR_FstClusLO = 26 := by decide
        unfold fat32Dir.DIR_FstClusHI fat32Dir.DIR_FstClusLO le16
        rw [o1, o2, g 20 (by omega), g 21 (by omega), g 26 (by omega), g 27 (by omega)]
        exact ⟨rfl, rfl⟩
      · intro hdot
        rw [if_pos hdot] at h
        simp only [Option.some.injEq] at h
        exact h.symm
      · intro hdot
        rw [if_neg hdot] at h
        have hdd : ∀ a ∈ DOTDOT, a ≠ 0 := by decide
        split at h
        · cases h
        · cases h
        · rename_i h1 h2
          have n1 := strcmpEq_cstr DOTDOT f.raw hdd h1
          have n2 := strcmpEq_cstr arg f.raw harg h2
          have e : arg = DOTDOT := by
            rw [n1] at n2
            simp only [Option.some.injEq] at n2
            exact n2.symm
          refine ⟨n2, ?_⟩
          simp only [Bool.not_false, if_true, ADDR_ZERO, ROOT_DIR_CLUS_NUM] at h
          split at h
          · rename_i hz
            rw [if_pos ⟨e, hz⟩]
            simp only [Option.some.injEq] at h
            exact h.symm
          · rename_i hz
            rw [if_neg (fun hc => hz hc.2)]
            simp only [Option.some.injEq] at h
            rw [← h]
            exact newClusOf_eq f
        · cases h
        · cases h
        · rename_i h1 h2
          have n2 := strcmpEq_cstr arg f.raw harg h2
          refine ⟨n2, ?_⟩
          have e : arg ≠ DOTDOT := by
            intro e
            rw [e] at h2
            rw [h2] at h1
            cases h1
          rw [if_neg (fun hc => e hc.1)]
          simp only [Option.some.injEq] at h
          rw [← h]
          exact newClusOf_eq f
        · cases h
    · cases h

/-- C16 (amended) at the entry `SUB` of `dirImg` (cluster halves 1 and 7) and at its entry
`..` (both halves 0), for the current cluster 5. -/
theorem doCD_entry_returns_entry_cluster_witness :
    (∃ f, formatDirectory ⟨mkEntry (ascii "SUB        ") 0x10 1 7 0⟩ = some f
      ∧ f.DIR_Attr = ATTR_DIRECTORY
      ∧ (fat32Dir.DIR_Attr ⟨mkEntry (ascii "SUB        ") 0x10 1 7 0⟩ = ATTR_DIRECTORY →
          f.DIR_FstClusHI = fat32Dir.DIR_FstClusHI ⟨mkEntry (ascii "SUB        ") 0x10 1 7 0⟩
          ∧ f.DIR_FstClusLO = fat32Dir.DIR_FstClusLO ⟨mkEntry (ascii "SUB        ") 0x10 1 7 0⟩)
      ∧ (ascii "SUB" = DOT → 65543 = 5)
      ∧ (ascii "SUB" ≠ DOT → f.name = some (ascii "SUB")
          ∧ (if ascii "SUB" = DOTDOT ∧ f.DIR_FstClusLO = 0 ∧ f.DIR_FstClusHI = 0 then 65543 = 2
             else 65543 = (f.DIR_FstClusHI <<< 16) % 2 ^ 32 ||| f.DIR_FstClusLO)))
    ∧ doCD dirImg fileGeo (some (ascii "SUB")) doCD_entry 3 5
      = some ⟨[.enter 5, .slot 45056, .slot 45088, .slot 45120], .returned 65543⟩
    ∧ doCD dirImg fileGeo (some DOTDOT) doCD_entry 3 5
      = some ⟨[.enter 5, .slot 45056, .slot 45088], .returned 2⟩ :=
  ⟨doCD_entry_returns_entry_cluster (ascii "SUB") 5 65543 ⟨mkEntry (ascii "SUB        ") 0x10 1 7 0⟩
    (by decide) (by decide), by decide, by decide⟩
/-! ## The names `formatDirectory` leaves -/

/-- C19 at its failing inputs. For the raw name `FILE    TXT` with the attribute `0x20`
(archive) `formatDirectory` leaves the name `FILE.TXT`; with the attribute `0x21` (archive
and read-only) it leaves `FILE`, the extension is lost; and for the raw name `FILENAMEC  `
(base of 8 characters, extension `C`) with the attribute `0x20` it leaves `FILENAMEC.`,
not `FILENAME.C`. -/
theorem formatDirectory_loses_extension :
    (formatDirectory ⟨mkEntry (ascii "FILE    TXT") 0x20 0 7 100⟩).bind fat32Dir.name
      = some (ascii "FILE.TXT")
    ∧ (formatDirectory ⟨mkEntry (ascii "FILE    TXT") 0x21 0 7 100⟩).bind fat32Dir.name
      = some (ascii "FILE")
    ∧ (formatDirectory ⟨mkEntry (ascii "FILENAMEC  ") 0x20 0 7 100⟩).bind fat32Dir.name
      = some (ascii "FILENAMEC.") :=
  ⟨by decide, by decide, by decide⟩

/-- C20 at its failing input. For the raw name `README` padded with spaces and the
attribute `0x20` (archive) `formatDirectory` leaves the name `README.`, with a dot; with
the attribute `0x10` (directory) or `0x21` it leaves `README`, and for the directory `DIR`
it leaves `DIR`. -/
theorem formatDirectory_appends_dot_without_extension :
    (formatDirectory ⟨mkEntry (ascii "README     ") 0x20 0 7 100⟩).bind fat32Dir.name
      = some (ascii "README.")
    ∧ (formatDirectory ⟨mkEntry (ascii "README     ") 0x10 0 7 0⟩).bind fat32Dir.name
      = some (ascii "README")
    ∧ (formatDirectory ⟨mkEntry (ascii "README     ") 0x21 0 7 100⟩).bind fat32Dir.name
      = some (ascii "README")
    ∧ (formatDirectory ⟨mkEntry (ascii "DIR        ") 0x10 0 7 0⟩).bind fat32Dir.name
      = some (ascii "DIR") :=
  ⟨by decide, by decide, by decide, by decide⟩

/-! ## `checkName` -/

theorem isalnum_range (c : Nat) (h : isalnum c = true) :
    VALID_ASCII_START ≤ c ∧ c ≤ VALID_ASCII_END := by
  simp only [isalnum, isalpha, Bool.or_eq_true, Bool.and_eq_true, decide_eq_true_eq] at h
  simp only [VALID_ASCII_START, VALID_ASCII_END]
  omega

/-- The value of `checkName` on a string `s` (without NUL) followed by its NUL. -/
theorem checkName_eq (rest : List Nat) : ∀ s : List Nat, (∀ b ∈ s, b ≠ 0) →
    checkName (s ++ 0 :: rest) = some (s.all fun b => decide (0x21 ≤ b ∧ b ≤ 0x7E)) := by
  intro s
  induction s with
  | nil => intro _; rfl
  | cons c t ih =>
    intro hs
    have hc : c ≠ 0 := hs c (List.mem_cons_self _ _)
    have iht := ih (fun b hb => hs b (List.mem_cons_of_mem _ hb))
    simp only [List.cons_append, List.all_cons]
    rw [checkName]
    by_cases hr : 0x21 ≤ c ∧ c ≤ 0x7E
    · rw [if_pos ⟨hc, Or.inr (by simpa [VALID_ASCII_START, VALID_ASCII_END] using hr)⟩, iht]
      simp [hr]
    · have hn : ¬ (c ≠ 0 ∧ (isalnum c = true ∨ (VALID_ASCII_START ≤ c ∧ c ≤ VALID_ASCII_END))) := by
        rintro ⟨_, h | h⟩
        · exact hr (by simpa [VALID_ASCII_START, VALID_ASCII_END] using isalnum_range c h)
        · exact hr (by simpa [VALID_ASCII_START, VALID_ASCII_END] using h)
      rw [if_neg hn]
      have hb : (c == 0) = false := by simpa using hc
      simp [hr, hb]

/-- C22. For every string `s` (bytes other than NUL) followed by its terminator, whatever
lies behind the terminator: `checkName` returns, and it returns non-zero if and only if
every byte of `s` lies in `0x21..0x7E`.  So the empty string is accepted, and a string
with a space, a control byte or a byte from `0x7F` on is rejected. -/
theorem checkName_accepts_printable_only (s rest : List Nat) (hs : ∀ b ∈ s, b ≠ 0) :
    (∃ v, checkName (s ++ 0 :: rest) = some v)
    ∧ (checkName (s ++ 0 :: rest) = some true ↔ ∀ b ∈ s, 0x21 ≤ b ∧ b ≤ 0x7E)
    ∧ checkName (0 :: rest) = some true
    ∧ (∀ b ∈ s, (b ≤ 0x20 ∨ 0x7F ≤ b) → checkName (s ++ 0 :: rest) = some false) := by
  have h := checkName_eq rest s hs
  refine ⟨⟨_, h⟩, ?_, rfl, ?_⟩
  · rw [h]
    simp only [Option.some.injEq, List.all_eq_true, decide_eq_true_eq]
  · intro b hb hout
    rw [h]
    simp only [Option.some.injEq, List.all_eq_false, decide_eq_true_eq]
    exact ⟨b, hb, by omega⟩

/-- C22 at the names `FILE.TXT` (accepted) and `FI LE` (rejected for its space). -/
theorem checkName_accepts_printable_only_witness :
    checkName (ascii "FILE.TXT" ++ 0 :: [0x20, 0x01]) = some true
    ∧ checkName (ascii "FI LE" ++ 0 :: []) = some false :=
  ⟨((checkName_accepts_printable_only (ascii "FILE.TXT") [0x20, 0x01] (by decide)).2.1).mpr
      (by decide),
    (checkName_accepts_printable_only (ascii "FI LE") [] (by decide)).2.2.2 0x20 (by decide)
      (by decide)⟩
/-! ## `getFreeSpace` -/

/-- C23. For every free cluster count of 32 bits other than `0xFFFFFFFF`, every
`BPB_SecPerClus` of 8 bits and `BPB_BytesPerSec` of 16 bits, `getFreeSpace` prints no
message and returns the product of the three, which is below `2 ^ 64`: neither
`uint64_t` product wraps. -/
theorem getFreeSpace_product (h : fat32Head)
    (hf : h.fsi.FSI_Free_Count < 2 ^ 32) (hu : h.fsi.FSI_Free_Count ≠ 0xFFFFFFFF)
    (hs : h.bs.BPB_SecPerClus < 2 ^ 8) (hb : h.bs.BPB_BytesPerSec < 2 ^ 16) :
    getFreeSpace h
      = ⟨false, h.fsi.FSI_Free_Count * h.bs.BPB_SecPerClus * h.bs.BPB_BytesPerSec⟩
    ∧ h.fsi.FSI_Free_Count * h.bs.BPB_SecPerClus * h.bs.BPB_BytesPerSec < 2 ^ 64 := by
  have h1 : h.fsi.FSI_Free_Count * h.bs.BPB_SecPerClus ≤ (2 ^ 32 - 1) * (2 ^ 8 - 1) :=
    Nat.mul_le_mul (by omega) (by omega)
  have h2 : h.fsi.FSI_Free_Count * h.bs.BPB_SecPerClus * h.bs.BPB_BytesPerSec
      ≤ (2 ^ 32 - 1) * (2 ^ 8 - 1) * (2 ^ 16 - 1) := Nat.mul_le_mul h1 (by omega)
  have h3 : (2 ^ 32 - 1) * (2 ^ 8 - 1) * (2 ^ 16 - 1) < 2 ^ 64 := by decide
  have e1 : (h.fsi.FSI_Free_Count * h.bs.BPB_SecPerClus) % U64
      = h.fsi.FSI_Free_Count * h.bs.BPB_SecPerClus :=
    Nat.mod_eq_of_lt (by
      have : (2 ^ 32 - 1) * (2 ^ 8 - 1) < 2 ^ 64 := by decide
      simp only [U64]
      omega)
  have e2 : (h.fsi.FSI_Free_Count * h.bs.BPB_SecPerClus * h.bs.BPB_BytesPerSec) % U64
      = h.fsi.FSI_Free_Count * h.bs.BPB_SecPerClus * h.bs.BPB_BytesPerSec :=
    Nat.mod_eq_of_lt (by
      simp only [U64]
      omega)
  refine ⟨?_, by omega⟩
  unfold getFreeSpace
  simp only [FREE_CLUS_UNKNOWN]
  rw [if_neg hu, e1, e2]

/-- C23 at 100 free clusters of 8 sectors of 512 bytes: 409600 bytes. -/
theorem getFreeSpace_product_witness :
    getFreeSpace (freeHead 100) = ⟨false, 100 * 8 * 512⟩ ∧ 100 * 8 * 512 = 409600 :=
  ⟨(getFreeSpace_product (freeHead 100) (by decide) (by decide) (by decide) (by decide)).1,
    by decide⟩

/-- C24 as stated fails: for the free cluster count `0xFFFFFFFF` the value `getFreeSpace`
returns is 0, the value it returns for a free cluster count of 0. -/
theorem getFreeSpace_unknown_returns_zero :
    (getFreeSpace (freeHead 0xFFFFFFFF)).value = 0
    ∧ (getFreeSpace (freeHead 0)).value = 0
    ∧ (getFreeSpace (freeHead 0xFFFFFFFF)).value = (getFreeSpace (freeHead 0)).value :=
  ⟨by decide, by decide, by decide⟩

/-- C24 (amended). When `FSI_Free_Count` is `0xFFFFFFFF`, `getFreeSpace` prints "error:
free count unknown" and returns 0; when it is 0, `getFreeSpace` prints nothing and
returns 0.  The two calls differ in the message only, not in the value returned. -/
theorem getFreeSpace_unknown (h h0 : fat32Head)
    (hu : h.fsi.FSI_Free_Count = 0xFFFFFFFF) (hz : h0.fsi.FSI_Free_Count = 0) :
    getFreeSpace h = ⟨true, 0⟩ ∧ getFreeSpace h0 = ⟨false, 0⟩ := by
  constructor
  · unfold getFreeSpace
    simp only [FREE_CLUS_UNKNOWN]
    rw [if_pos hu]
  · unfold getFreeSpace
    simp only [FREE_CLUS_UNKNOWN, hz]
    rw [if_neg (by decide)]
    simp

/-- C24 (amended) at two heads with 8 sectors of 512 bytes per cluster. -/
theorem getFreeSpace_unknown_witness :
    getFreeSpace (freeHead 0xFFFFFFFF) = ⟨true, 0⟩ ∧ getFreeSpace (freeHead 0) = ⟨false, 0⟩ :=
  getFreeSpace_unknown (freeHead 0xFFFFFFFF) (freeHead 0) (by decide) (by decide)
/-! ## What `createHead` keeps of the image -/

/-- The parts of a head that `createHead` returned. -/
theorem createHead_parts (img : Image) (h : fat32Head) (hh : createHead img = some h) :
    bootSectorInit img = some h.bs
    ∧ dirInit img h.bs.BPB_RootClus = some h.dir
    ∧ fsiInit img h.bs h.bs.BPB_FSInfo = some h.fsi
    ∧ h.dir.DIR_Attr ≤ 0x20 := by
  unfold createHead at hh
  cases hb : bootSectorInit img with
  | none => rw [hb] at hh; cases hh
  | some bs =>
    rw [hb] at hh
    simp only at hh
    split at hh
    · cases hh
    · split at hh
      · cases hh
      · split at hh
        · cases hh
        · rename_i dir hd
          split at hh
          · cases hh
          · rename_i fsi hf
            split at hh
            · cases hh
            · rename_i hattr
              simp only [Option.some.injEq] at hh
              subst hh
              exact ⟨rfl, hd, hf, Nat.le_of_not_lt hattr⟩

/-- A `char[n]` member of a record that was read from the image whole. -/
theorem bytesAt_read (img : Image) (pos len off n : Nat) (h : off + n ≤ len)
    (hs : pos + len ≤ img.size) :
    bytesAt (img.read pos len) off n = (List.range n).map (fun i => img.get8 (pos + off + i)) := by
  apply List.ext_getElem?
  intro i
  by_cases hi : i < n
  · have e : min len (img.size - pos) = len := by omega
    simp only [bytesAt, Image.read, e, List.getElem?_take, hi, if_true, List.getElem?_drop,
      List.getElem?_map, List.getElem?_range, Image.get8]
    rw [List.getElem?_range (by omega)]
    simp only [Option.map_some', Nat.add_assoc]
  · have l1 : (bytesAt (img.read pos len) off n).length ≤ i := by
      simp only [bytesAt, List.length_take]
      omega
    have l2 : ((List.range n).map (fun i => img.get8 (pos + off + i))).length ≤ i := by
      simp only [List.length_map, List.length_range]
      omega
    rw [List.getElem?_eq_none l1, List.getElem?_eq_none l2]

/-- C25 as stated fails: `createHead` accepts `labelVol`, whose 11 bytes at offset 71 are
`MYVOLUMEABC` and whose 8 bytes at offset 82 are `FAT32ABC`; the label of the head is
`MYVOLUMEAB` and a NUL, its type string `FAT32AB` and a NUL. -/
theorem createHead_cuts_label :
    (List.range 11).map (fun i => labelVol.get8 (71 + i)) = ascii "MYVOLUMEABC"
    ∧ (List.range 8).map (fun i => labelVol.get8 (82 + i)) = ascii "FAT32ABC"
    ∧ (createHead labelVol).map (fun h => (h.bs.BS_VolLab, h.bs.BS_FilSysType))
      = some (ascii "MYVOLUMEAB" ++ [0], ascii "FAT32AB" ++ [0]) :=
  ⟨by decide, by decide, by decide⟩

/-- C25 (amended). For every image `createHead` accepts, the first 10 bytes of the volume
label of the head are the image bytes at offsets 71 to 80 and the first 7 bytes of its type
string the image bytes at offsets 82 to 88; the 11th byte of the label and the 8th byte of
the type string are NUL, whatever the image holds at offsets 81 and 89. -/
theorem createHead_label_bytes (img : Image) (h : fat32Head) (hh : createHead img = some h) :
    h.bs.BS_VolLab = (List.range 10).map (fun i => img.get8 (71 + i)) ++ [0]
    ∧ h.bs.BS_FilSysType = (List.range 7).map (fun i => img.get8 (82 + i)) ++ [0]
    ∧ bsOff .BS_VolLab = 71 ∧ bsOff .BS_FilSysType = 82 := by
  have hb := (createHead_parts img h hh).1
  have hsz : sizeof_fat32BS = 512 := by decide
  have o1 : bsOff .BS_VolLab = 71 := by decide
  have o2 : bsOff .BS_FilSysType = 82 := by decide
  unfold bootSectorInit at hb
  simp only [hsz, read_length] at hb
  split at hb
  · cases hb
  · rename_i hlen
    have hs : 0 + 512 ≤ img.size := by omega
    simp only [Option.some.injEq] at hb
    rw [← hb]
    simp only [decodeBS, o1, o2, BS_VolLab_LENGTH, BS_FilSysType_LENGTH]
    rw [bytesAt_read img 0 512 71 11 (by omega) hs, bytesAt_read img 0 512 82 8 (by omega) hs]
    have r11 : List.range 11 = [0, 1, 2, 3, 4, 5, 6, 7, 8, 9, 10] := by decide
    have r10 : List.range 10 = [0, 1, 2, 3, 4, 5, 6, 7, 8, 9] := by decide
    have r8 : List.range 8 = [0, 1, 2, 3, 4, 5, 6, 7] := by decide
    have r7 : List.range 7 = [0, 1, 2, 3, 4, 5, 6] := by decide
    rw [r11, r10, r8, r7]
    simp [List.set]

/-- C25 (amended) at `labelVol`. -/
theorem createHead_label_bytes_witness :
    ∃ h, createHead labelVol = some h
      ∧ h.bs.BS_VolLab = (List.range 10).map (fun i => labelVol.get8 (71 + i)) ++ [0]
      ∧ (List.range 10).map (fun i => labelVol.get8 (71 + i)) = ascii "MYVOLUMEAB" :=
  match hc : createHead labelVol with
  | some h => ⟨h, rfl, (createHead_label_bytes labelVol h hc).1, by decide⟩
  | none => absurd hc (by decide)
/-- The record `createHead` keeps in `head->dir` and verifies: the 32 image bytes at the
byte offset `BPB_RootClus` (the value at offset 44), with the byte at index 10 set to NUL;
its attribute byte is the image byte at offset `BPB_RootClus + 11`. -/
theorem createHead_dir_record (img : Image) (h : fat32Head) (hh : createHead img = some h) :
    h.dir.raw = (img.read (img.get32 44) 32).set 10 0
    ∧ h.dir.DIR_Attr = img.get8 (img.get32 44 + 11)
    ∧ img.get8 (img.get32 44 + 11) ≤ 0x20 := by
  obtain ⟨hb, hd, _, hattr⟩ := createHead_parts img h hh
  obtain ⟨_, _, _, _, _, _, _, _, _, _, _, h44, _, _, _, _⟩ := bootSectorInit_fields img h.bs hb
  rw [h44] at hd
  have hsz : sizeof_fat32Dir = 32 := by decide
  unfold dirInit at hd
  simp only [hsz, read_length, DIR_NAME_LENGTH] at hd
  split at hd
  · cases hd
  · split at hd
    · cases hd
    · rename_i hlen
      simp only [Option.some.injEq] at hd
      have hraw : h.dir.raw = (img.read (img.get32 44) 32).set 10 0 := by rw [← hd]
      have ha : h.dir.DIR_Attr = img.get8 (img.get32 44 + 11) := by
        have o : dirOff DirField.DIR_Attr = 11 := by decide
        unfold fat32Dir.DIR_Attr u8
        rw [o, hraw, List.getD_eq_getElem?_getD, List.getElem?_set_ne (by omega),
          ← List.getD_eq_getElem?_getD]
        exact u8_read img (img.get32 44) 32 11 (by omega) (by omega)
      exact ⟨hraw, ha, by rw [← ha]; exact hattr⟩

/-- C26 at its failing inputs. Both images record the root cluster 2, whose first entry
lies at byte `getFirstSectorOfClus 2 = 16793600`; `createHead` reads its record at byte 2.
In `spc64Vol` that entry has the attribute `0x08`, and `createHead` rejects the image: the
byte it tests is image byte `2 + 11 = 13`, the sectors per cluster, 64 (the FSInfo sector
passes).  In `badRootVol`
the entry has the attribute `0x3F`, above `0x20`, and `createHead` accepts the image: byte
13 is 8. -/
theorem createHead_verifies_boot_sector_byte :
    (bootSectorInit spc64Vol).map (fun bs => (bs.BPB_RootClus, getFirstSectorOfClus bs 2))
      = some (2, some 16793600)
    ∧ (readDir spc64Vol 16793600 0).map (fun d => d.DIR_Attr) = some 0x08
    ∧ spc64Vol.get8 (2 + 11) = 64
    ∧ ((bootSectorInit spc64Vol).bind fun bs => dirInit spc64Vol bs.BPB_RootClus).map
        (fun d => d.DIR_Attr) = some 64
    ∧ ((bootSectorInit spc64Vol).bind fun bs => fsiInit spc64Vol bs bs.BPB_FSInfo).isSome = true
    ∧ (createHead spc64Vol).isSome = false
    ∧ (readDir badRootVol 16793600 0).map (fun d => d.DIR_Attr) = some 0x3F
    ∧ badRootVol.get8 (2 + 11) = 8
    ∧ (createHead badRootVol).map
        (fun h => (h.bs.BPB_RootClus, getFirstSectorOfClus h.bs 2, h.dir.raw, h.dir.DIR_Attr))
      = some (2, some 16793600, (badRootVol.read 2 32).set 10 0, 8) :=
  ⟨by decide, by decide, by decide, by decide, by decide, by decide, by decide, by decide,
    by decide⟩

/-! ## What `formatDirectory` changes -/

/-- C27 at its failing inputs. (1) The file entry `FILENAMETXT` with the attribute `0x20`:
after `formatDirectory` its name is `FILENAME.TXT` and its `DIR_Attr` is `0x54`.  (2) The
directory entry `LONGDIRNAME` with the attribute `0x10`: afterwards its `DIR_Attr` is 0, the
body of `doDir` prints no line for it and the body of `doCD` returns nothing for the
argument `LONGDIRNAME`.  (3) `stampedEntry`, whose first cluster is `0x00010005`:
afterwards `DIR_FstClusHI` is `0x0151` and the cluster `doDownload` computes is
`0x01510005`. -/
theorem formatDirectory_changes_other_members :
    fat32Dir.DIR_Attr ⟨mkEntry (ascii "FILENAMETXT") 0x20 0 7 100⟩ = 0x20
    ∧ (formatDirectory ⟨mkEntry (ascii "FILENAMETXT") 0x20 0 7 100⟩).map
        (fun f => (f.name, f.DIR_Attr)) = some (some (ascii "FILENAME.TXT"), 0x54)
    ∧ fat32Dir.DIR_Attr ⟨mkEntry (ascii "LONGDIRNAME") 0x10 0 7 0⟩ = 0x10
    ∧ (formatDirectory ⟨mkEntry (ascii "LONGDIRNAME") 0x10 0 7 0⟩).map
        (fun f => (f.name, f.DIR_Attr)) = some (some (ascii "LONGDIRNAME"), 0)
    ∧ doDir_entry 0 ⟨[]⟩ ⟨mkEntry (ascii "LONGDIRNAME") 0x10 0 7 0⟩ = some false
    ∧ doCD_entry (ascii "LONGDIRNAME") false 5 ⟨mkEntry (ascii "LONGDIRNAME") 0x10 0 7 0⟩ = none
    ∧ (stampedEntry.raw.length, stampedEntry.DIR_Attr, stampedEntry.DIR_FstClusHI,
        stampedEntry.DIR_FstClusLO, newClusOf stampedEntry) = (32, 0x20, 1, 5, 0x00010005)
    ∧ (formatDirectory stampedEntry).map
        (fun f => (f.name, f.DIR_Attr, f.DIR_FstClusHI, f.DIR_FstClusLO, newClusOf f))
      = some (some (ascii "FILENAME.TXT"), 0x54, 0x0151, 5, 0x01510005) :=
  ⟨by decide, by decide, by decide, by decide, by decide, by decide, by decide, by decide⟩

/-! ## Sector and cluster sizes of zero -/

/-- C29 as stated fails: `createHead` accepts `zeroSpcVol`, whose sectors per cluster are
0, and `zeroBpsVol`, whose bytes per sector are 0.  On the first the cluster count of
`printInfo` is a division by zero; on the second `getFirstSectorOfClus`, `getNextClus`
and that count divide by zero. -/
theorem createHead_accepts_zero_geometry :
    (createHead zeroSpcVol).map
        (fun h => (h.bs.BPB_BytesPerSec, h.bs.BPB_SecPerClus, countOfClusters h.bs))
      = some (512, 0, none)
    ∧ (createHead zeroBpsVol).map
        (fun h => (h.bs.BPB_BytesPerSec, h.bs.BPB_SecPerClus, getFirstSectorOfClus h.bs 2,
          getNextClus zeroBpsVol h.bs 2, countOfClusters h.bs))
      = some (0, 8, none, none, none) :=
  ⟨by decide, by decide⟩

/-- C29 (amended). `createHead` checks neither size.  For every image it accepts, the
bytes per sector of the head are the 16-bit value at image offset 11 and the sectors per
cluster the byte at offset 13, zero or not; `getFirstSectorOfClus` divides by zero exactly
when the first is 0, `getNextClus` does when it is 0, and the cluster count of `printInfo`
divides by zero exactly when one of the two is 0. -/
theorem division_by_zero_iff_zero_geometry (img : Image) (h : fat32Head)
    (hh : createHead img = some h) :
    h.bs.BPB_BytesPerSec = img.get16 11 ∧ h.bs.BPB_SecPerClus = img.get8 13
    ∧ (∀ c, getFirstSectorOfClus h.bs c = none ↔ img.get16 11 = 0)
    ∧ (img.get16 11 = 0 → ∀ c, getNextClus img h.bs c = none)
    ∧ (countOfClusters h.bs = none ↔ img.get16 11 = 0 ∨ img.get8 13 = 0) := by
  obtain ⟨hb, _, _, _⟩ := createHead_parts img h hh
  obtain ⟨_, h11, h13, _⟩ := bootSectorInit_fields img h.bs hb
  rw [← h11, ← h13]
  refine ⟨rfl, rfl, ?_, ?_, ?_⟩
  · intro c
    unfold getFirstSectorOfClus
    constructor
    · intro hn
      split at hn
      · assumption
      · cases hn
    · intro hz
      rw [if_pos hz]
  · intro hz c
    unfold getNextClus
    rw [if_pos hz]
  · unfold countOfClusters
    constructor
    · intro hn
      split at hn
      · left; assumption
      · simp only at hn
        split at hn
        · right; assumption
        · cases hn
    · rintro (hz | hz)
      · rw [if_pos hz]
      · by_cases hb0 : h.bs.BPB_BytesPerSec = 0
        · rw [if_pos hb0]
        · rw [if_neg hb0]
          simp only
          rw [if_pos hz]

/-- C29 (amended) at `bigVol` (512 bytes per sector, 8 sectors per cluster: no division
by zero) and at `zeroBpsVol`. -/
theorem division_by_zero_iff_zero_geometry_witness :
    (∃ h, createHead bigVol = some h ∧ bigVol.get16 11 = 512
      ∧ (getFirstSectorOfClus h.bs 2 = none ↔ bigVol.get16 11 = 0)
      ∧ getFirstSectorOfClus h.bs 2 ≠ none)
    ∧ (∃ h, createHead zeroBpsVol = some h ∧ getFirstSectorOfClus h.bs 2 = none) :=
  ⟨match hc : createHead bigVol with
    | some h =>
      ⟨h, rfl, by decide, (division_by_zero_iff_zero_geometry bigVol h hc).2.2.1 2,
        fun hn => absurd (((division_by_zero_iff_zero_geometry bigVol h hc).2.2.1 2).mp hn)
          (by decide)⟩
    | none => absurd hc (by decide),
   match hc : createHead zeroBpsVol with
    | some h =>
      ⟨h, rfl, ((division_by_zero_iff_zero_geometry zeroBpsVol h hc).2.2.1 2).mpr (by decide)⟩
    | none => absurd hc (by decide)⟩
/-! ## Termination of `writeFile` -/

/-- With clusters of `cb > 0` bytes, `n ≥ 1` calls are enough for a size of at most
`n * cb`, whatever the FAT holds: the run ends (it returns, or it stops where
`getNextClus` gives no entry) and has entered at least one and at most `n` clusters. -/
theorem writeFile_bounded (img : Image) (bs : fat32BS) (hcb : 0 < bytesPerClus bs) :
    ∀ (n fuel c s : Nat), 1 ≤ n → n ≤ fuel → s ≤ n * bytesPerClus bs →
      ∃ r, writeFile img bs fuel c (s : Int) = some r
        ∧ 1 ≤ (clusters r.trace).length ∧ (clusters r.trace).length ≤ n := by
  have hb : bs.BPB_BytesPerSec ≠ 0 := by
    intro h0
    simp only [bytesPerClus, h0, Nat.mul_zero] at hcb
    omega
  intro n
  induction n with
  | zero => intro fuel c s h1; omega
  | succ k ih =>
    intro fuel c s _ hfuel hs
    obtain ⟨f, rfl⟩ : ∃ f, fuel = f + 1 := ⟨fuel - 1, by omega⟩
    obtain ⟨off, hoff, _⟩ := getFirstSectorOfClus_isSome bs c hb
    by_cases hle : s ≤ bytesPerClus bs
    · exact ⟨_, writeFile_last img bs f c off s hoff hle, by simp [clusters],
        by simp [clusters]⟩
    · have hlt : bytesPerClus bs < s := by omega
      have hk : 1 ≤ k := by
        rcases Nat.eq_zero_or_pos k with h0 | h0
        · subst h0
          omega
        · exact h0
      have h0 : ¬ ((s : Int) < 0) := by omega
      have h1 : ¬ ((s : Int) ≤ (bytesPerClus bs : Int)) := by omega
      cases hv : getNextClus img bs c with
      | none =>
        refine ⟨⟨[.enter c, .write (bytesPerClus bs) (img.read off (bytesPerClus bs))],
          .exited⟩, ?_, by simp [clusters], by simp [clusters]⟩
        simp only [writeFile, if_neg h0, hoff, if_neg h1, hv]
      | some v =>
        by_cases he : v < EOC
        · have hrest : s - bytesPerClus bs ≤ k * bytesPerClus bs := by
            rw [Nat.succ_mul] at hs
            omega
          obtain ⟨r, hr, hr1, hr2⟩ := ih f v (s - bytesPerClus bs) hk (by omega) hrest
          refine ⟨⟨.enter c :: .write (bytesPerClus bs) (img.read off (bytesPerClus bs))
            :: r.trace, r.outcome⟩, ?_, by simp [clusters], ?_⟩
          · rw [writeFile_next img bs f c off s v hoff hlt hv he, hr]
          · simp only [clusters, List.length_cons]
            omega
        · exact ⟨_, writeFile_eoc img bs f c off s v hoff hlt hv (by omega),
            by simp [clusters], by simp [clusters]⟩

/-- C28. For every image, whatever its FAT holds, every start cluster, every cluster size
`cb = BPB_SecPerClus * BPB_BytesPerSec > 0` and every `fileSize ≥ 0`, with
`k = max 1 ⌈fileSize / cb⌉`: `k` nested calls are enough for `writeFile` to end, and the
run has entered at most `k` clusters. -/
theorem writeFile_terminates (img : Image) (bs : fat32BS) (c : Nat) (fileSize : Int)
    (fuel : Nat) (hs : 0 ≤ fileSize) (hcb : 0 < bs.BPB_SecPerClus * bs.BPB_BytesPerSec)
    (hfuel : max 1 ((fileSize.toNat + bs.BPB_SecPerClus * bs.BPB_BytesPerSec - 1)
      / (bs.BPB_SecPerClus * bs.BPB_BytesPerSec)) ≤ fuel) :
    ∃ r, writeFile img bs fuel c fileSize = some r
      ∧ (clusters r.trace).length
        ≤ max 1 ((fileSize.toNat + bs.BPB_SecPerClus * bs.BPB_BytesPerSec - 1)
          / (bs.BPB_SecPerClus * bs.BPB_BytesPerSec)) := by
  have e : fileSize = ((fileSize.toNat : Nat) : Int) := (Int.toNat_of_nonneg hs).symm
  have hsz : fileSize.toNat
      ≤ max 1 ((fileSize.toNat + bs.BPB_SecPerClus * bs.BPB_BytesPerSec - 1)
          / (bs.BPB_SecPerClus * bs.BPB_BytesPerSec))
        * (bs.BPB_SecPerClus * bs.BPB_BytesPerSec) :=
    size_le_of_ceil_le _ _ _ hcb (Nat.le_max_right _ _)
  obtain ⟨r, hr, _, h2⟩ := writeFile_bounded img bs hcb _ fuel c fileSize.toNat
    (Nat.le_max_left _ _) hfuel hsz
  rw [← e] at hr
  exact ⟨r, hr, h2⟩

/-- C28 at `cycleImg`, whose FAT holds the cycle 5 → 9 → 5, with clusters of 4096 bytes:
for 9000 bytes three calls are enough, and the run enters clusters 5, 9 and 5. -/
theorem writeFile_terminates_witness :
    closedChain cycleImg fileGeo [5, 9] = true
    ∧ max 1 (((9000 : Int).toNat + 8 * 512 - 1) / (8 * 512)) = 3
    ∧ (∃ r, writeFile cycleImg fileGeo 3 5 9000 = some r
        ∧ (clusters r.trace).length
          ≤ max 1 (((9000 : Int).toNat + fileGeo.BPB_SecPerClus * fileGeo.BPB_BytesPerSec - 1)
            / (fileGeo.BPB_SecPerClus * fileGeo.BPB_BytesPerSec)))
    ∧ (writeFile cycleImg fileGeo 3 5 9000).map (fun r => (clusters r.trace, r.outcome))
      = some ([5, 9, 5], .returned ()) :=
  ⟨by decide, by decide,
    writeFile_terminates cycleImg fileGeo 5 9000 3 (by decide) (by decide) (by decide),
    by decide⟩
/-! ## The name `formatDirectory` leaves for a directory -/

theorem take_set_self (c : Nat) : ∀ (m : List Nat) (j : Nat), (m.set j c).take j = m.take j := by
  intro m
  induction m with
  | nil => intro j; simp
  | cons a t ih =>
    intro j
    cases j with
    | zero => simp
    | succ j => simp [ih j]

theorem take_succ_set (m : List Nat) (j c : Nat) (h : j < m.length) :
    (m.set j c).take (j + 1) = m.take j ++ [c] := by
  rw [List.take_succ, take_set_self, List.getElem?_set_self h]
  rfl

/-- The first loop of `formatDirectory` run over the indices `i, ..., i + n - 1` with the
store index `j` not ahead: the bytes read there that are not white space end up, in order,
at the indices from `j` on. -/
theorem copyNoSpace_spec : ∀ (n : Nat) (m : List Nat) (j i : Nat), j ≤ i → i + n ≤ m.length →
    (copyNoSpace m j (List.range' i n)).1.length = m.length
    ∧ (copyNoSpace m j (List.range' i n)).2
        = j + (((m.drop i).take n).filter (fun b => !isspace b)).length
    ∧ (copyNoSpace m j (List.range' i n)).1.take (copyNoSpace m j (List.range' i n)).2
        = m.take j ++ ((m.drop i).take n).filter (fun b => !isspace b) := by
  intro n
  induction n with
  | zero =>
    intro m j i _ _
    simp [copyNoSpace]
  | succ n ih =>
    intro m j i hji hlen
    have hi : i < m.length := by omega
    have hget : m.getD i 0 = m[i] := List.getD_eq_getElem m 0 hi
    have hdrop : (m.drop i).take (n + 1) = m[i] :: (m.drop (i + 1)).take n := by
      rw [List.drop_eq_getElem_cons hi, List.take_succ_cons]
    rw [List.range'_succ, copyNoSpace, hget, hdrop, List.filter_cons]
    by_cases hs : (!isspace m[i]) = true
    · rw [if_pos hs, if_pos hs]
      obtain ⟨h1, h2, h3⟩ := ih (m.set j m[i]) (j + 1) (i + 1) (by omega)
        (by rw [List.length_set]; omega)
      rw [List.drop_set_of_lt _ _ (by omega)] at h2 h3
      rw [List.length_set] at h1
      refine ⟨h1, ?_, ?_⟩
      · rw [h2, List.length_cons]
        omega
      · rw [h3, take_succ_set m j m[i] (by omega)]
        simp
    · rw [if_neg hs, if_neg hs]
      exact ih m j (i + 1) (by omega) (by omega)

theorem getElem?_append_length (pre rest : List Nat) (x : Nat) :
    (pre ++ x :: rest)[pre.length]? = some x := by
  rw [List.getElem?_append_right (Nat.le_refl _), Nat.sub_self, List.getElem?_cons_zero]

/-- On a string without white space `removeSpace`, called with `source = dest`,
changes nothing. -/
theorem removeSpaceGo_fixed : ∀ (w pre t : List Nat) (fuel : Nat),
    (∀ b ∈ w, isspace b = false ∧ b ≠ 0) → w.length < fuel →
    removeSpaceGo fuel (pre ++ w ++ 0 :: t) pre.length pre.length = some (pre ++ w ++ 0 :: t) := by
  intro w
  induction w with
  | nil =>
    intro pre t fuel _ hf
    obtain ⟨f, rfl⟩ : ∃ f, fuel = f + 1 := ⟨fuel - 1, by simp at hf; omega⟩
    have hg : (pre ++ [] ++ 0 :: t)[pre.length]? = some 0 := by
      rw [List.append_nil]
      exact getElem?_append_length pre t 0
    rw [removeSpaceGo, hg]
    have hs : isspace 0 = false := by decide
    simp only [hs, Bool.false_eq_true, if_false, if_true, List.append_nil]
    rw [List.set_append_right _ _ (Nat.le_refl _)]
    simp
  | cons c w ih =>
    intro pre t fuel hw hf
    obtain ⟨f, rfl⟩ : ∃ f, fuel = f + 1 := ⟨fuel - 1, by simp at hf; omega⟩
    obtain ⟨hcs, hc0⟩ := hw c (List.mem_cons_self _ _)
    have hg : (pre ++ c :: w ++ 0 :: t)[pre.length]? = some c := by
      rw [List.append_assoc, List.cons_append]
      exact getElem?_append_length pre _ c
    have hset : (pre ++ c :: w ++ 0 :: t).set pre.length c = pre ++ c :: w ++ 0 :: t := by
      rw [List.append_assoc, List.set_append_right _ _ (Nat.le_refl _)]
      simp
    rw [removeSpaceGo, hg]
    simp only [hcs, Bool.false_eq_true, if_false, if_neg hc0, hset]
    have e : pre ++ c :: w ++ 0 :: t = (pre ++ [c]) ++ w ++ 0 :: t := by simp
    have el : pre.length + 1 = (pre ++ [c]).length := by simp
    rw [e, el]
    exact ih (pre ++ [c]) t f (fun b hb => hw b (List.mem_cons_of_mem _ hb))
      (by simp at hf; omega)

theorem cstr_append (t : List Nat) : ∀ w : List Nat, (∀ b ∈ w, b ≠ 0) →
    cstr (w ++ 0 :: t) = some w := by
  intro w
  induction w with
  | nil => intro _; rfl
  | cons c w ih =>
    intro hw
    have hc : c ≠ 0 := hw c (List.mem_cons_self _ _)
    rw [List.cons_append, cstr, if_neg hc, ih (fun b hb => hw b (List.mem_cons_of_mem _ hb))]
    rfl

theorem append_zero_split : ∀ F : List Nat,
    ∃ t, F ++ [0] = F.takeWhile (fun b => b != 0) ++ 0 :: t := by
  intro F
  induction F with
  | nil => exact ⟨[], rfl⟩
  | cons a F ih =>
    obtain ⟨t, ht⟩ := ih
    by_cases ha : a = 0
    · subst ha
      exact ⟨F ++ [0], by simp⟩
    · refine ⟨t, ?_⟩
      have hb : (a != 0) = true := by simpa using ha
      rw [List.takeWhile_cons, if_pos hb, List.cons_append, ht, List.cons_append]

/-- For an entry with the attribute `ATTR_DIRECTORY`, `formatDirectory` stays inside the
record, and the name it leaves is the 11 name bytes without those that are white space,
up to the first NUL among them. -/
theorem formatDirectory_directory_name (d : fat32Dir) (hlen : 12 ≤ d.raw.length)
    (hd : d.DIR_Attr = ATTR_DIRECTORY) :
    ∃ f, formatDirectory d = some f
      ∧ f.name = some (((d.raw.take 11).filter (fun b => !isspace b)).takeWhile
          (fun b => b != 0)) := by
  obtain ⟨h1, h2, h3⟩ := copyNoSpace_spec 11 d.raw 0 0 (Nat.le_refl _) (by omega)
  simp only [List.drop_zero, List.take_zero, List.nil_append, Nat.zero_add] at h2 h3
  have hF : ((d.raw.take 11).filter (fun b => !isspace b)).length ≤ 11 := by
    refine Nat.le_trans (List.length_filter_le _ _) ?_
    simp only [List.length_take]
    omega
  generalize hFd : (d.raw.take 11).filter (fun b => !isspace b) = F at h2 h3 hF ⊢
  generalize hr : copyNoSpace d.raw 0 (List.range' 0 11) = r at h1 h2 h3
  have hj : r.2 < r.1.length := by omega
  obtain ⟨t, ht⟩ := append_zero_split F
  have hm2 : r.1.set r.2 0
      = [] ++ F.takeWhile (fun b => b != 0) ++ 0 :: (t ++ (r.1.set r.2 0).drop (r.2 + 1)) := by
    conv_lhs => rw [← List.take_append_drop (r.2 + 1) (r.1.set r.2 0)]
    rw [take_succ_set r.1 r.2 0 hj, h3, ht]
    simp
  have hw : ∀ b ∈ F.takeWhile (fun b => b != 0), isspace b = false ∧ b ≠ 0 := by
    intro b hb
    have hb0 := List.mem_takeWhile_imp hb
    have hbF : b ∈ F := (List.takeWhile_sublist _).subset hb
    rw [← hFd] at hbF
    have hbs := (List.mem_filter.mp hbF).2
    exact ⟨by simpa using hbs, by simpa using hb0⟩
  have hwl : (F.takeWhile (fun b => b != 0)).length ≤ 11 :=
    Nat.le_trans (List.takeWhile_sublist _).length_le hF
  refine ⟨⟨r.1.set r.2 0⟩, ?_, ?_⟩
  · unfold formatDirectory
    simp only [if_pos hd, DIR_NAME_LENGTH, List.range_eq_range', hr, poke, if_pos hj]
    have hrm : removeSpace (r.1.set r.2 0) 0 0 = some (r.1.set r.2 0) := by
      unfold removeSpace
      conv_lhs => rw [hm2]
      conv_rhs => rw [hm2]
      exact removeSpaceGo_fixed _ [] _ _ hw (by
        rw [← hm2, List.length_set]
        omega)
    rw [hrm]
  · unfold fat32Dir.name
    simp only
    rw [hm2, List.nil_append]
    exact cstr_append _ _ (fun b hb => (hw b hb).2)

/-- For an entry with the attribute `ATTR_DIRECTORY`, every byte of the name that
`formatDirectory` leaves is one of the 11 raw name bytes: no dot is put in. -/
theorem formatDirectory_directory_bytes (d : fat32Dir) (hlen : 12 ≤ d.raw.length)
    (hd : d.DIR_Attr = ATTR_DIRECTORY) :
    ∃ f n, formatDirectory d = some f ∧ f.name = some n ∧ ∀ b ∈ n, b ∈ d.raw.take 11 := by
  obtain ⟨f, hf, hn⟩ := formatDirectory_directory_name d hlen hd
  refine ⟨f, _, hf, hn, ?_⟩
  intro b hb
  exact (List.mem_filter.mp ((List.takeWhile_sublist _).subset hb)).1

/-- C21 at its failing input. The entry `BACKUPS OLD` with the attribute `0x12` (directory
and hidden) has the directory bit set and no dot among its name bytes; after
`formatDirectory` its name is `BACKUPS.OLD` followed by the byte `0x12`.  With the
attribute `0x10` the same raw name becomes `BACKUPSOLD`. -/
theorem formatDirectory_dots_hidden_directory :
    0x12 &&& ATTR_DIRECTORY = ATTR_DIRECTORY
    ∧ 0x2E ∉ ascii "BACKUPS OLD"
    ∧ (formatDirectory ⟨mkEntry (ascii "BACKUPS OLD") 0x12 0 7 0⟩).bind fat32Dir.name
      = some (ascii "BACKUPS.OLD" ++ [0x12])
    ∧ (formatDirectory ⟨mkEntry (ascii "BACKUPS OLD") 0x10 0 7 0⟩).bind fat32Dir.name
      = some (ascii "BACKUPSOLD") :=
  ⟨by decide, by decide, by decide, by decide⟩

end Fat32
